import Mathlib

/-! # braindump: session normalisation and filtering

A shallow embedding of the Go packages `internal/model`, `internal/filter`,
`internal/claude`, `internal/goose`, `internal/output` and `cmd/braindump` of
block/braindump, followed by theorems about them.

Conventions of the embedding

* A `time.Time` is represented by its instant, an integer count of nanoseconds
  since 0001-01-01T00:00:00Z (the zero value of `time.Time`).  `IsZero`,
  `Before` and `After` only look at the instant.  The zone offset that a
  `time.Time` also carries is kept by `ZonedTime`, which is used where it matters
  which of several values denoting one instant is stored.
* A decoded JSON value (`any` after `json.Unmarshal`) is a `JSON` tree; a
  `map[string]any` is an association list searched from the front.
* Go slices and maps are lists; the nil slice and the nil map are `[]`.  Where
  the nil-ness of a slice decides what is written, the slice is a `Slice`.
* Functions of the Go standard library whose tables or grammars are not part
  of the repository (`json.Unmarshal`, `time.Parse`, the Unicode fold orbits,
  the file system) are parameters of the definitions that call them.
-/

namespace Braindump

/-! ## time.Time -/

/-- An instant: nanoseconds since 0001-01-01T00:00:00Z. -/
abbrev Time := Int

/-- The zero value of `time.Time`. -/
def Time.zero : Time := 0

/-- Go `t.IsZero()`. -/
def Time.IsZero (t : Time) : Bool := decide (t = 0)

/-- Go `t.Before(u)`. -/
def Time.Before (t u : Time) : Bool := decide (t < u)

/-- Go `t.After(u)`. -/
def Time.After (t u : Time) : Bool := decide (u < t)

/-! ## Decoded JSON -/

/-- A value produced by `json.Unmarshal` into `any`. -/
inductive JSON where
  | null : JSON
  | bool (b : Bool) : JSON
  | num (v : Rat) : JSON
  | str (s : String) : JSON
  | arr (items : List JSON) : JSON
  | obj (fields : List (String × JSON)) : JSON

/-- A Go `map[string]any`. -/
abbrev Obj := List (String × JSON)

/-- Go `m[key]` on a `map[string]any`: `none` stands for the nil interface of a missing key. -/
def field (m : Obj) (key : String) : Option JSON := List.lookup key m

/-- Go `v.(string)` on the result of a map index. -/
def asString : Option JSON → Option String
  | some (JSON.str s) => some s
  | _ => none

/-- Go `v.(map[string]any)`. -/
def asObject : Option JSON → Option Obj
  | some (JSON.obj m) => some m
  | _ => none

/-- Go `v.([]any)`. -/
def asArray : Option JSON → Option (List JSON)
  | some (JSON.arr xs) => some xs
  | _ => none

/-- Go `v.(bool)`. -/
def asBool : Option JSON → Option Bool
  | some (JSON.bool b) => some b
  | _ => none

/-- Go `v.(float64)`. -/
def asFloat : Option JSON → Option Rat
  | some (JSON.num v) => some v
  | _ => none

/-! ## internal/model/types.go -/

/-- Go `model.TokenUsage`. -/
structure TokenUsage where
  InputTokens : Int
  OutputTokens : Int
  TotalTokens : Int

/-- Go `model.ContentBlock`; the field `Type` is spelled `Type_`. -/
structure ContentBlock where
  Type_ : String
  Text : String
  ToolName : String
  ToolInput : Obj
  ToolUseID : String
  ToolContent : String

/-- Go `model.MessageMetadata`. -/
structure MessageMetadata where
  IsSidechain : Bool
  AgentID : String
  Tokens : Option TokenUsage
  Model : String
  RequestID : String
  Extra : List (String × String)

/-- Go `model.Message`. -/
structure Message where
  UUID : String
  ParentUUID : String
  Timestamp : Time
  Role : String
  Content : List ContentBlock
  Metadata : MessageMetadata

/-- Go `model.Subagent`. -/
structure Subagent where
  AgentID : String
  Slug : String
  Messages : List Message

/-- Go `model.SessionMetadata`. -/
structure SessionMetadata where
  WorkingDir : String
  GitBranch : String
  Model : String
  Provider : String
  Name : String
  Extra : List (String × String)

/-- Go `model.Session`. -/
structure Session where
  AgentType : String
  SessionID : String
  CreatedAt : Time
  UpdatedAt : Time
  Metadata : SessionMetadata
  Messages : List Message
  Subagents : List Subagent

/-- The zero value of `model.SessionMetadata`. -/
def SessionMetadata.empty : SessionMetadata :=
  { WorkingDir := "", GitBranch := "", Model := "", Provider := "", Name := "", Extra := [] }

/-- The zero value of `model.MessageMetadata`. -/
def MessageMetadata.empty : MessageMetadata :=
  { IsSidechain := false, AgentID := "", Tokens := none, Model := "", RequestID := "", Extra := [] }

/-- The zero value of `model.ContentBlock`. -/
def ContentBlock.empty : ContentBlock :=
  { Type_ := "", Text := "", ToolName := "", ToolInput := [], ToolUseID := "", ToolContent := "" }

/-! ## strings.EqualFold -/

/-- The comparison `strings.EqualFold` makes on one pair of runes.  `orbit sr tr`
stands for the outcome of the `unicode.SimpleFold` loop, which is only reached
when the larger rune `tr` is not ASCII. -/
def foldEqRune (orbit : Char → Char → Bool) (a b : Char) : Bool :=
  if a = b then true
  else
    let sr := if b < a then b else a
    let tr := if b < a then a else b
    if tr.toNat < 128 then
      decide ('A' ≤ sr ∧ sr ≤ 'Z' ∧ tr.toNat = sr.toNat + ('a'.toNat - 'A'.toNat))
    else orbit sr tr

/-- Rune-by-rune body of `strings.EqualFold`. -/
def equalFoldRunes (orbit : Char → Char → Bool) : List Char → List Char → Bool
  | [], [] => true
  | a :: s, b :: t => foldEqRune orbit a b && equalFoldRunes orbit s t
  | _, _ => false

/-- Go `strings.EqualFold(s, t)`. -/
def EqualFold (orbit : Char → Char → Bool) (s t : String) : Bool :=
  equalFoldRunes orbit s.data t.data

/-- A fold table without any non-ASCII orbit; `EqualFold` never consults the
table on ASCII strings. -/
def asciiOrbit : Char → Char → Bool := fun _ _ => false

/-! ## Helpers from the Go standard library -/

/-- Go `int(v)` for a float64 `v`: the fraction is discarded; a value outside the
int64 range gives the amd64 result, the smallest int64. -/
def intOfFloat64 (v : Rat) : Int :=
  let t := Int.tdiv v.num v.den
  if -(2 ^ 63 : Int) ≤ t ∧ t < 2 ^ 63 then t else -(2 ^ 63 : Int)

/-- Two's-complement wrap-around of a 64-bit `int`. -/
def wrapInt64 (x : Int) : Int := (x + 2 ^ 63) % 2 ^ 64 - 2 ^ 63

/-- Go `strings.HasSuffix(s, suffix)`. -/
def HasSuffix (s suffix : String) : Bool := suffix.data.isSuffixOf s.data

/-- Go `strings.TrimSuffix(s, suffix)`. -/
def TrimSuffix (s suffix : String) : String :=
  if HasSuffix s suffix then String.mk (s.data.take (s.data.length - suffix.data.length)) else s

/-- Go `strings.HasPrefix(s, p)`. -/
def HasPrefix (s p : String) : Bool := p.data.isPrefixOf s.data

/-- Go `strings.TrimPrefix(s, p)`. -/
def TrimPrefix (s p : String) : String :=
  if HasPrefix s p then String.mk (s.data.drop p.data.length) else s

/-! ## A reference decoder for RFC 3339 timestamps

`time.Parse` is a parameter of the reader.  Where a concrete decoder is needed,
`parseRFC3339` is used: it accepts the strict grammar of RFC 3339 with an upper
case `T` and `Z`, `YYYY-MM-DDTHH:MM:SS[.fraction](Z|±HH:MM)`, and rejects every
other string. -/

/-- The value of a decimal digit. -/
def digitVal (c : Char) : Option Nat :=
  if '0' ≤ c ∧ c ≤ '9' then some (c.toNat - '0'.toNat) else none

/-- Reads exactly `n` decimal digits. -/
def readDigits : Nat → Nat → List Char → Option (Nat × List Char)
  | 0, acc, cs => some (acc, cs)
  | _ + 1, _, [] => none
  | n + 1, acc, c :: cs =>
    match digitVal c with
    | some d => readDigits n (10 * acc + d) cs
    | none => none

/-- Reads the character `c`. -/
def readChar (c : Char) : List Char → Option (List Char)
  | d :: cs => if d = c then some cs else none
  | [] => none

/-- Leap years of the proleptic Gregorian calendar. -/
def isLeapYear (y : Nat) : Bool := (y % 4 = 0 ∧ y % 100 ≠ 0) ∨ y % 400 = 0

/-- Number of days of month `m` (1 to 12) of year `y`. -/
def daysInMonth (y m : Nat) : Nat :=
  if m = 2 then (if isLeapYear y then 29 else 28)
  else if m = 4 ∨ m = 6 ∨ m = 9 ∨ m = 11 then 30
  else 31

/-- Days of year `y` before the first of month `m`. -/
def daysBeforeMonth (y : Nat) : Nat → Nat
  | 0 => 0
  | 1 => 0
  | m + 1 => daysBeforeMonth y m + daysInMonth y m

/-- Days from 0001-01-01 to the given date. -/
def daysSinceZero (y m d : Nat) : Int :=
  let p : Int := (y : Int) - 1
  365 * p + p / 4 - p / 100 + p / 400 + (daysBeforeMonth y m : Int) + ((d : Int) - 1)

/-- Reads the digits of a fraction of a second and gives it in nanoseconds:
`scale` is the weight of the next digit; digits beyond the ninth are read and
discarded. -/
def readFraction : Nat → Nat → List Char → Nat × List Char
  | scale, acc, c :: cs =>
    match digitVal c with
    | some d => readFraction (scale / 10) (acc + d * scale) cs
    | none => (acc, c :: cs)
  | _, acc, [] => (acc, [])

/-- Reads an optional fraction `.ddd`, in nanoseconds. -/
def readOptFraction : List Char → Option (Nat × List Char)
  | '.' :: c :: cs =>
    match digitVal c with
    | some _ => some (readFraction 100000000 0 (c :: cs))
    | none => none
  | cs => some (0, cs)

/-- Reads the zone, which ends the string: seconds east of UTC. -/
def readZone : List Char → Option Int
  | ['Z'] => some 0
  | sign :: cs =>
    if sign = '+' ∨ sign = '-' then
      match readDigits 2 0 cs with
      | some (hh, cs1) =>
        match readChar ':' cs1 with
        | some cs2 =>
          match readDigits 2 0 cs2 with
          | some (mm, []) =>
            if hh ≤ 23 ∧ mm ≤ 59 then
              some ((if sign = '-' then -1 else 1) * ((hh : Int) * 3600 + (mm : Int) * 60))
            else none
          | _ => none
        | none => none
      | none => none
    else none
  | [] => none

/-- Reads `YYYY-MM-DD`. -/
def readDate (cs : List Char) : Option ((Nat × Nat × Nat) × List Char) :=
  (readDigits 4 0 cs).bind fun r1 =>
  (readChar '-' r1.2).bind fun c2 =>
  (readDigits 2 0 c2).bind fun r2 =>
  (readChar '-' r2.2).bind fun c4 =>
  (readDigits 2 0 c4).bind fun r3 =>
  some ((r1.1, r2.1, r3.1), r3.2)

/-- Reads `HH:MM:SS`. -/
def readClock (cs : List Char) : Option ((Nat × Nat × Nat) × List Char) :=
  (readDigits 2 0 cs).bind fun r1 =>
  (readChar ':' r1.2).bind fun c2 =>
  (readDigits 2 0 c2).bind fun r2 =>
  (readChar ':' r2.2).bind fun c4 =>
  (readDigits 2 0 c4).bind fun r3 =>
  some ((r1.1, r2.1, r3.1), r3.2)

/-- The fields of a date and a clock time are in range. -/
def validDateTime (date clock : Nat × Nat × Nat) : Bool :=
  decide (1 ≤ date.2.1) && decide (date.2.1 ≤ 12) && decide (1 ≤ date.2.2)
    && decide (date.2.2 ≤ daysInMonth date.1 date.2.1)
    && decide (clock.1 ≤ 23) && decide (clock.2.1 ≤ 59) && decide (clock.2.2 ≤ 59)

/-- The instant of a date and clock time at `offset` seconds east of UTC, with
`nanos` nanoseconds. -/
def instantOf (date clock : Nat × Nat × Nat) (nanos : Nat) (offset : Int) : Time :=
  ((daysSinceZero date.1 date.2.1 date.2.2 * 86400 + (clock.1 : Int) * 3600
      + (clock.2.1 : Int) * 60 + (clock.2.2 : Int)) - offset) * 1000000000 + (nanos : Int)

/-- The reference decoder of `time.Parse(time.RFC3339, s)`. -/
def parseRFC3339 (s : String) : Option Time :=
  (readDate s.data).bind fun d =>
  (readChar 'T' d.2).bind fun c1 =>
  (readClock c1).bind fun c =>
  (readOptFraction c.2).bind fun f =>
  (readZone f.2).bind fun offset =>
  if validDateTime d.1 c.1 then some (instantOf d.1 c.1 f.1 offset) else none

/-- A decoder of lines given by a finite table: a line of the table decodes to
the object next to it and every other line is rejected.  It stands for
`json.Unmarshal` on files whose lines are either in the table or not JSON. -/
def tableUnmarshal (table : List (String × Obj)) (line : String) : Option Obj :=
  List.lookup line table

/-! ## internal/claude/parser.go -/

namespace claude

/-- Body of the loop of `extractToolContent`: `i` is the index of the next
item, `builder` the text written so far. -/
def extractLoop : Nat → String → List JSON → String
  | _, builder, [] => builder
  | i, builder, item :: rest =>
    let b1 := if i > 0 then builder ++ "\n" else builder
    let b2 :=
      match item with
      | JSON.obj itemMap =>
        match asString (field itemMap "text") with
        | some text => b1 ++ text
        | none => b1
      | JSON.str str => b1 ++ str
      | _ => b1
    extractLoop (i + 1) b2 rest

/-- Go `extractToolContent`. -/
def extractToolContent (content : Option JSON) : String :=
  match content with
  | some (JSON.str contentStr) => contentStr
  | some (JSON.arr contentArr) => extractLoop 0 "" contentArr
  | _ => ""

/-- Go `claude.parseContentBlock`; `none` is the nil pointer. -/
def parseContentBlock (block : Obj) : Option ContentBlock :=
  let blockType := (asString (field block "type")).getD ""
  if blockType = "text" then
    some { ContentBlock.empty with
      Type_ := "text", Text := (asString (field block "text")).getD "" }
  else if blockType = "tool_use" then
    some { ContentBlock.empty with
      Type_ := "tool_use",
      ToolName := (asString (field block "name")).getD "",
      ToolUseID := (asString (field block "id")).getD "",
      ToolInput := (asObject (field block "input")).getD [] }
  else if blockType = "tool_result" then
    some { ContentBlock.empty with
      Type_ := "tool_result",
      ToolUseID := (asString (field block "tool_use_id")).getD "",
      ToolContent := extractToolContent (field block "content") }
  else none

/-- Go `claude.parseTokenUsage`. -/
def parseTokenUsage (usage : Obj) : TokenUsage :=
  let inputTokens :=
    match asFloat (field usage "input_tokens") with
    | some v => intOfFloat64 v
    | none => 0
  let outputTokens :=
    match asFloat (field usage "output_tokens") with
    | some v => intOfFloat64 v
    | none => 0
  { InputTokens := inputTokens, OutputTokens := outputTokens,
    TotalTokens := wrapInt64 (inputTokens + outputTokens) }

/-- The content blocks `parseMessage` builds from `message.content`. -/
def parseContent (messageData : Obj) : List ContentBlock :=
  match asString (field messageData "content") with
  | some contentStr => [{ ContentBlock.empty with Type_ := "text", Text := contentStr }]
  | none =>
    match asArray (field messageData "content") with
    | some contentArr =>
      contentArr.filterMap fun item =>
        match item with
        | JSON.obj block => parseContentBlock block
        | _ => none
    | none => []

/-- The metadata `parseMessage` builds. -/
def parseMetadata (raw messageData : Obj) : MessageMetadata :=
  { IsSidechain := (asBool (field raw "isSidechain")).getD false,
    AgentID := (asString (field raw "agentId")).getD "",
    RequestID := (asString (field raw "requestId")).getD "",
    Model := (asString (field messageData "model")).getD "",
    Tokens := (asObject (field messageData "usage")).map parseTokenUsage,
    Extra := [] }

/-- Go `claude.parseMessage`; `parseTime` is `time.Parse(time.RFC3339, ·)` and
`none` is the nil pointer. -/
def parseMessage (parseTime : String → Option Time) (raw : Obj) : Option Message :=
  let uuid := (asString (field raw "uuid")).getD ""
  let parentUUID := (asString (field raw "parentUuid")).getD ""
  let timestamp : Time :=
    match asString (field raw "timestamp") with
    | some tsStr => (parseTime tsStr).getD Time.zero
    | none => Time.zero
  match asObject (field raw "message") with
  | none => none
  | some messageData =>
    let role := (asString (field messageData "role")).getD ""
    if role = "" then none
    else
      some { UUID := uuid, ParentUUID := parentUUID, Timestamp := timestamp, Role := role,
             Content := parseContent messageData,
             Metadata := parseMetadata raw messageData }

/-! ## internal/claude/reader.go -/

/-- The local variables of the scan loop of `readSessionFile`. -/
structure SessionScan where
  messages : List Message
  sessionID : String
  createdAt : Time
  updatedAt : Time
  metadata : SessionMetadata

/-- The variables before the first line. -/
def SessionScan.init : SessionScan :=
  { messages := [], sessionID := "", createdAt := Time.zero, updatedAt := Time.zero,
    metadata := SessionMetadata.empty }

/-- The block `if sessionID == ""` of the loop body. -/
def stepSessionFields (st : SessionScan) (raw : Obj) : SessionScan :=
  if st.sessionID = "" then
    let st1 :=
      match asString (field raw "sessionId") with
      | some sid => { st with sessionID := sid }
      | none => st
    let st2 :=
      match asString (field raw "cwd") with
      | some cwd => { st1 with metadata := { st1.metadata with WorkingDir := cwd } }
      | none => st1
    match asString (field raw "gitBranch") with
    | some branch => { st2 with metadata := { st2.metadata with GitBranch := branch } }
    | none => st2
  else st

/-- The update of `createdAt` and `updatedAt` by one timestamp value `ts`. -/
def updateTimes (st : SessionScan) (ts : Time) : SessionScan :=
  let st1 := if st.createdAt.IsZero || ts.Before st.createdAt then { st with createdAt := ts } else st
  if st1.updatedAt.IsZero || ts.After st1.updatedAt then { st1 with updatedAt := ts } else st1

/-- The block `// Parse timestamp` of the loop body: the error of `time.Parse` is
discarded, so a string that does not parse gives the zero instant. -/
def stepTimestamp (parseTime : String → Option Time) (st : SessionScan) (raw : Obj) :
    SessionScan :=
  match asString (field raw "timestamp") with
  | some tsStr => updateTimes st ((parseTime tsStr).getD Time.zero)
  | none => st

/-- The block `// Parse message` of the loop body. -/
def stepMessage (parseTime : String → Option Time) (st : SessionScan) (raw : Obj) :
    SessionScan :=
  let msgType := (asString (field raw "type")).getD ""
  if msgType = "user" ∨ msgType = "assistant" then
    match parseMessage parseTime raw with
    | some msg => { st with messages := st.messages ++ [msg] }
    | none => st
  else st

/-- The loop body of `readSessionFile` on one decoded record. -/
def stepRecord (parseTime : String → Option Time) (st : SessionScan) (raw : Obj) :
    SessionScan :=
  stepMessage parseTime (stepTimestamp parseTime (stepSessionFields st raw) raw) raw

/-- The loop of `readSessionFile` over the decoded records of a file. -/
def scanRecords (parseTime : String → Option Time) (records : List Obj) : SessionScan :=
  records.foldl (stepRecord parseTime) SessionScan.init

/-- The token limit given to `scanner.Buffer`. -/
def maxTokenSize : Nat := 1024 * 1024

/-- Go `bufio.ScanLines` drops one trailing carriage return from a line. -/
def dropCR (line : String) : String :=
  if line.data.getLast? = some '\r' then String.mk line.data.dropLast else line

/-- The loop body of `readSessionFile` on one token of the scanner: an empty
token and a token that `json.Unmarshal` rejects are skipped. -/
def stepLine (unmarshal : String → Option Obj) (parseTime : String → Option Time)
    (st : SessionScan) (line : String) : SessionScan :=
  if line.utf8ByteSize = 0 then st
  else
    match unmarshal line with
    | none => st
    | some raw => stepRecord parseTime st raw

/-- The loop `for scanner.Scan()` of `readSessionFile` followed by the check of
`scanner.Err()`.  A file is given as its lines, each without its newline.  A
line of `maxTokenSize` bytes or more does not fit the buffer: `Scan` stops with
`bufio.ErrTooLong` and the result is `none`. -/
def scanLines (unmarshal : String → Option Obj) (parseTime : String → Option Time) :
    SessionScan → List String → Option SessionScan
  | st, [] => some st
  | st, line :: rest =>
    if maxTokenSize ≤ line.utf8ByteSize then none
    else scanLines unmarshal parseTime (stepLine unmarshal parseTime st (dropCR line)) rest

/-- The local variables of the scan loop of `readSubagentFile`. -/
structure SubagentScan where
  messages : List Message
  slug : String

/-- The loop body of `readSubagentFile` on one decoded record. -/
def stepSubagentRecord (parseTime : String → Option Time) (st : SubagentScan) (raw : Obj) :
    SubagentScan :=
  let st1 :=
    if st.slug = "" then
      match asString (field raw "slug") with
      | some s => { st with slug := s }
      | none => st
    else st
  let msgType := (asString (field raw "type")).getD ""
  if msgType = "user" ∨ msgType = "assistant" then
    match parseMessage parseTime raw with
    | some msg => { st1 with messages := st1.messages ++ [msg] }
    | none => st1
  else st1

/-- The loop body of `readSubagentFile` on one token of the scanner. -/
def stepSubagentLine (unmarshal : String → Option Obj) (parseTime : String → Option Time)
    (st : SubagentScan) (line : String) : SubagentScan :=
  if line.utf8ByteSize = 0 then st
  else
    match unmarshal line with
    | none => st
    | some raw => stepSubagentRecord parseTime st raw

/-- The loop of `readSubagentFile` with the final `scanner.Err()`. -/
def scanSubagentLines (unmarshal : String → Option Obj) (parseTime : String → Option Time) :
    SubagentScan → List String → Option SubagentScan
  | st, [] => some st
  | st, line :: rest =>
    if maxTokenSize ≤ line.utf8ByteSize then none
    else
      scanSubagentLines unmarshal parseTime
        (stepSubagentLine unmarshal parseTime st (dropCR line)) rest

/-- Go `os.DirEntry`, as far as the reader looks at it. -/
structure DirEntry where
  Name : String
  IsDir : Bool

/-- What the reader asks of its surroundings. -/
structure Env where
  /-- Go `json.Unmarshal(line, &raw)` with `raw` a `map[string]any`; `none` is an error. -/
  unmarshal : String → Option Obj
  /-- Go `time.Parse(time.RFC3339, s)`; `none` is an error. -/
  parseTime : String → Option Time
  /-- Go `os.Open(path)` with the lines the file holds; `none` is an error. -/
  openFile : String → Option (List String)
  /-- Go `os.Stat(path)` answers with an error for which `os.IsNotExist` holds. -/
  notExist : String → Bool
  /-- Go `os.ReadDir(path)`; `none` is an error. -/
  readDir : String → Option (List DirEntry)
  /-- Go `filepath.Join`. -/
  join : List String → String
  /-- Go `filepath.Dir`. -/
  dir : String → String
  /-- Go `filepath.Base`. -/
  base : String → String

/-- Go `readSubagentFile`; `none` is a non-nil error. -/
def readSubagentFile (env : Env) (path : String) : Option (List Message × String) :=
  match env.openFile path with
  | none => none
  | some lines =>
    match scanSubagentLines env.unmarshal env.parseTime { messages := [], slug := "" } lines with
    | none => none
    | some st => some (st.messages, st.slug)

/-- The loop of `readSubagents` over the directory entries. -/
def subagentsLoop (env : Env) (subagentsDir : String) :
    List Subagent → List DirEntry → List Subagent
  | subagents, [] => subagents
  | subagents, file :: rest =>
    if ¬ file.IsDir ∧ HasSuffix file.Name ".jsonl" then
      let agentID := TrimPrefix (TrimSuffix file.Name ".jsonl") "agent-"
      let path := env.join [subagentsDir, file.Name]
      match readSubagentFile env path with
      | none => subagentsLoop env subagentsDir subagents rest
      | some (messages, slug) =>
        subagentsLoop env subagentsDir
          (subagents ++ [{ AgentID := agentID, Slug := slug, Messages := messages }]) rest
    else subagentsLoop env subagentsDir subagents rest

/-- Go `readSubagents`; `none` is a non-nil error (the slice is then nil). -/
def readSubagents (env : Env) (sessionDir sessionID : String) : Option (List Subagent) :=
  let subagentsDir := env.join [sessionDir, sessionID, "subagents"]
  if env.notExist subagentsDir then some []
  else
    match env.readDir subagentsDir with
    | none => none
    | some files => some (subagentsLoop env subagentsDir [] files)

/-- The part of `readSessionFile` after the file has been opened, on the lines
of the file; `none` is a non-nil error. -/
def readSessionLines (env : Env) (path : String) (lines : List String) : Option Session :=
  match scanLines env.unmarshal env.parseTime SessionScan.init lines with
  | none => none
  | some st =>
    let sessionID := if st.sessionID = "" then TrimSuffix (env.base path) ".jsonl" else st.sessionID
    let subagents := (readSubagents env (env.dir path) sessionID).getD []
    some { AgentType := "claude", SessionID := sessionID, CreatedAt := st.createdAt,
           UpdatedAt := st.updatedAt, Metadata := st.metadata, Messages := st.messages,
           Subagents := subagents }

/-- Go `readSessionFile`; `none` is a non-nil error. -/
def readSessionFile (env : Env) (path : String) : Option Session :=
  match env.openFile path with
  | none => none
  | some lines => readSessionLines env path lines

end claude

/-! ## internal/goose/parser.go -/

namespace goose

/-- Go `goose.parseContentBlock`; `none` is the nil pointer. -/
def parseContentBlock (block : Obj) : Option ContentBlock :=
  let blockType := (asString (field block "type")).getD ""
  if blockType = "text" then
    some { ContentBlock.empty with
      Type_ := "text", Text := (asString (field block "text")).getD "" }
  else if blockType = "tool_use" then
    some { ContentBlock.empty with
      Type_ := "tool_use",
      ToolName := (asString (field block "name")).getD "",
      ToolUseID := (asString (field block "id")).getD "",
      ToolInput := (asObject (field block "input")).getD [] }
  else if blockType = "tool_result" then
    let toolUseID := (asString (field block "tool_use_id")).getD ""
    let toolContent :=
      match asString (field block "content") with
      | some contentStr => contentStr
      | none => ""
    some { ContentBlock.empty with
      Type_ := "tool_result", ToolUseID := toolUseID, ToolContent := toolContent }
  else
    match asString (field block "text") with
    | some text => some { ContentBlock.empty with Type_ := blockType, Text := text }
    | none => none

end goose

/-! ## internal/filter/filter.go -/

namespace filter

/-- Go `filter.Options`. -/
structure Options where
  AgentType : String
  SessionID : String
  Since : Time
  Until : Time

/-- Go `filter.shouldInclude`. -/
def shouldInclude (orbit : Char → Char → Bool) (session : Session) (opts : Options) : Bool :=
  if opts.AgentType ≠ "" ∧ ¬ EqualFold orbit session.AgentType opts.AgentType then false
  else if opts.SessionID ≠ "" ∧ session.SessionID ≠ opts.SessionID then false
  else if ¬ opts.Since.IsZero ∧ session.CreatedAt.Before opts.Since then false
  else if ¬ opts.Until.IsZero ∧ session.CreatedAt.After opts.Until then false
  else true

/-- The variables of `filter.Apply`: its argument and its accumulator. -/
structure ApplyState where
  sessions : List Session
  filtered : List Session

/-- One iteration of the loop of `filter.Apply`. -/
def applyStep (orbit : Char → Char → Bool) (opts : Options) (st : ApplyState)
    (session : Session) : ApplyState :=
  if shouldInclude orbit session opts then
    { st with filtered := st.filtered ++ [session] }
  else st

/-- The loop of `filter.Apply`, started with the nil accumulator. -/
def applyLoop (orbit : Char → Char → Bool) (sessions : List Session) (opts : Options) :
    ApplyState :=
  sessions.foldl (applyStep orbit opts) { sessions := sessions, filtered := [] }

/-- Go `filter.Apply`. -/
def Apply (orbit : Char → Char → Bool) (sessions : List Session) (opts : Options) :
    List Session :=
  (applyLoop orbit sessions opts).filtered

/-- A session with the given kind, identifier and creation time and every other
field at its zero value, as in the tests of the filter. -/
def sessionAt (agentType sessionID : String) (createdAt : Time) : Session :=
  { AgentType := agentType, SessionID := sessionID, CreatedAt := createdAt,
    UpdatedAt := Time.zero, Metadata := SessionMetadata.empty, Messages := [], Subagents := [] }

/-- The option set with no predicate set. -/
def Options.none : Options :=
  { AgentType := "", SessionID := "", Since := Time.zero, Until := Time.zero }

/-- The option set holding only the agent kind of `o`. -/
def Options.onlyAgentType (o : Options) : Options := { Options.none with AgentType := o.AgentType }

/-- The option set holding only the session identifier of `o`. -/
def Options.onlySessionID (o : Options) : Options := { Options.none with SessionID := o.SessionID }

/-- The option set holding only the lower bound of `o`. -/
def Options.onlySince (o : Options) : Options := { Options.none with Since := o.Since }

/-- The option set holding only the upper bound of `o`. -/
def Options.onlyUntil (o : Options) : Options := { Options.none with Until := o.Until }

/-- The four single-predicate option sets taken from `o`. -/
def singlePredicates (o : Options) : List Options :=
  [o.onlyAgentType, o.onlySessionID, o.onlySince, o.onlyUntil]

/-- Applies the filters of `os` one after another. -/
def applyAll (orbit : Char → Char → Bool) (sessions : List Session) (os : List Options) :
    List Session :=
  os.foldl (fun acc p => Apply orbit acc p) sessions

/-- The three sessions of the combined-filter scenario: one claude session and
one goose session inside the window, one goose session after it. -/
def scenarioSessions : List Session :=
  [sessionAt "claude" "session-1" 2000, sessionAt "goose" "session-2" 2000,
   sessionAt "goose" "session-3" 4000]

/-- The options of the combined-filter scenario: goose sessions created from
instant 1000 to instant 3000. -/
def scenarioOptions : Options :=
  { AgentType := "goose", SessionID := "", Since := 1000, Until := 3000 }

end filter


namespace claude

/-! ## Notions used to state the properties of the reader -/

/-- A line is too long for the scanner. -/
def tooLong (line : String) : Bool := decide (maxTokenSize ≤ line.utf8ByteSize)

/-- The record a line of a session file decodes to: an empty line and a line
that is not a JSON object give none. -/
def decodeLine (unmarshal : String → Option Obj) (line : String) : Option Obj :=
  if (dropCR line).utf8ByteSize = 0 then none else unmarshal (dropCR line)

/-- The parsed records of a file, in file order. -/
def records (unmarshal : String → Option Obj) (lines : List String) : List Obj :=
  lines.filterMap (decodeLine unmarshal)

/-- The top-level `type` of the record is `user` or `assistant`. -/
def isMessageRecord (raw : Obj) : Bool :=
  decide (asString (field raw "type") = some "user")
    || decide (asString (field raw "type") = some "assistant")

/-- The three records of the line-log scenario: a `system` record, a `user`
record with string content and an `assistant` record with array content. -/
def scenarioRecords : List Obj :=
  [ [("type", JSON.str "system")],
    [("type", JSON.str "user"),
     ("message", JSON.obj [("role", JSON.str "user"), ("content", JSON.str "Hello")])],
    [("type", JSON.str "assistant"),
     ("message", JSON.obj [("role", JSON.str "assistant"),
        ("content", JSON.arr [JSON.obj [("type", JSON.str "text"), ("text", JSON.str "Hi")]])])] ]

/-- The loop of `readSubagentFile` over the decoded records of a file. -/
def scanSubagentRecords (parseTime : String → Option Time) (rs : List Obj) : SubagentScan :=
  rs.foldl (stepSubagentRecord parseTime) { messages := [], slug := "" }

/-- The role a record carries: the string `message.role` when `message` is an
object and the role is a non-empty string. -/
def recordRole (raw : Obj) : Option String :=
  match asObject (field raw "message") with
  | none => none
  | some messageData =>
    match asString (field messageData "role") with
    | some role => if role = "" then none else some role
    | none => none

/-- A record of type `user` whose message role is `system`. -/
def systemRoleRecords : List Obj :=
  [ [("type", JSON.str "user"),
     ("message", JSON.obj [("role", JSON.str "system"), ("content", JSON.str "x")])] ]

/-- Three records of type `user`: a role outside the two kinds, a missing role
and the role `user`. -/
def mixedRoleRecords : List Obj :=
  [ [("type", JSON.str "user"),
     ("message", JSON.obj [("role", JSON.str "tool"), ("content", JSON.str "x")])],
    [("type", JSON.str "user"), ("message", JSON.obj [("content", JSON.str "y")])],
    [("type", JSON.str "user"),
     ("message", JSON.obj [("role", JSON.str "user"), ("content", JSON.str "z")])] ]

/-- The timestamps of the records that carry a timestamp string that parses, in
file order. -/
def parsedTimestamps (parseTime : String → Option Time) (rs : List Obj) : List Time :=
  rs.filterMap fun r => (asString (field r "timestamp")).bind parseTime

/-- Three records carrying a timestamp string: the second one does not parse. -/
def resetRecords : List Obj :=
  [ [("timestamp", JSON.str "2026-02-07T12:00:10Z")],
    [("timestamp", JSON.str "not-a-time")],
    [("timestamp", JSON.str "2026-02-07T12:00:20Z")] ]

/-- The value of key `key` in the last record of `rs` that carries it as a
string, and `d` when no record does. -/
def lastStringOr (key : String) (d : String) (rs : List Obj) : String :=
  rs.foldl (fun acc r => (asString (field r key)).getD acc) d

/-- The value of key `key` in the first record of `rs` that carries it as a
string, and the empty string when no record does. -/
def firstString (key : String) (rs : List Obj) : String :=
  ((rs.filterMap fun r => asString (field r key)).head?).getD ""

/-- The record carries a non-empty string `sessionId`. -/
def hasSessionID (raw : Obj) : Bool :=
  match asString (field raw "sessionId") with
  | some sid => decide (sid ≠ "")
  | none => false

/-- The records up to and including the first one that carries a non-empty
string `sessionId`; all of them when there is no such record. -/
def untilSessionID : List Obj → List Obj
  | [] => []
  | r :: rs => if hasSessionID r then [r] else r :: untilSessionID rs

/-- Two records: the first carries only a working directory, the second a
session identifier and another working directory. -/
def cwdBeforeIDRecords : List Obj :=
  [ [("cwd", JSON.str "/first")],
    [("sessionId", JSON.str "s1"), ("cwd", JSON.str "/second")] ]

/-- Two records: the first carries only a session identifier, the second a
working directory and a branch. -/
def cwdAfterIDRecords : List Obj :=
  [ [("sessionId", JSON.str "s1")],
    [("cwd", JSON.str "/work"), ("gitBranch", JSON.str "main")] ]

/-- The line yields a record: it is neither empty nor rejected by the decoder. -/
def keepsLine (unmarshal : String → Option Obj) (line : String) : Bool :=
  (decodeLine unmarshal line).isSome

/-- An example environment.  Lines decode by the table `table`, timestamps by
`parseRFC3339`, the files are those of `files`, no subagent directory exists,
and paths are slash-separated. -/
def exampleEnv (table : List (String × Obj)) (files : List (String × List String)) : Env :=
  { unmarshal := tableUnmarshal table,
    parseTime := parseRFC3339,
    openFile := fun path => List.lookup path files,
    notExist := fun _ => true,
    readDir := fun _ => none,
    join := fun parts => "/".intercalate parts,
    dir := fun path => String.mk (((path.data.reverse.dropWhile (fun c => c ≠ '/')).drop 1).reverse),
    base := fun path => String.mk ((path.data.reverse.takeWhile (fun c => c ≠ '/')).reverse) }

/-- A line of 1048576 letters `x`: not JSON, and as long as the token limit. -/
def longLine : String := String.mk (List.replicate 1048576 'x')

/-- A line holding a record with a session identifier and a user message. -/
def userLine : String :=
  "\x7b\"sessionId\":\"s1\",\"type\":\"user\",\"message\":\x7b\"role\":\"user\",\"content\":\"Hello\"\x7d\x7d"

/-- The record `userLine` decodes to. -/
def userRecord : Obj :=
  [("sessionId", JSON.str "s1"), ("type", JSON.str "user"),
   ("message", JSON.obj [("role", JSON.str "user"), ("content", JSON.str "Hello")])]

/-- A file with a line that is not JSON, an empty line, a line holding only a
carriage return and one record. -/
def corruptFileLines : List String := ["\x7bnot json", "", "\r", userLine]

/-- The session `readSessionFile` builds for an empty file `proj/s1.jsonl` that
has no subagents. -/
def emptyFileSession : Session :=
  { AgentType := "claude", SessionID := "s1", CreatedAt := Time.zero, UpdatedAt := Time.zero,
    Metadata := SessionMetadata.empty, Messages := [], Subagents := [] }

/-- The text an array item of a tool result carries: a string item is its own
text, an object item carries its string `text` field, every other item carries
none. -/
def itemText : JSON → Option String
  | JSON.str s => some s
  | JSON.obj m => asString (field m "text")
  | _ => none

/-- The array content of the tool-result scenario: two text objects `a` and `b`. -/
def twoTextItems : List JSON :=
  [JSON.obj [("type", JSON.str "text"), ("text", JSON.str "a")],
   JSON.obj [("type", JSON.str "text"), ("text", JSON.str "b")]]

/-- An array content with a number between two text objects. -/
def textNumberText : List JSON :=
  [JSON.obj [("type", JSON.str "text"), ("text", JSON.str "a")], JSON.num 42,
   JSON.obj [("type", JSON.str "text"), ("text", JSON.str "b")]]

/-- A tool-result block with the given content. -/
def toolResultBlock (content : JSON) : Obj :=
  [("type", JSON.str "tool_result"), ("tool_use_id", JSON.str "tool-123"), ("content", content)]

/-- A block of the unrecognized type `custom` that carries a text. -/
def customTextBlock : Obj := [("type", JSON.str "custom"), ("text", JSON.str "Custom content")]

/-- The usage map of the tests: 100 input tokens and 50 output tokens. -/
def testUsage : Obj := [("input_tokens", JSON.num 100), ("output_tokens", JSON.num 50)]

/-- A usage map whose two counts are both 2^62. -/
def hugeUsage : Obj :=
  [("input_tokens", JSON.num 4611686018427387904),
   ("output_tokens", JSON.num 4611686018427387904)]

end claude

namespace claude

/-- The block an item of a content array gives: the normalized block of an
object item, nothing for every other item. -/
def itemBlock (item : JSON) : Option ContentBlock :=
  match item with
  | JSON.obj block => parseContentBlock block
  | _ => none

/-- The first record of the parser tests: a user message with string content. -/
def simpleUserRecord : Obj :=
  [("uuid", JSON.str "test-uuid"), ("parentUuid", JSON.str "parent-uuid"),
   ("timestamp", JSON.str "2026-02-07T12:00:00Z"),
   ("message", JSON.obj [("role", JSON.str "user"), ("content", JSON.str "Hello, world!")])]

/-- The message object of `simpleUserRecord`. -/
def simpleUserMessage : Obj := [("role", JSON.str "user"), ("content", JSON.str "Hello, world!")]

end claude

namespace claude

/-- The record carries a timestamp string that parses to an instant other than
the zero instant. -/
def goodTimestamp (parseTime : String → Option Time) (r : Obj) : Prop :=
  ∃ s t, asString (field r "timestamp") = some s ∧ parseTime s = some t ∧ t ≠ Time.zero

/-- Three records with parseable timestamps, the earliest in the middle. -/
def threeTimestamps : List Obj :=
  [ [("timestamp", JSON.str "2026-02-07T12:00:10Z")],
    [("timestamp", JSON.str "2026-02-07T12:00:05Z")],
    [("timestamp", JSON.str "2026-02-07T12:00:20Z")] ]

end claude

namespace goose

/-- The loop of `parseContent` over the items of an array. -/
def contentLoop : List ContentBlock → List JSON → List ContentBlock
  | blocks, [] => blocks
  | blocks, item :: rest =>
    match item with
    | JSON.obj block =>
      match parseContentBlock block with
      | some contentBlock => contentLoop (blocks ++ [contentBlock]) rest
      | none => contentLoop blocks rest
    | JSON.str str =>
      contentLoop (blocks ++ [{ ContentBlock.empty with Type_ := "text", Text := str }]) rest
    | _ => contentLoop blocks rest

/-- Go `goose.parseContent`; `unmarshal` is `json.Unmarshal` into an `any`, with
`none` for an error. -/
def parseContent (unmarshal : String → Option JSON) (contentJSON : String) :
    List ContentBlock :=
  match unmarshal contentJSON with
  | none => []
  | some content =>
    match content with
    | JSON.str v => [{ ContentBlock.empty with Type_ := "text", Text := v }]
    | JSON.arr v => contentLoop [] v
    | JSON.obj v =>
      match parseContentBlock v with
      | some contentBlock => [contentBlock]
      | none => []
    | _ => []

/-! ## internal/goose/reader.go -/

/-- Go `sql.NullString`; the field `String` is spelled `Str`. -/
structure NullString where
  Str : String
  Valid : Bool

/-- Go `sql.NullInt64`. -/
structure NullInt64 where
  Int64 : Int
  Valid : Bool

/-- The variables `rows.Scan` fills for one row of the `messages` table. -/
structure MessageRow where
  id : Int
  messageID : NullString
  role : String
  contentJSON : NullString
  createdTimestamp : NullString
  tokens : NullInt64
  metadataJSON : NullString

/-- The entries a `range` over a Go map visits: every key once, with the value
the map holds for it.  `seen` holds the keys already visited. -/
def mapEntriesFrom (seen : List String) : Obj → List (String × JSON)
  | [] => []
  | (k, v) :: rest =>
    if k ∈ seen then mapEntriesFrom seen rest else (k, v) :: mapEntriesFrom (k :: seen) rest

/-- The entries of a Go map. -/
def mapEntries (m : Obj) : List (String × JSON) := mapEntriesFrom [] m

/-- Go `m[k] = v` on a `map[string]string`. -/
def mapSet (m : List (String × String)) (k v : String) : List (String × String) :=
  (k, v) :: m.filter (fun kv => kv.1 ≠ k)

/-- The loop `for k, v := range extraMetadata` of `readMessages`. -/
def extraLoop : List (String × String) → List (String × JSON) → List (String × String)
  | extra, [] => extra
  | extra, (k, v) :: rest =>
    match v with
    | JSON.str str => extraLoop (mapSet extra k str) rest
    | _ => extraLoop extra rest

/-- The body of the loop of `readMessages` after a successful `rows.Scan`;
`unmarshalAny` and `unmarshalObj` are `json.Unmarshal` into an `any` and into a
`map[string]any`, `parseTime` is `time.Parse(time.RFC3339, ·)`. -/
def rowMessage (unmarshalAny : String → Option JSON) (unmarshalObj : String → Option Obj)
    (parseTime : String → Option Time) (row : MessageRow) : Message :=
  let timestamp := (parseTime row.createdTimestamp.Str).getD Time.zero
  let contentBlocks :=
    if row.contentJSON.Valid = true ∧ row.contentJSON.Str ≠ "" then
      parseContent unmarshalAny row.contentJSON.Str
    else []
  let tokens : Option TokenUsage :=
    if row.tokens.Valid = true then
      some { InputTokens := 0, OutputTokens := 0, TotalTokens := row.tokens.Int64 }
    else none
  let extra : List (String × String) :=
    if row.metadataJSON.Valid = true ∧ row.metadataJSON.Str ≠ "" then
      match unmarshalObj row.metadataJSON.Str with
      | some extraMetadata => extraLoop [] (mapEntries extraMetadata)
      | none => []
    else []
  { UUID := row.messageID.Str, ParentUUID := "", Timestamp := timestamp, Role := row.role,
    Content := contentBlocks,
    Metadata := { MessageMetadata.empty with Tokens := tokens, Extra := extra } }

/-- The loop of `readMessages` over the rows of the query: `none` is a row that
`rows.Scan` fails on, which is skipped. -/
def messagesLoop (unmarshalAny : String → Option JSON) (unmarshalObj : String → Option Obj)
    (parseTime : String → Option Time) : List Message → List (Option MessageRow) → List Message
  | messages, [] => messages
  | messages, none :: rest => messagesLoop unmarshalAny unmarshalObj parseTime messages rest
  | messages, some row :: rest =>
    messagesLoop unmarshalAny unmarshalObj parseTime
      (messages ++ [rowMessage unmarshalAny unmarshalObj parseTime row]) rest

/-- Go `readMessages`: `query` is the outcome of `db.QueryContext`, `none` for an
error and otherwise the rows with the final `rows.Err()` (true for an error). -/
def readMessages (unmarshalAny : String → Option JSON) (unmarshalObj : String → Option Obj)
    (parseTime : String → Option Time) (query : Option (List (Option MessageRow) × Bool)) :
    Option (List Message) :=
  match query with
  | none => none
  | some (rows, rowsErr) =>
    if rowsErr then none
    else some (messagesLoop unmarshalAny unmarshalObj parseTime [] rows)

/-- The block a content item gives in `parseContent`: the normalized block of an
object item, a text block for a string item, nothing for every other item. -/
def itemBlock (item : JSON) : Option ContentBlock :=
  match item with
  | JSON.obj block => parseContentBlock block
  | JSON.str str => some { ContentBlock.empty with Type_ := "text", Text := str }
  | _ => none

/-- A decoder of payloads given by a finite table. -/
def tableDecode (table : List (String × JSON)) (payload : String) : Option JSON :=
  List.lookup payload table

/-- A metadata object with a string, a number and a null entry. -/
def mixedMetadata : Obj :=
  [("source", JSON.str "cli"), ("count", JSON.num 3), ("note", JSON.null)]

/-- A message row whose metadata blob is the text `meta`. -/
def metadataRow : MessageRow :=
  { id := 1, messageID := { Str := "m1", Valid := true }, role := "user",
    contentJSON := { Str := "", Valid := false },
    createdTimestamp := { Str := "", Valid := false },
    tokens := { Int64 := 0, Valid := false },
    metadataJSON := { Str := "meta", Valid := true } }

end goose

/-! ## Slices whose nil-ness reaches the JSON output -/

/-- A Go slice with its nil-ness: `none` is the nil slice, `some xs` a non-nil
slice with the elements `xs`. -/
abbrev Slice (α : Type) := Option (List α)

/-- The elements of a slice. -/
def Slice.elems {α : Type} (s : Slice α) : List α := s.getD []

/-- Go `append(s, xs...)`: appending no element returns `s` itself, appending
some elements returns a non-nil slice. -/
def appendSlice {α : Type} (s : Slice α) (xs : List α) : Slice α :=
  if xs.isEmpty then s else some (s.elems ++ xs)

namespace filter

/-- Go `filter.Apply` with the nil-ness of its result: `filtered` starts as the
nil slice and becomes non-nil with the first `append`. -/
def ApplySlice (orbit : Char → Char → Bool) (sessions : List Session) (opts : Options) :
    Slice Session :=
  sessions.foldl
    (fun filtered session =>
      if shouldInclude orbit session opts then appendSlice filtered [session] else filtered)
    none

end filter

/-! ## A reference formatter for RFC 3339 timestamps

`time.Time.MarshalJSON` is a parameter of the encoder.  Where a concrete
formatter is needed, `formatRFC3339` is used: it writes an instant in UTC in the
layout `2006-01-02T15:04:05.999999999Z07:00`. -/

/-- The decimal digits of `n`, padded with zeros to `width` digits. -/
def padDigits : Nat → Nat → List Char
  | 0, _ => []
  | width + 1, n => padDigits width (n / 10) ++ [Char.ofNat ('0'.toNat + n % 10)]

/-- The year, month and day of the day that lies `days` days after 0001-01-01. -/
def civilFromDays (days : Int) : Int × Int × Int :=
  let z := days + 306
  let era := z / 146097
  let doe := z - era * 146097
  let yoe := (doe - doe / 1460 + doe / 36524 - doe / 146096) / 365
  let doy := doe - (365 * yoe + yoe / 4 - yoe / 100)
  let mp := (5 * doy + 2) / 153
  let d := doy - (153 * mp + 2) / 5 + 1
  let m := if mp < 10 then mp + 3 else mp - 9
  let y := yoe + era * 400 + (if m ≤ 2 then 1 else 0)
  (y, m, d)

/-- The fraction of a second as RFC3339Nano writes it: nothing for zero, and
otherwise a dot and the nine digits without their trailing zeros. -/
def formatFraction (nanos : Nat) : List Char :=
  if nanos = 0 then []
  else '.' :: ((padDigits 9 nanos).reverse.dropWhile (fun c => c = '0')).reverse

/-- The reference formatter of `time.Time.MarshalJSON`, without the quotes. -/
def formatRFC3339 (t : Time) : String :=
  let secs := t / 1000000000
  let nanos := (t % 1000000000).toNat
  let days := secs / 86400
  let rem := (secs % 86400).toNat
  let date := civilFromDays days
  String.mk
    (padDigits 4 date.1.toNat ++ ['-'] ++ padDigits 2 date.2.1.toNat ++ ['-']
      ++ padDigits 2 date.2.2.toNat ++ ['T'] ++ padDigits 2 (rem / 3600) ++ [':']
      ++ padDigits 2 (rem % 3600 / 60) ++ [':'] ++ padDigits 2 (rem % 60)
      ++ formatFraction nanos ++ ['Z'])

/-! ## internal/output/writer.go with the struct tags of internal/model/types.go

`json.Marshal` is embedded as a function to a `JSON` tree that follows the struct
tags: a field tagged `omitempty` is left out when it holds the empty string,
zero, false, or a slice or map without elements; a nil slice without that tag is
written as `null`.  A list stands for the nil slice when it is empty, as every
slice that reaches the writer starts as a nil `var` and only grows by `append`;
the session list of the envelope carries its nil-ness explicitly. -/

namespace output

/-- The constant `Version`. -/
def Version : String := "1.0.0"

/-- Go `model.Output`. -/
structure Output where
  Version : String
  GeneratedAt : Time
  Sessions : Slice Session

/-- A string field tagged `omitempty`. -/
def omitEmptyString (key value : String) : List (String × JSON) :=
  if value = "" then [] else [(key, JSON.str value)]

/-- An int field tagged `omitempty`. -/
def omitEmptyInt (key : String) (value : Int) : List (String × JSON) :=
  if value = 0 then [] else [(key, JSON.num (value : Rat))]

/-- A `map[string]string` field tagged `omitempty`. -/
def omitEmptyStringMap (key : String) (m : List (String × String)) : List (String × JSON) :=
  if m.isEmpty then [] else [(key, JSON.obj (m.map fun kv => (kv.1, JSON.str kv.2)))]

/-- A slice field without `omitempty`: the nil slice is written as `null`. -/
def encodeList {α : Type} (f : α → JSON) (xs : List α) : JSON :=
  if xs.isEmpty then JSON.null else JSON.arr (xs.map f)

/-- The encoding of `model.TokenUsage`. -/
def encodeTokenUsage (t : TokenUsage) : JSON :=
  JSON.obj (omitEmptyInt "input_tokens" t.InputTokens
    ++ omitEmptyInt "output_tokens" t.OutputTokens
    ++ omitEmptyInt "total_tokens" t.TotalTokens)

/-- The encoding of `model.ContentBlock`. -/
def encodeContentBlock (b : ContentBlock) : JSON :=
  JSON.obj ([("type", JSON.str b.Type_)]
    ++ omitEmptyString "text" b.Text
    ++ omitEmptyString "tool_name" b.ToolName
    ++ (if b.ToolInput.isEmpty then [] else [("tool_input", JSON.obj b.ToolInput)])
    ++ omitEmptyString "tool_use_id" b.ToolUseID
    ++ omitEmptyString "tool_content" b.ToolContent)

/-- The encoding of `model.MessageMetadata`: `tokens` has no `omitempty`, a nil
pointer is written as `null`. -/
def encodeMessageMetadata (md : MessageMetadata) : JSON :=
  JSON.obj ((if md.IsSidechain then [("is_sidechain", JSON.bool true)] else [])
    ++ omitEmptyString "agent_id" md.AgentID
    ++ [("tokens", match md.Tokens with
          | some t => encodeTokenUsage t
          | none => JSON.null)]
    ++ omitEmptyString "model" md.Model
    ++ omitEmptyString "request_id" md.RequestID
    ++ omitEmptyStringMap "extra" md.Extra)

/-- The encoding of `model.Message`; `formatTime` is `time.Time.MarshalJSON`. -/
def encodeMessage (formatTime : Time → String) (m : Message) : JSON :=
  JSON.obj ([("uuid", JSON.str m.UUID)]
    ++ omitEmptyString "parent_uuid" m.ParentUUID
    ++ [("timestamp", JSON.str (formatTime m.Timestamp)),
        ("role", JSON.str m.Role),
        ("content", encodeList encodeContentBlock m.Content),
        ("metadata", encodeMessageMetadata m.Metadata)])

/-- The encoding of `model.Subagent`. -/
def encodeSubagent (formatTime : Time → String) (a : Subagent) : JSON :=
  JSON.obj ([("agent_id", JSON.str a.AgentID)]
    ++ omitEmptyString "slug" a.Slug
    ++ [("messages", encodeList (encodeMessage formatTime) a.Messages)])

/-- The encoding of `model.SessionMetadata`. -/
def encodeSessionMetadata (md : SessionMetadata) : JSON :=
  JSON.obj (omitEmptyString "working_dir" md.WorkingDir
    ++ omitEmptyString "git_branch" md.GitBranch
    ++ omitEmptyString "model" md.Model
    ++ omitEmptyString "provider" md.Provider
    ++ omitEmptyString "name" md.Name
    ++ omitEmptyStringMap "extra" md.Extra)

/-- The encoding of `model.Session`. -/
def encodeSession (formatTime : Time → String) (s : Session) : JSON :=
  JSON.obj ([("agent_type", JSON.str s.AgentType),
      ("session_id", JSON.str s.SessionID),
      ("created_at", JSON.str (formatTime s.CreatedAt)),
      ("updated_at", JSON.str (formatTime s.UpdatedAt)),
      ("metadata", encodeSessionMetadata s.Metadata),
      ("messages", encodeList (encodeMessage formatTime) s.Messages)]
    ++ (if s.Subagents.isEmpty then []
        else [("subagents", JSON.arr (s.Subagents.map (encodeSubagent formatTime)))]))

/-- The encoding of `model.Output`. -/
def encodeOutput (formatTime : Time → String) (o : Output) : JSON :=
  JSON.obj [("version", JSON.str o.Version),
    ("generated_at", JSON.str (formatTime o.GeneratedAt)),
    ("sessions", match o.Sessions with
      | some xs => JSON.arr (xs.map (encodeSession formatTime))
      | none => JSON.null)]

/-- Go `Writer.Write` up to the call of `json.Marshal`: the value that is
written, as a tree; `now` is `time.Now()`. -/
def Write (formatTime : Time → String) (now : Time) (sessions : Slice Session) : JSON :=
  encodeOutput formatTime { Version := Version, GeneratedAt := now, Sessions := sessions }

/-- The keys of an encoded object, in the order they are written. -/
def objKeys : JSON → List String
  | JSON.obj fields => fields.map Prod.fst
  | _ => []

/-- The value an encoded object holds under a key. -/
def objField (j : JSON) (key : String) : Option JSON :=
  match j with
  | JSON.obj fields => List.lookup key fields
  | _ => none

end output

/-! ## cmd/braindump/main.go -/

namespace cmd

/-- The flag variables `run` reads before it writes. -/
structure Flags where
  agentType : String
  sessionID : String
  since : String
  until_ : String

/-- The part of Go `run` that ends with the call of `filter.Apply`: the session
list handed to the writer, or `none` for a returned error.  `claudeRead` and
`gooseRead` are the outcomes of creating a reader and calling its `ReadSessions`,
`none` for an error; a reader whose branch is not taken is not run. -/
def runSessions (orbit : Char → Char → Bool) (parseTime : String → Option Time)
    (claudeRead gooseRead : Option (List Session)) (flags : Flags) : Option (Slice Session) :=
  let sinceTime : Option Time := if flags.since ≠ "" then parseTime flags.since else some Time.zero
  let untilTime : Option Time := if flags.until_ ≠ "" then parseTime flags.until_ else some Time.zero
  match sinceTime, untilTime with
  | some sinceT, some untilT =>
    let afterClaude : Option (Slice Session) :=
      if flags.agentType = "" ∨ flags.agentType = "claude" then
        claudeRead.map fun claudeSessions => appendSlice none claudeSessions
      else some none
    match afterClaude with
    | none => none
    | some allSessions =>
      let afterGoose : Option (Slice Session) :=
        if flags.agentType = "" ∨ flags.agentType = "goose" then
          gooseRead.map fun gooseSessions => appendSlice allSessions gooseSessions
        else some allSessions
      match afterGoose with
      | none => none
      | some allSessions2 =>
        some (filter.ApplySlice orbit allSessions2.elems
          { AgentType := flags.agentType, SessionID := flags.sessionID,
            Since := sinceT, Until := untilT })
  | _, _ => none

/-- Go `run` in JSON mode with an output destination that opens: the envelope
that is written, or `none` for a returned error. -/
def run (orbit : Char → Char → Bool) (parseTime : String → Option Time)
    (formatTime : Time → String) (now : Time)
    (claudeRead gooseRead : Option (List Session)) (flags : Flags) : Option JSON :=
  (runSessions orbit parseTime claudeRead gooseRead flags).map (output.Write formatTime now)

end cmd

/-- Go `strings.Contains(s, substr)`. -/
def Contains (s substr : String) : Bool :=
  s.data.tails.any fun t => substr.data.isPrefixOf t

namespace claude

/-- One call of the function `filepath.Walk` is given: the path, the name and
kind of the entry, and whether the walk reports an error for it. -/
structure WalkEntry where
  path : String
  Name : String
  IsDir : Bool
  err : Bool

/-- The calls of the walk function of `ReadSessions`, in the order of the walk;
`none` is the error that ends the walk. -/
def walkLoop (env : Env) : List Session → List WalkEntry → Option (List Session)
  | sessions, [] => some sessions
  | sessions, e :: rest =>
    if e.err then none
    else if ¬ e.IsDir ∧ HasSuffix e.Name ".jsonl" then
      if Contains e.path "subagents" then walkLoop env sessions rest
      else
        match readSessionFile env e.path with
        | none => walkLoop env sessions rest
        | some session => walkLoop env (sessions ++ [session]) rest
    else walkLoop env sessions rest

/-- Go `ReadSessions` of the Claude reader; `walk dir` lists the entries
`filepath.Walk` visits under `dir`, and `none` is a returned error. -/
def ReadSessions (env : Env) (homeDir : String) (walk : String → List WalkEntry) :
    Option (List Session) :=
  let claudeDir := env.join [homeDir, ".claude", "projects"]
  if env.notExist claudeDir then some []
  else walkLoop env [] (walk claudeDir)

/-- The components of a slash-separated path; `cur` holds the component being
read, reversed. -/
def splitPath : List Char → List Char → List String
  | cur, [] => [String.mk cur.reverse]
  | cur, c :: cs => if c = '/' then String.mk cur.reverse :: splitPath [] cs else splitPath (c :: cur) cs

/-- The file lies in a directory named `subagents`: a component of its path
other than the last one is `subagents`. -/
def inSubagentsDir (path : String) : Bool :=
  (splitPath [] path.data).dropLast.any fun d => d = "subagents"

/-- A line holding a user message and no session identifier. -/
def helloLine : String :=
  "\x7b\"type\":\"user\",\"message\":\x7b\"role\":\"user\",\"content\":\"Hello\"\x7d\x7d"

/-- The record `helloLine` decodes to. -/
def helloRecord : Obj :=
  [("type", JSON.str "user"),
   ("message", JSON.obj [("role", JSON.str "user"), ("content", JSON.str "Hello")])]

/-- An environment with two session files of one line each, one of them in the
project directory `my-subagents-notes`; the projects directory exists and no
session has subagents. -/
def walkEnv : Env :=
  { exampleEnv [(helloLine, helloRecord)]
      [("/home/u/.claude/projects/my-subagents-notes/s1.jsonl", [helloLine]),
       ("/home/u/.claude/projects/notes/s2.jsonl", [helloLine])] with
    notExist := fun path => path ≠ "/home/u/.claude/projects" }

/-- The entries the walk visits in `walkEnv`. -/
def walkEntries (dir : String) : List WalkEntry :=
  if dir = "/home/u/.claude/projects" then
    [ { path := "/home/u/.claude/projects", Name := "projects", IsDir := true, err := false },
      { path := "/home/u/.claude/projects/my-subagents-notes", Name := "my-subagents-notes",
        IsDir := true, err := false },
      { path := "/home/u/.claude/projects/my-subagents-notes/s1.jsonl", Name := "s1.jsonl",
        IsDir := false, err := false },
      { path := "/home/u/.claude/projects/notes", Name := "notes", IsDir := true, err := false },
      { path := "/home/u/.claude/projects/notes/s2.jsonl", Name := "s2.jsonl",
        IsDir := false, err := false } ]
  else []

end claude

namespace output

/-- A message with an empty identifier, no token usage and no content. -/
def bareMessage : Message :=
  { UUID := "", ParentUUID := "", Timestamp := Time.zero, Role := "user", Content := [],
    Metadata := MessageMetadata.empty }

end output

namespace cmd

/-- No flag set. -/
def noFlags : Flags := { agentType := "", sessionID := "", since := "", until_ := "" }

end cmd

/-- The type tag a normalizer reads from a raw block: the string `type` field,
and the empty string when that field is missing or not a string. -/
def typeTag (block : Obj) : String := (asString (field block "type")).getD ""

/-- A content block is well-formed for its kind: a block that is neither a tool
use nor a tool result (a text block, or one of an unrecognized type) carries no
tool name, identifier, content or input; a tool-use block carries no text and no
tool content; a tool-result block carries no text, tool name or input. -/
def wellFormedBlock (b : ContentBlock) : Prop :=
  (b.Type_ ≠ "tool_use" → b.Type_ ≠ "tool_result" →
      b.ToolName = "" ∧ b.ToolUseID = "" ∧ b.ToolContent = "" ∧ b.ToolInput = [])
  ∧ (b.Type_ = "tool_use" → b.Text = "" ∧ b.ToolContent = "")
  ∧ (b.Type_ = "tool_result" → b.Text = "" ∧ b.ToolName = "" ∧ b.ToolInput = [])

/-! ## Timestamps with their zone offset

A `time.Time` returned by `time.Parse` also carries the zone offset that was
read, and `time.Time.MarshalJSON` writes the time in that zone.  `IsZero`,
`Before` and `After` compare instants only, which is why the definitions above
keep the instant alone.  This section refines the block `// Parse timestamp` of
`readSessionFile` to values that keep the offset, so that it can be said which of
several values denoting one instant is stored. -/

/-- A `time.Time` with the zone it carries: the instant, and the offset of the
zone in seconds east of UTC. -/
structure ZonedTime where
  instant : Time
  offset : Int

instance : DecidableEq ZonedTime := fun a b =>
  decidable_of_iff (a.instant = b.instant ∧ a.offset = b.offset)
    (by cases a; cases b; simp)

/-- The zero value of `time.Time`: the zero instant, in UTC. -/
def ZonedTime.zero : ZonedTime := { instant := Time.zero, offset := 0 }

/-- Go `t.IsZero()`: the zone is not looked at. -/
def ZonedTime.IsZero (t : ZonedTime) : Bool := t.instant.IsZero

/-- Go `t.Before(u)`: the instants are compared. -/
def ZonedTime.Before (t u : ZonedTime) : Bool := t.instant.Before u.instant

/-- Go `t.After(u)`: the instants are compared. -/
def ZonedTime.After (t u : ZonedTime) : Bool := t.instant.After u.instant

/-- The decoder of instants that a decoder of times with their zone gives. -/
def instantParser (parseZoned : String → Option ZonedTime) : String → Option Time :=
  fun s => (parseZoned s).map ZonedTime.instant

/-- The reference decoder of `time.Parse(time.RFC3339, s)`, keeping the offset
that was read: `parseRFC3339` with the zone next to the instant. -/
def parseRFC3339Zoned (s : String) : Option ZonedTime :=
  (readDate s.data).bind fun d =>
  (readChar 'T' d.2).bind fun c1 =>
  (readClock c1).bind fun c =>
  (readOptFraction c.2).bind fun f =>
  (readZone f.2).bind fun offset =>
  if validDateTime d.1 c.1 then
    some { instant := instantOf d.1 c.1 f.1 offset, offset := offset }
  else none

/-- The zone as the layout element `Z07:00` writes it: `Z` for the offset zero,
and otherwise the sign, the hours and the minutes of the offset. -/
def formatZone (offset : Int) : List Char :=
  if offset = 0 then ['Z']
  else
    let zone := Int.tdiv offset 60
    (if zone < 0 then '-' else '+')
      :: (padDigits 2 (zone.natAbs / 60) ++ [':'] ++ padDigits 2 (zone.natAbs % 60))

/-- The reference formatter of `time.Time.MarshalJSON`, without the quotes, for a
time with its zone: the date and the clock time are those of the zone. -/
def formatRFC3339Zoned (z : ZonedTime) : String :=
  let t := z.instant + z.offset * 1000000000
  let secs := t / 1000000000
  let nanos := (t % 1000000000).toNat
  let days := secs / 86400
  let rem := (secs % 86400).toNat
  let date := civilFromDays days
  String.mk
    (padDigits 4 date.1.toNat ++ ['-'] ++ padDigits 2 date.2.1.toNat ++ ['-']
      ++ padDigits 2 date.2.2.toNat ++ ['T'] ++ padDigits 2 (rem / 3600) ++ [':']
      ++ padDigits 2 (rem % 3600 / 60) ++ [':'] ++ padDigits 2 (rem % 60)
      ++ formatFraction nanos ++ formatZone z.offset)

namespace claude

/-- The variables `createdAt` and `updatedAt` of the scan loop of
`readSessionFile`, with their zones. -/
structure ZonedScan where
  createdAt : ZonedTime
  updatedAt : ZonedTime

/-- The two variables before the first line: `var createdAt, updatedAt time.Time`. -/
def ZonedScan.init : ZonedScan :=
  { createdAt := ZonedTime.zero, updatedAt := ZonedTime.zero }

/-- The update of `createdAt` and `updatedAt` by one timestamp value `ts`: the
two `if` statements of the block `// Parse timestamp`, which assign the whole
value `ts`. -/
def updateZoned (st : ZonedScan) (ts : ZonedTime) : ZonedScan :=
  let st1 := if st.createdAt.IsZero || ts.Before st.createdAt then { st with createdAt := ts } else st
  if st1.updatedAt.IsZero || ts.After st1.updatedAt then { st1 with updatedAt := ts } else st1

/-- The block `// Parse timestamp` of the loop body on times with their zone:
the error of `time.Parse` is discarded, so a string that does not parse gives the
zero value. -/
def stepTimestampZoned (parseZoned : String → Option ZonedTime) (st : ZonedScan) (raw : Obj) :
    ZonedScan :=
  match asString (field raw "timestamp") with
  | some tsStr => updateZoned st ((parseZoned tsStr).getD ZonedTime.zero)
  | none => st

/-- The values of `createdAt` and `updatedAt` after the loop of `readSessionFile`
over the decoded records of a file. -/
def scanTimesZoned (parseZoned : String → Option ZonedTime) (records : List Obj) : ZonedScan :=
  records.foldl (stepTimestampZoned parseZoned) ZonedScan.init

/-- The timestamps, with their zones, of the records that carry a timestamp
string that parses, in file order. -/
def zonedTimestamps (parseZoned : String → Option ZonedTime) (rs : List Obj) : List ZonedTime :=
  rs.filterMap fun r => (asString (field r "timestamp")).bind parseZoned

/-- The record carries a timestamp string that parses to a time whose instant is
not the zero instant. -/
def goodZoned (parseZoned : String → Option ZonedTime) (r : Obj) : Prop :=
  ∃ s z, asString (field r "timestamp") = some s ∧ parseZoned s = some z
    ∧ z.instant ≠ Time.zero

/-- Two records whose timestamps denote the same instant, noon UTC, the second
one written in a zone two hours east of UTC. -/
def sameInstantRecords : List Obj :=
  [ [("timestamp", JSON.str "2026-02-07T12:00:00Z")],
    [("timestamp", JSON.str "2026-02-07T14:00:00+02:00")] ]

end claude

end Braindump

/-! # Theorems -/

namespace Braindump

namespace filter

/-! ## The session filter -/

theorem applyStep_foldl (orbit : Char → Char → Bool) (opts : Options) (xs : List Session)
    (st : ApplyState) :
    xs.foldl (applyStep orbit opts) st =
      { sessions := st.sessions,
        filtered := st.filtered ++ xs.filter (fun s => shouldInclude orbit s opts) } := by
  induction xs generalizing st with
  | nil => simp
  | cons x xs ih =>
    rw [List.foldl_cons, ih]
    by_cases hx : shouldInclude orbit x opts = true
    · simp [applyStep, hx, List.filter_cons]
    · simp [applyStep, hx, List.filter_cons]

theorem Apply_eq_filter (orbit : Char → Char → Bool) (xs : List Session) (o : Options) :
    Apply orbit xs o = xs.filter (fun s => shouldInclude orbit s o) := by
  simp [Apply, applyLoop, applyStep_foldl]

theorem shouldInclude_true_iff (orbit : Char → Char → Bool) (s : Session) (o : Options) :
    shouldInclude orbit s o = true ↔
      (o.AgentType = "" ∨ EqualFold orbit s.AgentType o.AgentType = true)
      ∧ (o.SessionID = "" ∨ s.SessionID = o.SessionID)
      ∧ (o.Since = Time.zero ∨ o.Since ≤ s.CreatedAt)
      ∧ (o.Until = Time.zero ∨ s.CreatedAt ≤ o.Until) := by
  unfold shouldInclude Time.IsZero Time.Before Time.After Time.zero
  simp only [decide_eq_true_eq, Bool.not_eq_true, ne_eq]
  split_ifs with h1 h2 h3 h4
  · simp [h1.1, h1.2]
  · have h1a : o.AgentType = "" ∨ EqualFold orbit s.AgentType o.AgentType = true := by
      by_contra hc; push_neg at hc; exact h1 ⟨hc.1, by simpa using hc.2⟩
    simp [h2.1, h2.2]
  · simp [h3.1, not_le.mpr h3.2]
  · simp [h4.1, not_le.mpr h4.2]
  · have h1a : o.AgentType = "" ∨ EqualFold orbit s.AgentType o.AgentType = true := by
      by_contra hc; push_neg at hc; exact h1 ⟨hc.1, by simpa using hc.2⟩
    have h2a : o.SessionID = "" ∨ s.SessionID = o.SessionID := by
      by_contra hc; push_neg at hc; exact h2 ⟨hc.1, hc.2⟩
    have h3a : o.Since = 0 ∨ o.Since ≤ s.CreatedAt := by
      by_contra hc; push_neg at hc; exact h3 ⟨hc.1, hc.2⟩
    have h4a : o.Until = 0 ∨ s.CreatedAt ≤ o.Until := by
      by_contra hc; push_neg at hc; exact h4 ⟨hc.1, hc.2⟩
    simp [h1a, h2a, h3a, h4a]

/-- C1: `shouldInclude` is true exactly when the agent kind is unset or matches
ignoring case, the identifier is unset or equal, the lower bound is the zero
instant or not after the creation time, and the upper bound is the zero instant
or not before it; a session created exactly at `Since`, or exactly at `Until`,
is kept. -/
theorem shouldInclude_iff (orbit : Char → Char → Bool) (s : Session) (o : Options) :
    (shouldInclude orbit s o = true ↔
      (o.AgentType = "" ∨ EqualFold orbit s.AgentType o.AgentType = true)
      ∧ (o.SessionID = "" ∨ s.SessionID = o.SessionID)
      ∧ (o.Since.IsZero = true ∨ s.CreatedAt.Before o.Since = false)
      ∧ (o.Until.IsZero = true ∨ s.CreatedAt.After o.Until = false))
    ∧ shouldInclude orbit { s with CreatedAt := o.Since } o.onlySince = true
    ∧ shouldInclude orbit { s with CreatedAt := o.Until } o.onlyUntil = true := by
  refine ⟨?_, ?_, ?_⟩
  · rw [shouldInclude_true_iff]
    simp [Time.IsZero, Time.Before, Time.After, Time.zero]
  · simp [shouldInclude_true_iff, Options.onlySince, Options.none]
  · simp [shouldInclude_true_iff, Options.onlyUntil, Options.none]

/-- C2: `Apply` returns exactly the sessions of its input for which
`shouldInclude` holds, unchanged and in their input order, as a sublist of the
input, and the loop leaves the input list as it was. -/
theorem Apply_spec (orbit : Char → Char → Bool) (xs : List Session) (o : Options) :
    Apply orbit xs o = xs.filter (fun s => shouldInclude orbit s o)
    ∧ (Apply orbit xs o).Sublist xs
    ∧ (∀ s, s ∈ Apply orbit xs o ↔ s ∈ xs ∧ shouldInclude orbit s o = true)
    ∧ (applyLoop orbit xs o).sessions = xs := by
  refine ⟨Apply_eq_filter orbit xs o, ?_, ?_, ?_⟩
  · rw [Apply_eq_filter]; exact List.filter_sublist xs
  · intro s; rw [Apply_eq_filter]; simp [List.mem_filter]
  · simp [applyLoop, applyStep_foldl]

/-- C3: filtering a filtered list again with the same options returns the same list. -/
theorem Apply_idempotent (orbit : Char → Char → Bool) (xs : List Session) (o : Options) :
    Apply orbit (Apply orbit xs o) o = Apply orbit xs o := by
  simp [Apply_eq_filter, List.filter_filter]

theorem applyAll_eq_filter (orbit : Char → Char → Bool) (os : List Options) (xs : List Session) :
    applyAll orbit xs os = xs.filter (fun s => os.all (fun p => shouldInclude orbit s p)) := by
  induction os generalizing xs with
  | nil => simp [applyAll]
  | cons p os ih =>
    have h : applyAll orbit xs (p :: os) = applyAll orbit (Apply orbit xs p) os := rfl
    rw [h, ih, Apply_eq_filter, List.filter_filter]
    congr 1
    funext s
    simp [Bool.and_comm]

theorem shouldInclude_eq_all (orbit : Char → Char → Bool) (s : Session) (o : Options) :
    shouldInclude orbit s o = (singlePredicates o).all (fun p => shouldInclude orbit s p) := by
  rw [Bool.eq_iff_iff]
  simp only [singlePredicates, List.all_cons, List.all_nil, Bool.and_true, Bool.and_eq_true,
    shouldInclude_true_iff]
  simp [Options.onlyAgentType, Options.onlySessionID, Options.onlySince, Options.onlyUntil,
    Options.none]

/-- C4: the predicates compose with AND: applying the four single-predicate
filters taken from `o` one after another, in any order, gives `Apply xs o`; and
in the scenario of three sessions with one goose session inside the window the
result is that session alone. -/
theorem Apply_compose (orbit : Char → Char → Bool) (xs : List Session) (o : Options)
    (os : List Options) (h : os.Perm (singlePredicates o)) :
    applyAll orbit xs os = Apply orbit xs o
    ∧ Apply orbit scenarioSessions scenarioOptions = [sessionAt "goose" "session-2" 2000] := by
  constructor
  · rw [applyAll_eq_filter, Apply_eq_filter]
    congr 1
    funext s
    rw [shouldInclude_eq_all]
    rw [Bool.eq_iff_iff, List.all_eq_true, List.all_eq_true]
    exact ⟨fun hs p hp => hs p (h.mem_iff.mpr hp), fun hs p hp => hs p (h.mem_iff.mp hp)⟩
  · rfl

/-- Witness of C4: the four single-predicate filters of the scenario options,
with the identifier filter applied before the agent-kind filter. -/
theorem Apply_compose_witness :
    applyAll asciiOrbit scenarioSessions
        [scenarioOptions.onlySessionID, scenarioOptions.onlyAgentType, scenarioOptions.onlySince,
         scenarioOptions.onlyUntil]
      = Apply asciiOrbit scenarioSessions scenarioOptions
    ∧ Apply asciiOrbit scenarioSessions scenarioOptions = [sessionAt "goose" "session-2" 2000] :=
  Apply_compose asciiOrbit scenarioSessions scenarioOptions
    [scenarioOptions.onlySessionID, scenarioOptions.onlyAgentType, scenarioOptions.onlySince,
     scenarioOptions.onlyUntil]
    (List.Perm.swap _ _ _)

end filter


namespace claude

/-! ## The scan loop of Reader A -/

theorem stepLine_dropCR (unmarshal : String → Option Obj) (parseTime : String → Option Time)
    (st : SessionScan) (line : String) :
    stepLine unmarshal parseTime st (dropCR line) =
      match decodeLine unmarshal line with
      | none => st
      | some raw => stepRecord parseTime st raw := by
  unfold stepLine decodeLine
  split_ifs <;> rfl

theorem scanLines_eq (unmarshal : String → Option Obj) (parseTime : String → Option Time)
    (lines : List String) (st : SessionScan) :
    scanLines unmarshal parseTime st lines =
      if lines.any tooLong then none
      else some ((records unmarshal lines).foldl (stepRecord parseTime) st) := by
  induction lines generalizing st with
  | nil => simp [scanLines, records]
  | cons line rest ih =>
    unfold scanLines
    by_cases hl : maxTokenSize ≤ line.utf8ByteSize
    · simp [hl, tooLong]
    · rw [if_neg hl, ih, stepLine_dropCR]
      have ht : tooLong line = false := by simp [tooLong, hl]
      simp only [List.any_cons, ht, Bool.false_or, records, List.filterMap_cons]
      cases decodeLine unmarshal line <;> rfl

theorem isMessageRecord_iff (raw : Obj) :
    isMessageRecord raw = true ↔
      ((asString (field raw "type")).getD "" = "user"
        ∨ (asString (field raw "type")).getD "" = "assistant") := by
  unfold isMessageRecord
  cases h : asString (field raw "type") with
  | none => simp
  | some t => simp

theorem stepRecord_messages (parseTime : String → Option Time) (st : SessionScan) (raw : Obj) :
    (stepRecord parseTime st raw).messages =
      st.messages ++
        (if isMessageRecord raw then (parseMessage parseTime raw).toList else []) := by
  have h1 : (stepSessionFields st raw).messages = st.messages := by
    unfold stepSessionFields
    split_ifs
    · cases asString (field raw "sessionId") <;> cases asString (field raw "cwd")
        <;> cases asString (field raw "gitBranch") <;> rfl
    · rfl
  have h2 : ∀ st1 : SessionScan, (stepTimestamp parseTime st1 raw).messages = st1.messages := by
    intro st1
    unfold stepTimestamp
    cases asString (field raw "timestamp") with
    | none => rfl
    | some ts =>
      simp only [updateTimes]
      split_ifs <;> rfl
  unfold stepRecord stepMessage
  by_cases hm : isMessageRecord raw = true
  · rw [if_pos ((isMessageRecord_iff raw).mp hm), if_pos hm]
    cases parseMessage parseTime raw with
    | none => simp [h1, h2]
    | some m => simp [h1, h2]
  · rw [if_neg (fun h => hm ((isMessageRecord_iff raw).mpr h)), if_neg hm]
    simp [h1, h2]

theorem foldl_stepRecord_messages (parseTime : String → Option Time) (rs : List Obj)
    (st : SessionScan) :
    (rs.foldl (stepRecord parseTime) st).messages =
      st.messages ++ (rs.filter isMessageRecord).filterMap (parseMessage parseTime) := by
  induction rs generalizing st with
  | nil => simp
  | cons r rs ih =>
    rw [List.foldl_cons, ih, stepRecord_messages]
    by_cases hm : isMessageRecord r = true
    · cases hp : parseMessage parseTime r <;> simp [hm, hp, List.filter_cons]
    · simp [hm, List.filter_cons]

theorem readSessionLines_messages (env : Env) (path : String) (lines : List String) :
    (readSessionLines env path lines).map (fun s => s.Messages) =
      if lines.any tooLong then none
      else some (((records env.unmarshal lines).filter isMessageRecord).filterMap
        (parseMessage env.parseTime)) := by
  unfold readSessionLines
  rw [scanLines_eq]
  by_cases hl : lines.any tooLong = true
  · simp [hl]
  · simp only [hl, if_false, Option.map_some', Bool.false_eq_true]
    rw [foldl_stepRecord_messages]
    simp [SessionScan.init]

/-- C5: the Messages Reader A builds are the results of `parseMessage` on the
records whose type is `user` or `assistant`, in file order, both for the scan
over the parsed records and for the Session read from the lines of a file; the
three-record scenario gives two Messages with roles user and assistant, the
first holding the single text block Hello. -/
theorem messages_from_typed_records (env : Env) (path : String) (lines : List String)
    (parseTime : String → Option Time) (rs : List Obj) :
    (scanRecords parseTime rs).messages =
        (rs.filter isMessageRecord).filterMap (parseMessage parseTime)
    ∧ (readSessionLines env path lines).map (fun s => s.Messages) =
        (if lines.any tooLong then none
         else some (((records env.unmarshal lines).filter isMessageRecord).filterMap
           (parseMessage env.parseTime)))
    ∧ ((scanRecords parseTime scenarioRecords).messages.length = 2
        ∧ (scanRecords parseTime scenarioRecords).messages.map (fun m => m.Role)
            = ["user", "assistant"]
        ∧ ((scanRecords parseTime scenarioRecords).messages.head?).map (fun m => m.Content)
            = some [{ ContentBlock.empty with Type_ := "text", Text := "Hello" }]) := by
  refine ⟨?_, readSessionLines_messages env path lines, ?_, ?_, ?_⟩
  · simp [scanRecords, foldl_stepRecord_messages, SessionScan.init]
  · rfl
  · rfl
  · rfl

/-! ## Roles of the stored messages -/

theorem parseMessage_role (parseTime : String → Option Time) (raw : Obj) :
    (parseMessage parseTime raw).map (fun m => m.Role) = recordRole raw := by
  unfold parseMessage recordRole
  cases asObject (field raw "message") with
  | none => rfl
  | some md =>
    cases h : asString (field md "role") with
    | none => simp [h]
    | some r =>
      by_cases hr : r = ""
      · simp [h, hr]
      · simp [h, hr]

theorem filterMap_parseMessage_role (parseTime : String → Option Time) (rs : List Obj) :
    (rs.filterMap (parseMessage parseTime)).map (fun m => m.Role) = rs.filterMap recordRole := by
  induction rs with
  | nil => rfl
  | cons r rs ih =>
    have h := parseMessage_role parseTime r
    cases hp : parseMessage parseTime r with
    | none =>
      rw [hp] at h
      simp only [List.filterMap_cons, hp, ← h, Option.map_none']
      exact ih
    | some m =>
      rw [hp] at h
      simp only [List.filterMap_cons, hp, ← h, Option.map_some', List.map_cons, ih]

theorem foldl_stepSubagentRecord_messages (parseTime : String → Option Time) (rs : List Obj)
    (st : SubagentScan) :
    (rs.foldl (stepSubagentRecord parseTime) st).messages =
      st.messages ++ (rs.filter isMessageRecord).filterMap (parseMessage parseTime) := by
  induction rs generalizing st with
  | nil => simp
  | cons r rs ih =>
    rw [List.foldl_cons, ih]
    have hstep : (stepSubagentRecord parseTime st r).messages =
        st.messages ++ (if isMessageRecord r then (parseMessage parseTime r).toList else []) := by
      unfold stepSubagentRecord
      have hs : (if st.slug = "" then
            match asString (field r "slug") with
            | some s => { st with slug := s }
            | none => st
          else st).messages = st.messages := by
        split_ifs
        · cases asString (field r "slug") <;> rfl
        · rfl
      by_cases hm : isMessageRecord r = true
      · simp only [if_pos ((isMessageRecord_iff r).mp hm), if_pos hm]
        cases parseMessage parseTime r with
        | none => simp [hs]
        | some m => simp [hs]
      · simp only [if_neg (fun h => hm ((isMessageRecord_iff r).mpr h)), if_neg hm]
        simp [hs]
    rw [hstep]
    by_cases hm : isMessageRecord r = true
    · cases hp : parseMessage parseTime r <;> simp [hm, hp, List.filter_cons]
    · simp [hm, List.filter_cons]

theorem scanRecords_roles (parseTime : String → Option Time) (rs : List Obj) :
    (scanRecords parseTime rs).messages.map (fun m => m.Role)
      = (rs.filter isMessageRecord).filterMap recordRole := by
  simp [scanRecords, foldl_stepRecord_messages, SessionScan.init, filterMap_parseMessage_role]

/-- C6, as the code has it: the roles of the Messages stored for a session, and
for a subagent, are exactly the non-empty `message.role` strings of the records
of type `user` or `assistant`, in file order, whatever those strings are; a
record without such a role gives no Message. -/
theorem stored_roles (parseTime : String → Option Time) (rs : List Obj) :
    (scanRecords parseTime rs).messages.map (fun m => m.Role)
        = (rs.filter isMessageRecord).filterMap recordRole
    ∧ (scanSubagentRecords parseTime rs).messages.map (fun m => m.Role)
        = (rs.filter isMessageRecord).filterMap recordRole
    ∧ (∀ raw, recordRole raw = none → parseMessage parseTime raw = none)
    ∧ (∀ raw role, recordRole raw = some role → role ≠ "") := by
  refine ⟨scanRecords_roles parseTime rs, ?_, ?_, ?_⟩
  · simp [scanSubagentRecords, foldl_stepSubagentRecord_messages, filterMap_parseMessage_role]
  · intro raw h
    have h2 := parseMessage_role parseTime raw
    rw [h] at h2
    cases hp : parseMessage parseTime raw with
    | none => rfl
    | some m => rw [hp] at h2; simp at h2
  · intro raw role h
    unfold recordRole at h
    cases hm : asObject (field raw "message") with
    | none => simp [hm] at h
    | some md =>
      cases hr : asString (field md "role") with
      | none => simp [hm, hr] at h
      | some r =>
        by_cases hre : r = ""
        · simp [hm, hr, hre] at h
        · simp [hm, hr, hre] at h
          exact h ▸ hre

/-- Witness of C6: of three records of type `user`, the one with role `tool` and
the one with role `user` are stored and the one without a role is dropped. -/
theorem stored_roles_witness :
    (scanRecords parseRFC3339 mixedRoleRecords).messages.map (fun m => m.Role) = ["tool", "user"] :=
  (stored_roles parseRFC3339 mixedRoleRecords).1.trans (by decide)

/-- Counterexample to C6 as stated: a record of type `user` whose message role
is `system` is stored as a Message with Role `system`. -/
theorem role_outside_user_assistant :
    (scanRecords parseRFC3339 systemRoleRecords).messages.map (fun m => m.Role) = ["system"]
    ∧ ¬ (∀ m ∈ (scanRecords parseRFC3339 systemRoleRecords).messages,
          m.Role = "user" ∨ m.Role = "assistant") := by
  have h : (scanRecords parseRFC3339 systemRoleRecords).messages.map (fun m => m.Role)
      = ["system"] := by
    rw [scanRecords_roles parseRFC3339 systemRoleRecords]
    decide
  refine ⟨h, ?_⟩
  intro hall
  have hmem : ∀ r ∈ (scanRecords parseRFC3339 systemRoleRecords).messages.map (fun m => m.Role),
      r = "user" ∨ r = "assistant" := by
    intro r hr
    obtain ⟨m, hm, rfl⟩ := List.mem_map.mp hr
    exact hall m hm
  rw [h] at hmem
  have := hmem "system" (by simp)
  revert this
  decide

/-! ## Creation and update times -/

/-- C7, the code at the failing input: of three timestamped records whose
second timestamp does not parse, the parsed timestamps are 12:00:10 and
12:00:20, yet the scan ends with `createdAt` at 12:00:20; after the first two
records it is at the zero instant. -/
theorem createdAt_reset_by_bad_timestamp :
    parsedTimestamps parseRFC3339 resetRecords = [63906062410000000000, 63906062420000000000]
    ∧ parseRFC3339 "not-a-time" = none
    ∧ (scanRecords parseRFC3339 resetRecords).createdAt = 63906062420000000000
    ∧ (scanRecords parseRFC3339 resetRecords).updatedAt = 63906062420000000000
    ∧ (scanRecords parseRFC3339 (resetRecords.take 2)).createdAt = Time.zero
    ∧ (scanRecords parseRFC3339 (resetRecords.take 2)).updatedAt = 63906062410000000000 := by
  refine ⟨?_, ?_, ?_, ?_, ?_, ?_⟩ <;> decide

theorem updateTimes_le (st : SessionScan) (ts : Time) (h : st.createdAt ≤ st.updatedAt) :
    (updateTimes st ts).createdAt ≤ (updateTimes st ts).updatedAt := by
  unfold updateTimes Time.IsZero Time.Before Time.After
  simp only [Bool.or_eq_true, decide_eq_true_eq]
  split_ifs <;> simp_all

theorem stepSessionFields_times (st : SessionScan) (raw : Obj) :
    (stepSessionFields st raw).createdAt = st.createdAt
    ∧ (stepSessionFields st raw).updatedAt = st.updatedAt := by
  unfold stepSessionFields
  split_ifs
  · cases asString (field raw "sessionId") <;> cases asString (field raw "cwd")
      <;> cases asString (field raw "gitBranch") <;> exact ⟨rfl, rfl⟩
  · exact ⟨rfl, rfl⟩

theorem stepMessage_times (parseTime : String → Option Time) (st : SessionScan) (raw : Obj) :
    (stepMessage parseTime st raw).createdAt = st.createdAt
    ∧ (stepMessage parseTime st raw).updatedAt = st.updatedAt := by
  unfold stepMessage
  simp only
  split_ifs
  · cases parseMessage parseTime raw <;> exact ⟨rfl, rfl⟩
  · exact ⟨rfl, rfl⟩

theorem stepRecord_le (parseTime : String → Option Time) (st : SessionScan) (raw : Obj)
    (h : st.createdAt ≤ st.updatedAt) :
    (stepRecord parseTime st raw).createdAt ≤ (stepRecord parseTime st raw).updatedAt := by
  unfold stepRecord
  rw [(stepMessage_times parseTime _ raw).1, (stepMessage_times parseTime _ raw).2]
  have h1 : (stepSessionFields st raw).createdAt ≤ (stepSessionFields st raw).updatedAt := by
    rw [(stepSessionFields_times st raw).1, (stepSessionFields_times st raw).2]; exact h
  unfold stepTimestamp
  cases asString (field raw "timestamp") with
  | none => exact h1
  | some ts => exact updateTimes_le _ _ h1

theorem foldl_stepRecord_le (parseTime : String → Option Time) (rs : List Obj) (st : SessionScan)
    (h : st.createdAt ≤ st.updatedAt) :
    (rs.foldl (stepRecord parseTime) st).createdAt
      ≤ (rs.foldl (stepRecord parseTime) st).updatedAt := by
  induction rs generalizing st with
  | nil => exact h
  | cons r rs ih => exact ih _ (stepRecord_le parseTime st r h)

theorem foldl_stepRecord_no_timestamp (parseTime : String → Option Time) (rs : List Obj)
    (st : SessionScan) (h : ∀ r ∈ rs, asString (field r "timestamp") = none) :
    (rs.foldl (stepRecord parseTime) st).createdAt = st.createdAt
    ∧ (rs.foldl (stepRecord parseTime) st).updatedAt = st.updatedAt := by
  induction rs generalizing st with
  | nil => exact ⟨rfl, rfl⟩
  | cons r rs ih =>
    have hr := h r (List.mem_cons_self r rs)
    have hstep : (stepRecord parseTime st r).createdAt = st.createdAt
        ∧ (stepRecord parseTime st r).updatedAt = st.updatedAt := by
      unfold stepRecord
      rw [(stepMessage_times parseTime _ r).1, (stepMessage_times parseTime _ r).2]
      unfold stepTimestamp
      rw [hr]
      exact stepSessionFields_times st r
    have ih2 := ih (stepRecord parseTime st r) (fun x hx => h x (List.mem_cons_of_mem r hx))
    rw [List.foldl_cons, ih2.1, ih2.2]
    exact hstep

theorem readSessionLines_times (env : Env) (path : String) (lines : List String) (s : Session)
    (h : readSessionLines env path lines = some s) :
    s.CreatedAt = (scanRecords env.parseTime (records env.unmarshal lines)).createdAt
    ∧ s.UpdatedAt = (scanRecords env.parseTime (records env.unmarshal lines)).updatedAt := by
  unfold readSessionLines at h
  rw [scanLines_eq] at h
  by_cases hl : lines.any tooLong = true
  · simp [hl] at h
  · simp only [hl, if_false, Option.some.injEq, Bool.false_eq_true] at h
    subst h
    exact ⟨rfl, rfl⟩

/-- C8: the scan of any record sequence ends with `createdAt ≤ updatedAt`, and so
does every Session read from a file; when no record carries a timestamp string
both are the zero instant; the loop starts at (zero, zero) and every step of the
per-record update preserves the inequality. -/
theorem createdAt_le_updatedAt (parseTime : String → Option Time) (rs : List Obj) :
    (scanRecords parseTime rs).createdAt ≤ (scanRecords parseTime rs).updatedAt
    ∧ ((∀ r ∈ rs, asString (field r "timestamp") = none) →
        (scanRecords parseTime rs).createdAt = Time.zero
        ∧ (scanRecords parseTime rs).updatedAt = Time.zero)
    ∧ (SessionScan.init.createdAt = Time.zero ∧ SessionScan.init.updatedAt = Time.zero)
    ∧ (∀ st raw, st.createdAt ≤ st.updatedAt →
        (stepRecord parseTime st raw).createdAt ≤ (stepRecord parseTime st raw).updatedAt)
    ∧ (∀ env path lines s, readSessionLines env path lines = some s →
        s.CreatedAt ≤ s.UpdatedAt) := by
  refine ⟨?_, ?_, ⟨rfl, rfl⟩, ?_, ?_⟩
  · exact foldl_stepRecord_le parseTime rs SessionScan.init (le_refl _)
  · intro h
    exact foldl_stepRecord_no_timestamp parseTime rs SessionScan.init h
  · exact fun st raw h => stepRecord_le parseTime st raw h
  · intro env path lines s h
    obtain ⟨h1, h2⟩ := readSessionLines_times env path lines s h
    rw [h1, h2]
    exact foldl_stepRecord_le env.parseTime _ SessionScan.init (le_refl _)

/-- Witness of C8: the three scenario records carry no timestamp, so the scan
ends at (zero, zero). -/
theorem createdAt_le_updatedAt_witness :
    (scanRecords parseRFC3339 scenarioRecords).createdAt = Time.zero
    ∧ (scanRecords parseRFC3339 scenarioRecords).updatedAt = Time.zero :=
  (createdAt_le_updatedAt parseRFC3339 scenarioRecords).2.1 (by decide)

/-! ## Session-level fields -/

theorem stepMessage_fields (parseTime : String → Option Time) (st : SessionScan) (raw : Obj) :
    (stepMessage parseTime st raw).sessionID = st.sessionID
    ∧ (stepMessage parseTime st raw).metadata = st.metadata := by
  unfold stepMessage
  simp only
  split_ifs
  · cases parseMessage parseTime raw <;> exact ⟨rfl, rfl⟩
  · exact ⟨rfl, rfl⟩

theorem stepTimestamp_fields (parseTime : String → Option Time) (st : SessionScan) (raw : Obj) :
    (stepTimestamp parseTime st raw).sessionID = st.sessionID
    ∧ (stepTimestamp parseTime st raw).metadata = st.metadata := by
  unfold stepTimestamp
  cases asString (field raw "timestamp") with
  | none => exact ⟨rfl, rfl⟩
  | some ts =>
    simp only [updateTimes]
    split_ifs <;> exact ⟨rfl, rfl⟩

theorem stepRecord_fields (parseTime : String → Option Time) (st : SessionScan) (raw : Obj) :
    (stepRecord parseTime st raw).sessionID = (stepSessionFields st raw).sessionID
    ∧ (stepRecord parseTime st raw).metadata = (stepSessionFields st raw).metadata := by
  unfold stepRecord
  rw [(stepMessage_fields parseTime _ raw).1, (stepMessage_fields parseTime _ raw).2,
    (stepTimestamp_fields parseTime _ raw).1, (stepTimestamp_fields parseTime _ raw).2]
  exact ⟨rfl, rfl⟩

theorem stepSessionFields_open (st : SessionScan) (raw : Obj) (h : st.sessionID = "") :
    (stepSessionFields st raw).sessionID = (asString (field raw "sessionId")).getD ""
    ∧ (stepSessionFields st raw).metadata.WorkingDir
        = (asString (field raw "cwd")).getD st.metadata.WorkingDir
    ∧ (stepSessionFields st raw).metadata.GitBranch
        = (asString (field raw "gitBranch")).getD st.metadata.GitBranch := by
  unfold stepSessionFields
  rw [if_pos h]
  cases asString (field raw "sessionId") <;> cases asString (field raw "cwd")
    <;> cases asString (field raw "gitBranch") <;> simp [h]

theorem foldl_stepRecord_closed (parseTime : String → Option Time) (rs : List Obj)
    (st : SessionScan) (h : st.sessionID ≠ "") :
    (rs.foldl (stepRecord parseTime) st).sessionID = st.sessionID
    ∧ (rs.foldl (stepRecord parseTime) st).metadata = st.metadata := by
  induction rs generalizing st with
  | nil => exact ⟨rfl, rfl⟩
  | cons r rs ih =>
    have hs : stepSessionFields st r = st := by
      unfold stepSessionFields
      rw [if_neg h]
    have h1 := stepRecord_fields parseTime st r
    rw [hs] at h1
    have ih2 := ih (stepRecord parseTime st r) (by rw [h1.1]; exact h)
    rw [List.foldl_cons, ih2.1, ih2.2]
    exact h1

theorem hasSessionID_false (raw : Obj) (h : hasSessionID raw = false) :
    (asString (field raw "sessionId")).getD "" = "" := by
  unfold hasSessionID at h
  cases hs : asString (field raw "sessionId") with
  | none => rfl
  | some sid => simpa [hs] using h

theorem hasSessionID_true (raw : Obj) (h : hasSessionID raw = true) :
    (asString (field raw "sessionId")).getD "" ≠ "" := by
  unfold hasSessionID at h
  cases hs : asString (field raw "sessionId") with
  | none => simp [hs] at h
  | some sid => simpa [hs] using h

theorem foldl_stepRecord_open (parseTime : String → Option Time) (rs : List Obj)
    (st : SessionScan) (h : st.sessionID = "") :
    (rs.foldl (stepRecord parseTime) st).sessionID
        = lastStringOr "sessionId" "" (untilSessionID rs)
    ∧ (rs.foldl (stepRecord parseTime) st).metadata.WorkingDir
        = lastStringOr "cwd" st.metadata.WorkingDir (untilSessionID rs)
    ∧ (rs.foldl (stepRecord parseTime) st).metadata.GitBranch
        = lastStringOr "gitBranch" st.metadata.GitBranch (untilSessionID rs) := by
  induction rs generalizing st with
  | nil => simp [untilSessionID, lastStringOr, h]
  | cons r rs ih =>
    have hf := stepRecord_fields parseTime st r
    have ho := stepSessionFields_open st r h
    rw [List.foldl_cons]
    by_cases hc : hasSessionID r = true
    · have hne : (stepRecord parseTime st r).sessionID ≠ "" := by
        rw [hf.1, ho.1]; exact hasSessionID_true r hc
      have hcl := foldl_stepRecord_closed parseTime rs _ hne
      rw [hcl.1, hcl.2, hf.1, hf.2, ho.1, ho.2.1, ho.2.2]
      simp [untilSessionID, hc, lastStringOr]
    · have hc2 : hasSessionID r = false := by simpa using hc
      have he : (stepRecord parseTime st r).sessionID = "" := by
        rw [hf.1, ho.1]; exact hasSessionID_false r hc2
      have ih2 := ih _ he
      rw [ih2.1, ih2.2.1, ih2.2.2, hf.2, ho.2.1, ho.2.2]
      simp [untilSessionID, hc2, lastStringOr, hasSessionID_false r hc2]

theorem untilSessionID_append (pre post : List Obj) (r : Obj)
    (hpre : ∀ p ∈ pre, hasSessionID p = false) (hr : hasSessionID r = true) :
    untilSessionID (pre ++ r :: post) = pre ++ [r] := by
  induction pre with
  | nil => simp [untilSessionID, hr]
  | cons p pre ih =>
    have hp := hpre p (List.mem_cons_self p pre)
    simp [untilSessionID, hp, ih (fun q hq => hpre q (List.mem_cons_of_mem p hq))]

/-- C9, as the code has it: the three fields are read only while no non-empty
session identifier has been seen.  SessionID, WorkingDir and GitBranch are the
last string values of `sessionId`, `cwd` and `gitBranch` among the records up to
and including the first record with a non-empty string `sessionId`; every
record after that one is ignored for the three fields. -/
theorem session_fields (parseTime : String → Option Time) (rs : List Obj) :
    ((scanRecords parseTime rs).sessionID = lastStringOr "sessionId" "" (untilSessionID rs)
      ∧ (scanRecords parseTime rs).metadata.WorkingDir
          = lastStringOr "cwd" "" (untilSessionID rs)
      ∧ (scanRecords parseTime rs).metadata.GitBranch
          = lastStringOr "gitBranch" "" (untilSessionID rs))
    ∧ (∀ pre r post, (∀ p ∈ pre, hasSessionID p = false) → hasSessionID r = true →
        (scanRecords parseTime (pre ++ r :: post)).sessionID
            = (asString (field r "sessionId")).getD ""
        ∧ (scanRecords parseTime (pre ++ r :: post)).metadata
            = (scanRecords parseTime (pre ++ [r])).metadata) := by
  constructor
  · exact foldl_stepRecord_open parseTime rs SessionScan.init rfl
  · intro pre r post hpre hr
    have hfold : scanRecords parseTime (pre ++ r :: post)
        = post.foldl (stepRecord parseTime) (scanRecords parseTime (pre ++ [r])) := by
      simp [scanRecords, List.foldl_append]
    have hopen := foldl_stepRecord_open parseTime (pre ++ [r]) SessionScan.init rfl
    have hu : untilSessionID (pre ++ [r]) = pre ++ [r] := untilSessionID_append pre [] r hpre hr
    have hlast : lastStringOr "sessionId" "" (pre ++ [r])
        = (asString (field r "sessionId")).getD "" := by
      have hprefix : ∀ (l : List Obj) (d : String), (∀ p ∈ l, hasSessionID p = false) → d = "" →
          lastStringOr "sessionId" d l = "" := by
        intro l
        induction l with
        | nil => intro d _ hd; simpa [lastStringOr] using hd
        | cons p l ihl =>
          intro d hl hd
          have hp := hasSessionID_false p (hl p (List.mem_cons_self p l))
          have := ihl ((asString (field p "sessionId")).getD d)
            (fun q hq => hl q (List.mem_cons_of_mem p hq)) (by rw [hd]; exact hp)
          simpa [lastStringOr] using this
      have h1 := hprefix pre "" hpre rfl
      unfold lastStringOr at h1 ⊢
      rw [List.foldl_append, h1]
      rfl
    have hid : (scanRecords parseTime (pre ++ [r])).sessionID
        = (asString (field r "sessionId")).getD "" := by
      have := hopen.1
      rw [hu, hlast] at this
      exact this
    have hne : (scanRecords parseTime (pre ++ [r])).sessionID ≠ "" := by
      rw [hid]; exact hasSessionID_true r hr
    have hcl := foldl_stepRecord_closed parseTime post _ hne
    rw [hfold, hcl.1, hcl.2]
    exact ⟨hid, rfl⟩

/-- Witness of C9: a working directory and a branch that come after the record
with the session identifier are not taken. -/
theorem session_fields_witness :
    (scanRecords parseRFC3339 cwdAfterIDRecords).sessionID = "s1"
    ∧ (scanRecords parseRFC3339 cwdAfterIDRecords).metadata
        = (scanRecords parseRFC3339 ([] ++ [[("sessionId", JSON.str "s1")]])).metadata :=
  (session_fields parseRFC3339 cwdAfterIDRecords).2 []
    [("sessionId", JSON.str "s1")] [[("cwd", JSON.str "/work"), ("gitBranch", JSON.str "main")]]
    (by simp) (by decide)

/-- Counterexample to C9 as stated: the working directory is not taken from the
first record that carries one.  With a `cwd` before the record holding the
session identifier the later value wins, and a `cwd` after that record is never
taken. -/
theorem workingDir_not_first :
    (firstString "cwd" cwdBeforeIDRecords = "/first"
      ∧ (scanRecords parseRFC3339 cwdBeforeIDRecords).metadata.WorkingDir = "/second")
    ∧ (firstString "cwd" cwdAfterIDRecords = "/work"
      ∧ (scanRecords parseRFC3339 cwdAfterIDRecords).metadata.WorkingDir = "") := by
  refine ⟨⟨?_, ?_⟩, ?_, ?_⟩ <;> decide

/-! ## Lines that are skipped -/

theorem filterMap_filter_isSome {α β : Type} (f : α → Option β) (l : List α) :
    (l.filter (fun x => (f x).isSome)).filterMap f = l.filterMap f := by
  induction l with
  | nil => rfl
  | cons x l ih =>
    cases hx : f x with
    | none => simp [List.filter_cons, hx, ih]
    | some y => simp [List.filter_cons, hx, ih]

theorem records_filter (unmarshal : String → Option Obj) (lines : List String) :
    records unmarshal (lines.filter (keepsLine unmarshal)) = records unmarshal lines := by
  unfold records keepsLine
  exact filterMap_filter_isSome (decodeLine unmarshal) lines

theorem any_tooLong_filter (unmarshal : String → Option Obj) (lines : List String)
    (h : ∀ l ∈ lines, keepsLine unmarshal l = false → l.utf8ByteSize < maxTokenSize) :
    (lines.filter (keepsLine unmarshal)).any tooLong = lines.any tooLong := by
  induction lines with
  | nil => rfl
  | cons l lines ih =>
    have ih2 := ih (fun x hx => h x (List.mem_cons_of_mem l hx))
    by_cases hk : keepsLine unmarshal l = true
    · simp only [List.filter_cons, hk, if_true, List.any_cons, ih2]
    · have hk2 : keepsLine unmarshal l = false := by simpa using hk
      have hshort := h l (List.mem_cons_self l lines) hk2
      have ht : tooLong l = false := by
        unfold tooLong
        simp only [decide_eq_false_iff_not, not_le]
        exact hshort
      rw [List.filter_cons_of_neg (by simp [hk2]), List.any_cons, ht, Bool.false_or]
      exact ih2

theorem stepSubagentLine_dropCR (unmarshal : String → Option Obj)
    (parseTime : String → Option Time) (st : SubagentScan) (line : String) :
    stepSubagentLine unmarshal parseTime st (dropCR line) =
      match decodeLine unmarshal line with
      | none => st
      | some raw => stepSubagentRecord parseTime st raw := by
  unfold stepSubagentLine decodeLine
  split_ifs <;> rfl

theorem scanSubagentLines_eq (unmarshal : String → Option Obj) (parseTime : String → Option Time)
    (lines : List String) (st : SubagentScan) :
    scanSubagentLines unmarshal parseTime st lines =
      if lines.any tooLong then none
      else some ((records unmarshal lines).foldl (stepSubagentRecord parseTime) st) := by
  induction lines generalizing st with
  | nil => simp [scanSubagentLines, records]
  | cons line rest ih =>
    unfold scanSubagentLines
    by_cases hl : maxTokenSize ≤ line.utf8ByteSize
    · simp [hl, tooLong]
    · rw [if_neg hl, ih, stepSubagentLine_dropCR]
      have ht : tooLong line = false := by simp [tooLong, hl]
      simp only [List.any_cons, ht, Bool.false_or, records, List.filterMap_cons]
      cases decodeLine unmarshal line <;> rfl

theorem readSessionLines_isSome (env : Env) (path : String) (lines : List String) :
    (readSessionLines env path lines).isSome = !(lines.any tooLong) := by
  unfold readSessionLines
  rw [scanLines_eq]
  cases lines.any tooLong <;> simp

theorem utf8ByteSize_go_replicate (n : Nat) :
    String.utf8ByteSize.go (List.replicate n 'x') = n := by
  induction n with
  | zero => rfl
  | succ n ih =>
    rw [List.replicate_succ, String.utf8ByteSize.go, ih]
    have hx : Char.utf8Size 'x' = 1 := by decide
    rw [hx]

theorem longLine_size : longLine.utf8ByteSize = 1048576 :=
  utf8ByteSize_go_replicate 1048576

/-- C10, as the code has it: when every empty or undecodable line is shorter
than the scanner's token limit of 1048576 bytes, the Session read from the lines
equals the Session read from the lines with those lines removed, and so does the
scan of a subagent file; the read then fails exactly when a line that decodes
reaches the limit. -/
theorem corrupt_lines_skipped (env : Env) (path : String) (lines : List String)
    (st : SubagentScan)
    (h : ∀ l ∈ lines, keepsLine env.unmarshal l = false → l.utf8ByteSize < maxTokenSize) :
    readSessionLines env path lines
        = readSessionLines env path (lines.filter (keepsLine env.unmarshal))
    ∧ scanSubagentLines env.unmarshal env.parseTime st lines
        = scanSubagentLines env.unmarshal env.parseTime st
            (lines.filter (keepsLine env.unmarshal))
    ∧ ((readSessionLines env path lines).isSome = true ↔
        ∀ l ∈ lines, keepsLine env.unmarshal l = true → l.utf8ByteSize < maxTokenSize) := by
  have hany := any_tooLong_filter env.unmarshal lines h
  have hrec := records_filter env.unmarshal lines
  refine ⟨?_, ?_, ?_⟩
  · unfold readSessionLines
    rw [scanLines_eq, scanLines_eq, hany, hrec]
  · rw [scanSubagentLines_eq, scanSubagentLines_eq, hany, hrec]
  · rw [readSessionLines_isSome]
    simp only [Bool.not_eq_true', List.any_eq_false, tooLong, decide_eq_true_eq, not_le]
    constructor
    · intro hall l hl _
      exact hall l hl
    · intro hkept l hl
      cases hk : keepsLine env.unmarshal l with
      | true => exact hkept l hl hk
      | false => exact h l hl hk

/-- Witness of C10: a file with a line that is not JSON, an empty line, a line
holding a carriage return and one record reads as the file holding the record
alone. -/
theorem corrupt_lines_skipped_witness :
    readSessionLines (exampleEnv [(userLine, userRecord)] []) "proj/s1.jsonl" corruptFileLines
        = readSessionLines (exampleEnv [(userLine, userRecord)] []) "proj/s1.jsonl"
            (corruptFileLines.filter (keepsLine (exampleEnv [(userLine, userRecord)] []).unmarshal))
    ∧ corruptFileLines.filter (keepsLine (exampleEnv [(userLine, userRecord)] []).unmarshal)
        = [userLine] :=
  ⟨(corrupt_lines_skipped (exampleEnv [(userLine, userRecord)] []) "proj/s1.jsonl"
      corruptFileLines { messages := [], slug := "" } (by decide)).1, by decide⟩

/-- Counterexample to C10 as stated: a file whose only line is 1048576 letters
`x`, which is not JSON, fails to read, while the file without that line reads
as a Session named after the file. -/
theorem long_corrupt_line_fails :
    keepsLine (exampleEnv [] []).unmarshal longLine = false
    ∧ readSessionFile (exampleEnv [] [("proj/s1.jsonl", [longLine])]) "proj/s1.jsonl" = none
    ∧ (readSessionFile (exampleEnv [] [("proj/s1.jsonl", [])]) "proj/s1.jsonl").map
        (fun s => (s.SessionID, s.Messages.length)) = some ("s1", 0) := by
  refine ⟨?_, ?_, ?_⟩
  · unfold keepsLine decodeLine
    split_ifs <;> rfl
  · have hopen : (exampleEnv [] [("proj/s1.jsonl", [longLine])]).openFile "proj/s1.jsonl"
        = some [longLine] := rfl
    have hlong : tooLong longLine = true := by
      unfold tooLong
      rw [longLine_size]
      decide
    have hfail : (readSessionLines (exampleEnv [] [("proj/s1.jsonl", [longLine])])
        "proj/s1.jsonl" [longLine]).isSome = false := by
      rw [readSessionLines_isSome, List.any_cons, hlong]
      rfl
    unfold readSessionFile
    rw [hopen]
    exact Option.not_isSome_iff_eq_none.mp (by rw [hfail]; decide)
  · decide

/-! ## The identifier of a session without one in its records -/

theorem TrimSuffix_append (name suffix : String) : TrimSuffix (name ++ suffix) suffix = name := by
  have hs : HasSuffix (name ++ suffix) suffix = true := by
    unfold HasSuffix
    rw [String.data_append, List.isSuffixOf_iff_suffix]
    exact List.suffix_append _ _
  unfold TrimSuffix
  rw [if_pos hs, String.data_append, List.length_append, Nat.add_sub_cancel,
    List.take_left' rfl]

theorem lastStringOr_sessionId_empty (l : List Obj) (h : ∀ p ∈ l, hasSessionID p = false) :
    lastStringOr "sessionId" "" l = "" := by
  have hgen : ∀ (l : List Obj) (d : String), (∀ p ∈ l, hasSessionID p = false) → d = "" →
      lastStringOr "sessionId" d l = "" := by
    intro l
    induction l with
    | nil => intro d _ hd; simpa [lastStringOr] using hd
    | cons p l ihl =>
      intro d hl hd
      have hp := hasSessionID_false p (hl p (List.mem_cons_self p l))
      have := ihl ((asString (field p "sessionId")).getD d)
        (fun q hq => hl q (List.mem_cons_of_mem p hq)) (by rw [hd]; exact hp)
      simpa [lastStringOr] using this
  exact hgen l "" h rfl

theorem untilSessionID_all_false (l : List Obj) (h : ∀ p ∈ l, hasSessionID p = false) :
    untilSessionID l = l := by
  induction l with
  | nil => rfl
  | cons p l ih =>
    have hp := h p (List.mem_cons_self p l)
    simp [untilSessionID, hp, ih (fun q hq => h q (List.mem_cons_of_mem p hq))]

theorem scanRecords_sessionID_none (parseTime : String → Option Time) (rs : List Obj)
    (h : ∀ r ∈ rs, hasSessionID r = false) : (scanRecords parseTime rs).sessionID = "" := by
  have hopen := (foldl_stepRecord_open parseTime rs SessionScan.init rfl).1
  rw [untilSessionID_all_false rs h, lastStringOr_sessionId_empty rs h] at hopen
  exact hopen

theorem scanRecords_sessionID_split (parseTime : String → Option Time) (pre post : List Obj)
    (r : Obj) (hpre : ∀ p ∈ pre, hasSessionID p = false) (hr : hasSessionID r = true) :
    (scanRecords parseTime (pre ++ r :: post)).sessionID
      = (asString (field r "sessionId")).getD "" := by
  have hopen := (foldl_stepRecord_open parseTime (pre ++ r :: post) SessionScan.init rfl).1
  rw [untilSessionID_append pre post r hpre hr] at hopen
  have h1 := lastStringOr_sessionId_empty pre hpre
  have hlast : lastStringOr "sessionId" "" (pre ++ [r])
      = (asString (field r "sessionId")).getD "" := by
    unfold lastStringOr at h1 ⊢
    rw [List.foldl_append, h1]
    rfl
  rw [hlast] at hopen
  exact hopen

theorem readSessionLines_sessionID (env : Env) (path : String) (lines : List String)
    (s : Session) (h : readSessionLines env path lines = some s) :
    s.SessionID =
      if (scanRecords env.parseTime (records env.unmarshal lines)).sessionID = "" then
        TrimSuffix (env.base path) ".jsonl"
      else (scanRecords env.parseTime (records env.unmarshal lines)).sessionID := by
  unfold readSessionLines at h
  rw [scanLines_eq] at h
  by_cases hl : lines.any tooLong = true
  · simp [hl] at h
  · simp only [hl, if_false, Option.some.injEq, Bool.false_eq_true] at h
    subst h
    rfl

/-- C11: when no record of the file carries a non-empty string `sessionId`, the
SessionID of the Session is the base name of the file with the suffix `.jsonl`
removed; when some record does, the SessionID is the `sessionId` of the first
such record and the file name is not used. -/
theorem sessionID_from_file_name (env : Env) (path : String) (lines : List String)
    (s : Session) (h : readSessionLines env path lines = some s) :
    ((∀ r ∈ records env.unmarshal lines, hasSessionID r = false) →
        s.SessionID = TrimSuffix (env.base path) ".jsonl"
        ∧ ∀ name, env.base path = name ++ ".jsonl" → s.SessionID = name)
    ∧ (∀ pre r post, records env.unmarshal lines = pre ++ r :: post →
        (∀ p ∈ pre, hasSessionID p = false) → hasSessionID r = true →
        s.SessionID = (asString (field r "sessionId")).getD "") := by
  have hid := readSessionLines_sessionID env path lines s h
  constructor
  · intro hnone
    have he := scanRecords_sessionID_none env.parseTime _ hnone
    rw [if_pos he] at hid
    refine ⟨hid, ?_⟩
    intro name hname
    rw [hid, hname, TrimSuffix_append]
  · intro pre r post hsplit hpre hr
    have he := scanRecords_sessionID_split env.parseTime pre post r hpre hr
    rw [← hsplit] at he
    have hne : (scanRecords env.parseTime (records env.unmarshal lines)).sessionID ≠ "" := by
      rw [he]; exact hasSessionID_true r hr
    rw [if_neg hne] at hid
    rw [hid, he]

/-- Witness of C11: the empty file `proj/s1.jsonl` reads as the session `s1`. -/
theorem sessionID_from_file_name_witness :
    readSessionLines (exampleEnv [] []) "proj/s1.jsonl" [] = some emptyFileSession
    ∧ (exampleEnv [] []).base "proj/s1.jsonl" = "s1" ++ ".jsonl"
    ∧ emptyFileSession.SessionID = "s1" :=
  ⟨rfl, by decide,
    ((sessionID_from_file_name (exampleEnv [] []) "proj/s1.jsonl" [] emptyFileSession rfl).1
      (by decide)).2 "s1" (by decide)⟩

end claude


/-! ## The content-block normalizers -/

/-- C12: for a block of type `text` both normalizers return the text block
whose Text is the string `text` field of the block, or the empty string when
that field is missing or not a string. -/
theorem text_block (block : Obj) (h : asString (field block "type") = some "text") :
    claude.parseContentBlock block
        = some { ContentBlock.empty with
            Type_ := "text", Text := (asString (field block "text")).getD "" }
    ∧ goose.parseContentBlock block
        = some { ContentBlock.empty with
            Type_ := "text", Text := (asString (field block "text")).getD "" } := by
  constructor
  · simp [claude.parseContentBlock, h]
  · simp [goose.parseContentBlock, h]

/-- Witness of C12: a block of type `text` without a `text` field gives the
text block with the empty text. -/
theorem text_block_witness :
    claude.parseContentBlock [("type", JSON.str "text")]
        = some { ContentBlock.empty with Type_ := "text", Text := "" }
    ∧ goose.parseContentBlock [("type", JSON.str "text")]
        = some { ContentBlock.empty with Type_ := "text", Text := "" } :=
  text_block [("type", JSON.str "text")] (by decide)

/-- C13: for a block of type `tool_use` both normalizers return the tool-use
block holding the string `name`, the string `id` and the object `input` of the
block, each replaced by its zero value when absent or of another shape. -/
theorem tool_use_block (block : Obj) (h : asString (field block "type") = some "tool_use") :
    claude.parseContentBlock block
        = some { ContentBlock.empty with
            Type_ := "tool_use",
            ToolName := (asString (field block "name")).getD "",
            ToolUseID := (asString (field block "id")).getD "",
            ToolInput := (asObject (field block "input")).getD [] }
    ∧ goose.parseContentBlock block
        = some { ContentBlock.empty with
            Type_ := "tool_use",
            ToolName := (asString (field block "name")).getD "",
            ToolUseID := (asString (field block "id")).getD "",
            ToolInput := (asObject (field block "input")).getD [] } := by
  constructor
  · simp [claude.parseContentBlock, h]
  · simp [goose.parseContentBlock, h]

/-- Witness of C13: a tool-use block whose `input` is a string and whose `id` is
missing keeps its name and gets the zero values for the rest. -/
theorem tool_use_block_witness :
    claude.parseContentBlock
        [("type", JSON.str "tool_use"), ("name", JSON.str "Read"), ("input", JSON.str "x")]
        = some { ContentBlock.empty with Type_ := "tool_use", ToolName := "Read" }
    ∧ goose.parseContentBlock
        [("type", JSON.str "tool_use"), ("name", JSON.str "Read"), ("input", JSON.str "x")]
        = some { ContentBlock.empty with Type_ := "tool_use", ToolName := "Read" } :=
  tool_use_block
    [("type", JSON.str "tool_use"), ("name", JSON.str "Read"), ("input", JSON.str "x")]
    (by decide)

/-- C14: for a block of type `tool_result` both normalizers return a
tool-result block with the string `tool_use_id` of the block; its ToolContent is
the content verbatim when the content is a string, and the empty string when the
content is absent, null, a boolean or a number. -/
theorem tool_result_block (block : Obj)
    (h : asString (field block "type") = some "tool_result") :
    (∀ c, field block "content" = some (JSON.str c) →
        claude.parseContentBlock block
            = some { ContentBlock.empty with
                Type_ := "tool_result",
                ToolUseID := (asString (field block "tool_use_id")).getD "",
                ToolContent := c }
        ∧ goose.parseContentBlock block
            = some { ContentBlock.empty with
                Type_ := "tool_result",
                ToolUseID := (asString (field block "tool_use_id")).getD "",
                ToolContent := c })
    ∧ ((field block "content" = none ∨ field block "content" = some JSON.null
          ∨ (∃ b, field block "content" = some (JSON.bool b))
          ∨ (∃ v, field block "content" = some (JSON.num v))) →
        claude.parseContentBlock block
            = some { ContentBlock.empty with
                Type_ := "tool_result",
                ToolUseID := (asString (field block "tool_use_id")).getD "",
                ToolContent := "" }
        ∧ goose.parseContentBlock block
            = some { ContentBlock.empty with
                Type_ := "tool_result",
                ToolUseID := (asString (field block "tool_use_id")).getD "",
                ToolContent := "" }) := by
  constructor
  · intro c hc
    have hs : asString (field block "content") = some c := by rw [hc]; rfl
    constructor
    · simp [claude.parseContentBlock, h, hc, claude.extractToolContent]
    · simp [goose.parseContentBlock, h, hs]
  · intro hc
    have hs : asString (field block "content") = none := by
      rcases hc with hc | hc | ⟨b, hc⟩ | ⟨v, hc⟩ <;> rw [hc] <;> rfl
    have he : claude.extractToolContent (field block "content") = "" := by
      rcases hc with hc | hc | ⟨b, hc⟩ | ⟨v, hc⟩ <;> rw [hc] <;> rfl
    exact ⟨by simp [claude.parseContentBlock, h, he], by simp [goose.parseContentBlock, h, hs]⟩

/-- Witness of C14: the tool-result block of the tests keeps its string content,
in both normalizers. -/
theorem tool_result_block_witness :
    claude.parseContentBlock (claude.toolResultBlock (JSON.str "file1.txt\nfile2.txt"))
        = some { ContentBlock.empty with
            Type_ := "tool_result", ToolUseID := "tool-123",
            ToolContent := "file1.txt\nfile2.txt" }
    ∧ goose.parseContentBlock (claude.toolResultBlock (JSON.str "file1.txt\nfile2.txt"))
        = some { ContentBlock.empty with
            Type_ := "tool_result", ToolUseID := "tool-123",
            ToolContent := "file1.txt\nfile2.txt" } :=
  (tool_result_block (claude.toolResultBlock (JSON.str "file1.txt\nfile2.txt")) (by decide)).1
    "file1.txt\nfile2.txt" rfl

theorem extractLoop_cons (i : Nat) (acc : String) (it : JSON) (rest : List JSON) :
    claude.extractLoop i acc (it :: rest)
      = claude.extractLoop (i + 1)
          ((if i > 0 then acc ++ "\n" else acc) ++ (claude.itemText it).getD "") rest := by
  cases it with
  | obj m =>
    cases hm : asString (field m "text") with
    | none => simp [claude.extractLoop, claude.itemText, hm]
    | some t => simp [claude.extractLoop, claude.itemText, hm]
  | str t => simp [claude.extractLoop, claude.itemText]
  | null => simp [claude.extractLoop, claude.itemText]
  | bool b => simp [claude.extractLoop, claude.itemText]
  | num v => simp [claude.extractLoop, claude.itemText]
  | arr xs => simp [claude.extractLoop, claude.itemText]

theorem extractLoop_succ (items : List JSON) (i : Nat) (acc : String) :
    claude.extractLoop (i + 1) acc items
      = String.intercalate.go acc "\n" (items.map fun it => (claude.itemText it).getD "") := by
  induction items generalizing i acc with
  | nil => simp [claude.extractLoop, String.intercalate.go]
  | cons it rest ih =>
    rw [extractLoop_cons, List.map_cons, String.intercalate.go, ih]
    simp

theorem extractToolContent_arr (items : List JSON) :
    claude.extractToolContent (some (JSON.arr items))
      = "\n".intercalate (items.map fun it => (claude.itemText it).getD "") := by
  cases items with
  | nil => rfl
  | cons it rest =>
    show claude.extractLoop 0 "" (it :: rest) = _
    rw [extractLoop_cons, List.map_cons, String.intercalate, extractLoop_succ]
    simp

theorem map_itemText_conforming (items : List JSON)
    (h : ∀ it ∈ items, (claude.itemText it).isSome = true) :
    (items.map fun it => (claude.itemText it).getD "") = items.filterMap claude.itemText := by
  induction items with
  | nil => rfl
  | cons it rest ih =>
    have hit := h it (List.mem_cons_self it rest)
    have ih2 := ih (fun x hx => h x (List.mem_cons_of_mem it hx))
    cases ht : claude.itemText it with
    | none => rw [ht] at hit; simp at hit
    | some t => simp [ht, ih2]

/-- C15: for a tool-result block whose content is an array of items that are
strings or objects with a string `text` field, the Claude normalizer sets
ToolContent to the texts of the items joined by one newline between consecutive
items; the two text objects `a` and `b` give `a\nb`. -/
theorem tool_result_array (block : Obj) (items : List JSON)
    (htype : asString (field block "type") = some "tool_result")
    (hcontent : field block "content" = some (JSON.arr items))
    (hconf : ∀ it ∈ items, (claude.itemText it).isSome = true) :
    claude.parseContentBlock block
        = some { ContentBlock.empty with
            Type_ := "tool_result",
            ToolUseID := (asString (field block "tool_use_id")).getD "",
            ToolContent := "\n".intercalate (items.filterMap claude.itemText) }
    ∧ claude.extractToolContent (some (JSON.arr claude.twoTextItems)) = "a\nb" := by
  constructor
  · have he : claude.extractToolContent (field block "content")
        = "\n".intercalate (items.filterMap claude.itemText) := by
      rw [hcontent, extractToolContent_arr, map_itemText_conforming items hconf]
    simp [claude.parseContentBlock, htype, he]
  · decide

/-- Witness of C15: the tool-result block whose content holds the text objects
`a` and `b` gets the ToolContent `a\nb`. -/
theorem tool_result_array_witness :
    claude.parseContentBlock (claude.toolResultBlock (JSON.arr claude.twoTextItems))
      = some { ContentBlock.empty with
          Type_ := "tool_result", ToolUseID := "tool-123", ToolContent := "a\nb" } :=
  (tool_result_array (claude.toolResultBlock (JSON.arr claude.twoTextItems)) claude.twoTextItems
    (by decide) rfl (by decide)).1

/-- C16, as the code has it: `extractToolContent` joins all the items of an array
by newlines, an item that is neither a string nor an object with a string `text`
field counting as the empty text; replacing such an item by the empty string
leaves the result unchanged. -/
theorem extract_joins_all_items (items : List JSON) :
    claude.extractToolContent (some (JSON.arr items))
        = "\n".intercalate (items.map fun it => (claude.itemText it).getD "")
    ∧ (∀ pre it post, items = pre ++ it :: post → claude.itemText it = none →
        claude.extractToolContent (some (JSON.arr items))
          = claude.extractToolContent (some (JSON.arr (pre ++ JSON.str "" :: post)))) := by
  refine ⟨extractToolContent_arr items, ?_⟩
  intro pre it post hsplit hnone
  have hstr : claude.itemText (JSON.str "") = some "" := rfl
  rw [hsplit, extractToolContent_arr, extractToolContent_arr]
  simp only [List.map_append, List.map_cons, hnone, hstr, Option.getD_none, Option.getD_some]

/-- Witness of C16: a number between the text objects `a` and `b` acts as an
empty string between them. -/
theorem extract_joins_all_items_witness :
    claude.extractToolContent (some (JSON.arr claude.textNumberText))
      = claude.extractToolContent (some (JSON.arr
          ([JSON.obj [("type", JSON.str "text"), ("text", JSON.str "a")]]
            ++ JSON.str "" :: [JSON.obj [("type", JSON.str "text"), ("text", JSON.str "b")]]))) :=
  (extract_joins_all_items claude.textNumberText).2
    [JSON.obj [("type", JSON.str "text"), ("text", JSON.str "a")]] (JSON.num 42)
    [JSON.obj [("type", JSON.str "text"), ("text", JSON.str "b")]] rfl rfl

/-- Counterexample to C16 as stated: with a number between the text objects `a`
and `b` the result is `a\n\nb`, while the texts of the conforming items joined
by newlines, and the result for the array without the number, are `a\nb`. -/
theorem nonconforming_item_adds_newline :
    claude.extractToolContent (some (JSON.arr claude.textNumberText)) = "a\n\nb"
    ∧ "\n".intercalate (claude.textNumberText.filterMap claude.itemText) = "a\nb"
    ∧ claude.extractToolContent (some (JSON.arr claude.twoTextItems)) = "a\nb" := by
  refine ⟨?_, ?_, ?_⟩ <;> decide

/-- C17, the code at the failing input: the Goose normalizer gives the empty
ToolContent for the array content of two text objects and for a single nested
text object, while the Claude normalizer joins the array to `a\nb`. -/
theorem goose_tool_result_not_flattened :
    goose.parseContentBlock (claude.toolResultBlock (JSON.arr claude.twoTextItems))
        = some { ContentBlock.empty with
            Type_ := "tool_result", ToolUseID := "tool-123", ToolContent := "" }
    ∧ goose.parseContentBlock
          (claude.toolResultBlock (JSON.obj [("type", JSON.str "text"), ("text", JSON.str "t")]))
        = some { ContentBlock.empty with
            Type_ := "tool_result", ToolUseID := "tool-123", ToolContent := "" }
    ∧ claude.parseContentBlock (claude.toolResultBlock (JSON.arr claude.twoTextItems))
        = some { ContentBlock.empty with
            Type_ := "tool_result", ToolUseID := "tool-123", ToolContent := "a\nb" } :=
  ⟨rfl, rfl, rfl⟩

/-- C18: for a block whose type tag is none of `text`, `tool_use` and
`tool_result` (the tag of a block without a string `type` is the empty string),
the Goose normalizer returns the block with that tag and the string `text` field
of the block when there is one, and no block otherwise. -/
theorem goose_unknown_type (block : Obj)
    (h1 : (asString (field block "type")).getD "" ≠ "text")
    (h2 : (asString (field block "type")).getD "" ≠ "tool_use")
    (h3 : (asString (field block "type")).getD "" ≠ "tool_result") :
    (∀ text, asString (field block "text") = some text →
        goose.parseContentBlock block
          = some { ContentBlock.empty with
              Type_ := (asString (field block "type")).getD "", Text := text })
    ∧ (asString (field block "text") = none → goose.parseContentBlock block = none) := by
  constructor
  · intro text ht
    simp [goose.parseContentBlock, h1, h2, h3, ht]
  · intro ht
    simp [goose.parseContentBlock, h1, h2, h3, ht]

/-- Witness of C18: a block without a type that carries a text gives the block
with the empty tag and that text. -/
theorem goose_unknown_type_witness :
    goose.parseContentBlock [("text", JSON.str "Custom content")]
      = some { ContentBlock.empty with Type_ := "", Text := "Custom content" } :=
  (goose_unknown_type [("text", JSON.str "Custom content")] (by decide) (by decide)
    (by decide)).1 "Custom content" rfl

/-- C19, the code at the failing input: for the block of type `custom` that
carries a text the Claude normalizer returns no block, so a message whose content
is that block alone has an empty Content; the Goose normalizer returns the block
with its tag and text. -/
theorem claude_drops_unknown_type :
    claude.parseContentBlock claude.customTextBlock = none
    ∧ claude.parseContent [("role", JSON.str "assistant"),
          ("content", JSON.arr [JSON.obj claude.customTextBlock])] = []
    ∧ goose.parseContentBlock claude.customTextBlock
        = some { ContentBlock.empty with Type_ := "custom", Text := "Custom content" } :=
  ⟨rfl, rfl, rfl⟩

/-! ## Token usage -/

theorem intOfFloat64_intCast (n : Int) (hlo : -(2 ^ 63 : Int) ≤ n) (hhi : n < 2 ^ 63) :
    intOfFloat64 (n : Rat) = n := by
  unfold intOfFloat64
  simp only [Rat.num_intCast, Rat.den_intCast, Nat.cast_one, Int.tdiv_one]
  rw [if_pos ⟨hlo, hhi⟩]

theorem wrapInt64_of_range (x : Int) (hlo : -(2 ^ 63 : Int) ≤ x) (hhi : x < 2 ^ 63) :
    wrapInt64 x = x := by
  unfold wrapInt64
  omega

/-- C20, as the code has it: `parseTokenUsage` returns for each of `input_tokens`
and `output_tokens` the value of the field when it is an integer-valued number
within the int64 range, and 0 when the field is absent or not a number;
TotalTokens is the sum of the two, taken in 64-bit arithmetic, which is the exact
sum whenever that sum is within the int64 range; 100 and 50 give 150. -/
theorem token_usage (usage : Obj) :
    (∀ n : Int, asFloat (field usage "input_tokens") = some (n : Rat) →
        -(2 ^ 63 : Int) ≤ n → n < 2 ^ 63 → (claude.parseTokenUsage usage).InputTokens = n)
    ∧ (asFloat (field usage "input_tokens") = none →
        (claude.parseTokenUsage usage).InputTokens = 0)
    ∧ (∀ n : Int, asFloat (field usage "output_tokens") = some (n : Rat) →
        -(2 ^ 63 : Int) ≤ n → n < 2 ^ 63 → (claude.parseTokenUsage usage).OutputTokens = n)
    ∧ (asFloat (field usage "output_tokens") = none →
        (claude.parseTokenUsage usage).OutputTokens = 0)
    ∧ (claude.parseTokenUsage usage).TotalTokens
        = wrapInt64 ((claude.parseTokenUsage usage).InputTokens
            + (claude.parseTokenUsage usage).OutputTokens)
    ∧ (-(2 ^ 63 : Int) ≤ (claude.parseTokenUsage usage).InputTokens
            + (claude.parseTokenUsage usage).OutputTokens →
        (claude.parseTokenUsage usage).InputTokens
            + (claude.parseTokenUsage usage).OutputTokens < 2 ^ 63 →
        (claude.parseTokenUsage usage).TotalTokens
          = (claude.parseTokenUsage usage).InputTokens
            + (claude.parseTokenUsage usage).OutputTokens)
    ∧ ((claude.parseTokenUsage claude.testUsage).InputTokens = 100
        ∧ (claude.parseTokenUsage claude.testUsage).OutputTokens = 50
        ∧ (claude.parseTokenUsage claude.testUsage).TotalTokens = 150) := by
  refine ⟨?_, ?_, ?_, ?_, rfl, ?_, ?_⟩
  · intro n hn hlo hhi
    simp only [claude.parseTokenUsage, hn]
    exact intOfFloat64_intCast n hlo hhi
  · intro hn
    simp only [claude.parseTokenUsage, hn]
  · intro n hn hlo hhi
    simp only [claude.parseTokenUsage, hn]
    exact intOfFloat64_intCast n hlo hhi
  · intro hn
    simp only [claude.parseTokenUsage, hn]
  · intro hlo hhi
    exact wrapInt64_of_range _ hlo hhi
  · refine ⟨?_, ?_, ?_⟩ <;> decide

/-- Witness of C20: a usage map whose `input_tokens` is a string and whose
`output_tokens` is 7 gives 0, 7 and the total 7. -/
theorem token_usage_witness :
    (claude.parseTokenUsage [("input_tokens", JSON.str "many"), ("output_tokens", JSON.num 7)]).InputTokens = 0
    ∧ (claude.parseTokenUsage [("input_tokens", JSON.str "many"), ("output_tokens", JSON.num 7)]).OutputTokens = 7 :=
  ⟨(token_usage [("input_tokens", JSON.str "many"), ("output_tokens", JSON.num 7)]).2.1 rfl,
   (token_usage [("input_tokens", JSON.str "many"), ("output_tokens", JSON.num 7)]).2.2.1 7
     rfl (by decide) (by decide)⟩

/-- Counterexample to C20 as stated: with both counts at 2^62 the two fields are
read exactly, and TotalTokens is -2^63, not their sum 2^63. -/
theorem token_total_wraps :
    (claude.parseTokenUsage claude.hugeUsage).InputTokens = 4611686018427387904
    ∧ (claude.parseTokenUsage claude.hugeUsage).OutputTokens = 4611686018427387904
    ∧ (claude.parseTokenUsage claude.hugeUsage).TotalTokens = -9223372036854775808
    ∧ (claude.parseTokenUsage claude.hugeUsage).TotalTokens
        ≠ (claude.parseTokenUsage claude.hugeUsage).InputTokens
          + (claude.parseTokenUsage claude.hugeUsage).OutputTokens := by
  refine ⟨?_, ?_, ?_, ?_⟩ <;> decide

/-! ## The message parser of Reader A -/

theorem parseMessage_some (parseTime : String → Option Time) (raw md : Obj) (role : String)
    (hmd : asObject (field raw "message") = some md)
    (hrole : asString (field md "role") = some role) (hne : role ≠ "") :
    claude.parseMessage parseTime raw =
      some { UUID := (asString (field raw "uuid")).getD "",
             ParentUUID := (asString (field raw "parentUuid")).getD "",
             Timestamp :=
               (match asString (field raw "timestamp") with
                | some tsStr => (parseTime tsStr).getD Time.zero
                | none => Time.zero),
             Role := role,
             Content := claude.parseContent md,
             Metadata := claude.parseMetadata raw md } := by
  unfold claude.parseMessage
  simp only [hmd, hrole, Option.getD_some, if_neg hne]

/-- C26: `parseMessage` returns no message exactly when `message` is not an
object or its `role` is missing, not a string or empty; otherwise it returns the
Message holding the string `uuid` and `parentUuid` of the record, the role
verbatim, and the metadata copied from `isSidechain`, `agentId`, `requestId` and
`message.model`, with Tokens present exactly when `message.usage` is an object. -/
theorem parseMessage_spec (parseTime : String → Option Time) (raw : Obj) :
    (claude.parseMessage parseTime raw = none ↔
      (asObject (field raw "message") = none
        ∨ ∃ md, asObject (field raw "message") = some md
            ∧ (asString (field md "role") = none ∨ asString (field md "role") = some "")))
    ∧ (∀ md role, asObject (field raw "message") = some md →
        asString (field md "role") = some role → role ≠ "" →
        ∃ m, claude.parseMessage parseTime raw = some m
          ∧ m.UUID = (asString (field raw "uuid")).getD ""
          ∧ m.ParentUUID = (asString (field raw "parentUuid")).getD ""
          ∧ m.Role = role
          ∧ m.Metadata.IsSidechain = (asBool (field raw "isSidechain")).getD false
          ∧ m.Metadata.AgentID = (asString (field raw "agentId")).getD ""
          ∧ m.Metadata.RequestID = (asString (field raw "requestId")).getD ""
          ∧ m.Metadata.Model = (asString (field md "model")).getD ""
          ∧ m.Metadata.Tokens = (asObject (field md "usage")).map claude.parseTokenUsage
          ∧ (m.Metadata.Tokens.isSome = true ↔ (asObject (field md "usage")).isSome = true)) := by
  constructor
  · unfold claude.parseMessage
    cases hmd : asObject (field raw "message") with
    | none => simp
    | some md =>
      cases hr : asString (field md "role") with
      | none => simp [hr]
      | some r =>
        by_cases hre : r = ""
        · simp [hr, hre]
        · simp [hr, hre]
  · intro md role hmd hr hne
    refine ⟨_, parseMessage_some parseTime raw md role hmd hr hne,
      rfl, rfl, rfl, rfl, rfl, rfl, rfl, rfl, ?_⟩
    simp [claude.parseMetadata]

/-- Witness of C26: the first record of the parser tests is accepted with its
identifiers and role, and without token usage. -/
theorem parseMessage_spec_witness :
    ∃ m, claude.parseMessage parseRFC3339 claude.simpleUserRecord = some m
      ∧ m.UUID = "test-uuid" ∧ m.ParentUUID = "parent-uuid" ∧ m.Role = "user"
      ∧ m.Metadata.Tokens = none := by
  obtain ⟨m, hm, h1, h2, h3, _, _, _, _, h8, _⟩ :=
    (parseMessage_spec parseRFC3339 claude.simpleUserRecord).2 claude.simpleUserMessage "user"
      rfl rfl (by decide)
  exact ⟨m, hm, h1, h2, h3, h8⟩

theorem parseContent_cases (md : Obj) :
    (∀ s, field md "content" = some (JSON.str s) →
        claude.parseContent md = [{ ContentBlock.empty with Type_ := "text", Text := s }])
    ∧ (∀ items, field md "content" = some (JSON.arr items) →
        claude.parseContent md = items.filterMap claude.itemBlock)
    ∧ (asString (field md "content") = none → asArray (field md "content") = none →
        claude.parseContent md = []) := by
  refine ⟨?_, ?_, ?_⟩
  · intro s hs
    have h : asString (field md "content") = some s := by rw [hs]; rfl
    simp [claude.parseContent, h]
  · intro items hi
    have h1 : asString (field md "content") = none := by rw [hi]; rfl
    have h2 : asArray (field md "content") = some items := by rw [hi]; rfl
    simp only [claude.parseContent, h1, h2]
    rfl
  · intro h1 h2
    simp [claude.parseContent, h1, h2]

/-- C27: for a record that `parseMessage` accepts, a string content gives the
single text block with that string, an array content gives the blocks of its
object items that normalize, in array order, and every other or missing content
gives the Message with an empty Content. -/
theorem message_content (parseTime : String → Option Time) (raw md : Obj) (role : String)
    (hmd : asObject (field raw "message") = some md)
    (hrole : asString (field md "role") = some role) (hne : role ≠ "") :
    ∃ m, claude.parseMessage parseTime raw = some m
      ∧ (∀ s, field md "content" = some (JSON.str s) →
          m.Content = [{ ContentBlock.empty with Type_ := "text", Text := s }])
      ∧ (∀ items, field md "content" = some (JSON.arr items) →
          m.Content = items.filterMap claude.itemBlock ∧ m.Content.length ≤ items.length)
      ∧ (asString (field md "content") = none → asArray (field md "content") = none →
          m.Content = []) := by
  have hc := parseContent_cases md
  refine ⟨_, parseMessage_some parseTime raw md role hmd hrole hne, ?_, ?_, ?_⟩
  · exact hc.1
  · intro items hi
    refine ⟨hc.2.1 items hi, ?_⟩
    show (claude.parseContent md).length ≤ items.length
    rw [hc.2.1 items hi]
    exact List.length_filterMap_le _ _
  · exact hc.2.2

/-- Witness of C27: the first record of the parser tests has the single text
block of its string content. -/
theorem message_content_witness :
    ∃ m, claude.parseMessage parseRFC3339 claude.simpleUserRecord = some m
      ∧ m.Content = [{ ContentBlock.empty with Type_ := "text", Text := "Hello, world!" }] := by
  obtain ⟨m, hm, h1, _, _⟩ :=
    message_content parseRFC3339 claude.simpleUserRecord claude.simpleUserMessage "user"
      rfl rfl (by decide)
  exact ⟨m, hm, h1 "Hello, world!" rfl⟩

/-- C30: the two normalizers return equal results for every block of type `text`
or `tool_use`, and for every block of type `tool_result` whose content is not an
array (a string, or neither a string nor an array). -/
theorem normalizers_agree (block : Obj)
    (h : asString (field block "type") = some "text"
      ∨ asString (field block "type") = some "tool_use"
      ∨ (asString (field block "type") = some "tool_result"
          ∧ asArray (field block "content") = none)) :
    claude.parseContentBlock block = goose.parseContentBlock block := by
  rcases h with h | h | ⟨h, harr⟩
  · simp [claude.parseContentBlock, goose.parseContentBlock, h]
  · simp [claude.parseContentBlock, goose.parseContentBlock, h]
  · have he : claude.extractToolContent (field block "content")
        = (match asString (field block "content") with
            | some contentStr => contentStr
            | none => "") := by
      cases hc : field block "content" with
      | none => rfl
      | some v =>
        cases v with
        | arr xs => rw [hc] at harr; simp [asArray] at harr
        | str s => rfl
        | null => rfl
        | bool b => rfl
        | num q => rfl
        | obj m => rfl
    simp [claude.parseContentBlock, goose.parseContentBlock, h, he]

/-- Witness of C30: the normalizers agree on the tool-result block whose content
is a nested object. -/
theorem normalizers_agree_witness :
    claude.parseContentBlock
        (claude.toolResultBlock (JSON.obj [("type", JSON.str "text"), ("text", JSON.str "t")]))
      = goose.parseContentBlock
        (claude.toolResultBlock (JSON.obj [("type", JSON.str "text"), ("text", JSON.str "t")])) :=
  normalizers_agree _ (Or.inr (Or.inr ⟨by decide, rfl⟩))

/-! ## Minimum and maximum of the timestamps -/

theorem stepRecord_times_good (parseTime : String → Option Time) (st : claude.SessionScan)
    (r : Obj) (s : String) (t : Time) (hs : asString (field r "timestamp") = some s)
    (ht : parseTime s = some t) :
    (claude.stepRecord parseTime st r).createdAt
        = (if st.createdAt = 0 ∨ t < st.createdAt then t else st.createdAt)
    ∧ (claude.stepRecord parseTime st r).updatedAt
        = (if st.updatedAt = 0 ∨ st.updatedAt < t then t else st.updatedAt) := by
  unfold claude.stepRecord
  rw [(claude.stepMessage_times parseTime _ r).1, (claude.stepMessage_times parseTime _ r).2]
  unfold claude.stepTimestamp
  rw [hs]
  simp only [ht, Option.getD_some]
  have h1 := (claude.stepSessionFields_times st r).1
  have h2 := (claude.stepSessionFields_times st r).2
  unfold claude.updateTimes Time.IsZero Time.Before Time.After
  simp only [Bool.or_eq_true, decide_eq_true_eq]
  rw [h1]
  constructor
  · split_ifs <;> simp_all
  · split_ifs <;> simp_all

theorem parsedTimestamps_cons_good (parseTime : String → Option Time) (r : Obj) (rs : List Obj)
    (s : String) (t : Time) (hs : asString (field r "timestamp") = some s)
    (ht : parseTime s = some t) :
    claude.parsedTimestamps parseTime (r :: rs) = t :: claude.parsedTimestamps parseTime rs := by
  simp [claude.parsedTimestamps, hs, ht]

theorem foldl_times_set (parseTime : String → Option Time) (rs : List Obj)
    (st : claude.SessionScan) (hall : ∀ r ∈ rs, claude.goodTimestamp parseTime r)
    (hc : st.createdAt ≠ 0) (hu : st.updatedAt ≠ 0) :
    ((rs.foldl (claude.stepRecord parseTime) st).createdAt = st.createdAt
        ∨ (rs.foldl (claude.stepRecord parseTime) st).createdAt
            ∈ claude.parsedTimestamps parseTime rs)
    ∧ (rs.foldl (claude.stepRecord parseTime) st).createdAt ≤ st.createdAt
    ∧ (∀ t ∈ claude.parsedTimestamps parseTime rs,
        (rs.foldl (claude.stepRecord parseTime) st).createdAt ≤ t)
    ∧ ((rs.foldl (claude.stepRecord parseTime) st).updatedAt = st.updatedAt
        ∨ (rs.foldl (claude.stepRecord parseTime) st).updatedAt
            ∈ claude.parsedTimestamps parseTime rs)
    ∧ st.updatedAt ≤ (rs.foldl (claude.stepRecord parseTime) st).updatedAt
    ∧ (∀ t ∈ claude.parsedTimestamps parseTime rs,
        t ≤ (rs.foldl (claude.stepRecord parseTime) st).updatedAt) := by
  induction rs generalizing st with
  | nil => simp [claude.parsedTimestamps]
  | cons r rs ih =>
    obtain ⟨s, t, hs, ht, hne⟩ := hall r (List.mem_cons_self r rs)
    have hstep := stepRecord_times_good parseTime st r s t hs ht
    have hne0 : t ≠ 0 := hne
    have hc2 : (claude.stepRecord parseTime st r).createdAt ≠ 0 := by
      rw [hstep.1]; split_ifs <;> assumption
    have hu2 : (claude.stepRecord parseTime st r).updatedAt ≠ 0 := by
      rw [hstep.2]; split_ifs <;> assumption
    have ih2 := ih (claude.stepRecord parseTime st r)
      (fun x hx => hall x (List.mem_cons_of_mem r hx)) hc2 hu2
    obtain ⟨i1, i2, i3, i4, i5, i6⟩ := ih2
    rw [List.foldl_cons, parsedTimestamps_cons_good parseTime r rs s t hs ht]
    have hcle : (claude.stepRecord parseTime st r).createdAt ≤ st.createdAt
        ∧ (claude.stepRecord parseTime st r).createdAt ≤ t
        ∧ ((claude.stepRecord parseTime st r).createdAt = st.createdAt
            ∨ (claude.stepRecord parseTime st r).createdAt = t) := by
      rw [hstep.1]
      split_ifs with hif
      · rcases hif with h0 | hlt
        · exact absurd h0 hc
        · exact ⟨le_of_lt hlt, le_refl _, Or.inr rfl⟩
      · push_neg at hif
        exact ⟨le_refl _, hif.2, Or.inl rfl⟩
    have hule : st.updatedAt ≤ (claude.stepRecord parseTime st r).updatedAt
        ∧ t ≤ (claude.stepRecord parseTime st r).updatedAt
        ∧ ((claude.stepRecord parseTime st r).updatedAt = st.updatedAt
            ∨ (claude.stepRecord parseTime st r).updatedAt = t) := by
      rw [hstep.2]
      split_ifs with hif
      · rcases hif with h0 | hlt
        · exact absurd h0 hu
        · exact ⟨le_of_lt hlt, le_refl _, Or.inr rfl⟩
      · push_neg at hif
        exact ⟨le_refl _, hif.2, Or.inl rfl⟩
    refine ⟨?_, le_trans i2 hcle.1, ?_, ?_, le_trans hule.1 i5, ?_⟩
    · rcases i1 with h | h
      · rcases hcle.2.2 with h2 | h2
        · exact Or.inl (h.trans h2)
        · exact Or.inr (by rw [h, h2]; exact List.mem_cons_self _ _)
      · exact Or.inr (List.mem_cons_of_mem _ h)
    · intro x hx
      rcases List.mem_cons.mp hx with h | h
      · rw [h]; exact le_trans i2 hcle.2.1
      · exact i3 x h
    · rcases i4 with h | h
      · rcases hule.2.2 with h2 | h2
        · exact Or.inl (h.trans h2)
        · exact Or.inr (by rw [h, h2]; exact List.mem_cons_self _ _)
      · exact Or.inr (List.mem_cons_of_mem _ h)
    · intro x hx
      rcases List.mem_cons.mp hx with h | h
      · rw [h]; exact le_trans hule.2.1 i5
      · exact i6 x h

theorem scanRecords_min_max (parseTime : String → Option Time) (rs : List Obj) (hne : rs ≠ [])
    (hall : ∀ r ∈ rs, claude.goodTimestamp parseTime r) :
    ((claude.scanRecords parseTime rs).createdAt ∈ claude.parsedTimestamps parseTime rs
      ∧ ∀ t ∈ claude.parsedTimestamps parseTime rs, (claude.scanRecords parseTime rs).createdAt ≤ t)
    ∧ ((claude.scanRecords parseTime rs).updatedAt ∈ claude.parsedTimestamps parseTime rs
      ∧ ∀ t ∈ claude.parsedTimestamps parseTime rs,
          t ≤ (claude.scanRecords parseTime rs).updatedAt) := by
  cases rs with
  | nil => exact absurd rfl hne
  | cons r rs =>
    obtain ⟨s, t, hs, ht, hne0⟩ := hall r (List.mem_cons_self r rs)
    have hstep := stepRecord_times_good parseTime claude.SessionScan.init r s t hs ht
    have hc : (claude.stepRecord parseTime claude.SessionScan.init r).createdAt = t := by
      rw [hstep.1]; simp [claude.SessionScan.init, Time.zero]
    have hu : (claude.stepRecord parseTime claude.SessionScan.init r).updatedAt = t := by
      rw [hstep.2]; simp [claude.SessionScan.init, Time.zero]
    have hset := foldl_times_set parseTime rs (claude.stepRecord parseTime claude.SessionScan.init r)
      (fun x hx => hall x (List.mem_cons_of_mem r hx)) (by rw [hc]; exact hne0)
      (by rw [hu]; exact hne0)
    rw [hc, hu] at hset
    obtain ⟨i1, i2, i3, i4, i5, i6⟩ := hset
    unfold claude.scanRecords
    rw [List.foldl_cons, parsedTimestamps_cons_good parseTime r rs s t hs ht]
    refine ⟨⟨?_, ?_⟩, ?_, ?_⟩
    · rcases i1 with h | h
      · rw [h]; exact List.mem_cons_self _ _
      · exact List.mem_cons_of_mem _ h
    · intro x hx
      rcases List.mem_cons.mp hx with h | h
      · rw [h]; exact i2
      · exact i3 x h
    · rcases i4 with h | h
      · rw [h]; exact List.mem_cons_self _ _
      · exact List.mem_cons_of_mem _ h
    · intro x hx
      rcases List.mem_cons.mp hx with h | h
      · rw [h]; exact i5
      · exact i6 x h

/-! ## The stored times with their zone offset -/

theorem parseRFC3339Zoned_instant (s : String) :
    instantParser parseRFC3339Zoned s = parseRFC3339 s := by
  unfold instantParser parseRFC3339Zoned parseRFC3339
  cases readDate s.data with
  | none => rfl
  | some d =>
    simp only [Option.some_bind]
    cases readChar 'T' d.2 with
    | none => rfl
    | some c1 =>
      simp only [Option.some_bind]
      cases readClock c1 with
      | none => rfl
      | some c =>
        simp only [Option.some_bind]
        cases readOptFraction c.2 with
        | none => rfl
        | some f =>
          simp only [Option.some_bind]
          cases readZone f.2 with
          | none => rfl
          | some offset =>
            simp only [Option.some_bind]
            split_ifs <;> rfl

theorem stepTimestampZoned_good (parseZoned : String → Option ZonedTime) (st : claude.ZonedScan)
    (r : Obj) (s : String) (z : ZonedTime) (hs : asString (field r "timestamp") = some s)
    (hz : parseZoned s = some z) :
    (claude.stepTimestampZoned parseZoned st r).createdAt
        = (if st.createdAt.instant = 0 ∨ z.instant < st.createdAt.instant then z
            else st.createdAt)
    ∧ (claude.stepTimestampZoned parseZoned st r).updatedAt
        = (if st.updatedAt.instant = 0 ∨ st.updatedAt.instant < z.instant then z
            else st.updatedAt) := by
  unfold claude.stepTimestampZoned
  rw [hs]
  simp only [hz, Option.getD_some]
  unfold claude.updateZoned ZonedTime.IsZero ZonedTime.Before ZonedTime.After
    Time.IsZero Time.Before Time.After
  simp only [Bool.or_eq_true, decide_eq_true_eq]
  constructor
  · split_ifs <;> simp_all
  · split_ifs <;> simp_all

theorem stepRecord_instants (parseZoned : String → Option ZonedTime) (st : claude.SessionScan)
    (zst : claude.ZonedScan) (r : Obj) (hc : st.createdAt = zst.createdAt.instant)
    (hu : st.updatedAt = zst.updatedAt.instant) :
    (claude.stepRecord (instantParser parseZoned) st r).createdAt
        = (claude.stepTimestampZoned parseZoned zst r).createdAt.instant
    ∧ (claude.stepRecord (instantParser parseZoned) st r).updatedAt
        = (claude.stepTimestampZoned parseZoned zst r).updatedAt.instant := by
  unfold claude.stepRecord
  rw [(claude.stepMessage_times _ _ r).1, (claude.stepMessage_times _ _ r).2]
  have h1 := (claude.stepSessionFields_times st r).1
  have h2 := (claude.stepSessionFields_times st r).2
  unfold claude.stepTimestamp claude.stepTimestampZoned
  cases asString (field r "timestamp") with
  | none => exact ⟨h1.trans hc, h2.trans hu⟩
  | some s =>
    have hts : (instantParser parseZoned s).getD Time.zero
        = ((parseZoned s).getD ZonedTime.zero).instant := by
      unfold instantParser
      cases parseZoned s <;> rfl
    simp only [hts]
    generalize (parseZoned s).getD ZonedTime.zero = z
    unfold claude.updateTimes claude.updateZoned ZonedTime.IsZero ZonedTime.Before
      ZonedTime.After Time.IsZero Time.Before Time.After
    simp only [Bool.or_eq_true, decide_eq_true_eq]
    rw [h1, hc]
    constructor
    · split_ifs <;> simp_all
    · split_ifs <;> simp_all

theorem foldl_instants (parseZoned : String → Option ZonedTime) (rs : List Obj)
    (st : claude.SessionScan) (zst : claude.ZonedScan)
    (hc : st.createdAt = zst.createdAt.instant) (hu : st.updatedAt = zst.updatedAt.instant) :
    (rs.foldl (claude.stepRecord (instantParser parseZoned)) st).createdAt
        = (rs.foldl (claude.stepTimestampZoned parseZoned) zst).createdAt.instant
    ∧ (rs.foldl (claude.stepRecord (instantParser parseZoned)) st).updatedAt
        = (rs.foldl (claude.stepTimestampZoned parseZoned) zst).updatedAt.instant := by
  induction rs generalizing st zst with
  | nil => exact ⟨hc, hu⟩
  | cons r rs ih =>
    rw [List.foldl_cons, List.foldl_cons]
    exact ih _ _ (stepRecord_instants parseZoned st zst r hc hu).1
      (stepRecord_instants parseZoned st zst r hc hu).2

theorem scanRecords_instants (parseZoned : String → Option ZonedTime) (rs : List Obj) :
    (claude.scanRecords (instantParser parseZoned) rs).createdAt
        = (claude.scanTimesZoned parseZoned rs).createdAt.instant
    ∧ (claude.scanRecords (instantParser parseZoned) rs).updatedAt
        = (claude.scanTimesZoned parseZoned rs).updatedAt.instant :=
  foldl_instants parseZoned rs claude.SessionScan.init claude.ZonedScan.init rfl rfl

theorem parsedTimestamps_instants (parseZoned : String → Option ZonedTime) (rs : List Obj) :
    claude.parsedTimestamps (instantParser parseZoned) rs
      = (claude.zonedTimestamps parseZoned rs).map ZonedTime.instant := by
  unfold claude.parsedTimestamps claude.zonedTimestamps
  rw [List.map_filterMap]
  congr 1
  funext r
  unfold instantParser
  cases asString (field r "timestamp") <;> rfl

theorem goodTimestamp_of_goodZoned (parseZoned : String → Option ZonedTime) (r : Obj)
    (h : claude.goodZoned parseZoned r) : claude.goodTimestamp (instantParser parseZoned) r := by
  obtain ⟨s, z, hs, hz, hne⟩ := h
  exact ⟨s, z.instant, hs, by unfold instantParser; rw [hz]; rfl, hne⟩

theorem zonedTimestamps_cons_good (parseZoned : String → Option ZonedTime) (r : Obj)
    (rs : List Obj) (s : String) (z : ZonedTime) (hs : asString (field r "timestamp") = some s)
    (hz : parseZoned s = some z) :
    claude.zonedTimestamps parseZoned (r :: rs) = z :: claude.zonedTimestamps parseZoned rs := by
  simp [claude.zonedTimestamps, hs, hz]

theorem foldl_zoned_mem (parseZoned : String → Option ZonedTime) (rs : List Obj)
    (st : claude.ZonedScan) (hall : ∀ r ∈ rs, claude.goodZoned parseZoned r) :
    ((rs.foldl (claude.stepTimestampZoned parseZoned) st).createdAt = st.createdAt
        ∨ (rs.foldl (claude.stepTimestampZoned parseZoned) st).createdAt
            ∈ claude.zonedTimestamps parseZoned rs)
    ∧ ((rs.foldl (claude.stepTimestampZoned parseZoned) st).updatedAt = st.updatedAt
        ∨ (rs.foldl (claude.stepTimestampZoned parseZoned) st).updatedAt
            ∈ claude.zonedTimestamps parseZoned rs) := by
  induction rs generalizing st with
  | nil => exact ⟨Or.inl rfl, Or.inl rfl⟩
  | cons r rs ih =>
    obtain ⟨s, z, hs, hz, _⟩ := hall r (List.mem_cons_self r rs)
    have hstep := stepTimestampZoned_good parseZoned st r s z hs hz
    have ih2 := ih (claude.stepTimestampZoned parseZoned st r)
      (fun x hx => hall x (List.mem_cons_of_mem r hx))
    rw [List.foldl_cons, zonedTimestamps_cons_good parseZoned r rs s z hs hz]
    have hc : (claude.stepTimestampZoned parseZoned st r).createdAt = st.createdAt
        ∨ (claude.stepTimestampZoned parseZoned st r).createdAt = z := by
      rw [hstep.1]; split_ifs
      · exact Or.inr rfl
      · exact Or.inl rfl
    have hu : (claude.stepTimestampZoned parseZoned st r).updatedAt = st.updatedAt
        ∨ (claude.stepTimestampZoned parseZoned st r).updatedAt = z := by
      rw [hstep.2]; split_ifs
      · exact Or.inr rfl
      · exact Or.inl rfl
    constructor
    · rcases ih2.1 with h | h
      · rcases hc with h2 | h2
        · exact Or.inl (h.trans h2)
        · exact Or.inr (by rw [h, h2]; exact List.mem_cons_self _ _)
      · exact Or.inr (List.mem_cons_of_mem _ h)
    · rcases ih2.2 with h | h
      · rcases hu with h2 | h2
        · exact Or.inl (h.trans h2)
        · exact Or.inr (by rw [h, h2]; exact List.mem_cons_self _ _)
      · exact Or.inr (List.mem_cons_of_mem _ h)

theorem zonedTimestamps_ne_zero (parseZoned : String → Option ZonedTime) (rs : List Obj)
    (hall : ∀ r ∈ rs, claude.goodZoned parseZoned r) :
    ∀ z ∈ claude.zonedTimestamps parseZoned rs, z.instant ≠ Time.zero := by
  intro z hz
  unfold claude.zonedTimestamps at hz
  obtain ⟨r, hr, hrz⟩ := List.mem_filterMap.mp hz
  obtain ⟨s, z2, hs, hz2, hne⟩ := hall r hr
  rw [hs] at hrz
  simp only [Option.some_bind] at hrz
  rw [hz2] at hrz
  cases hrz
  exact hne

theorem scanTimesZoned_min_max (parseZoned : String → Option ZonedTime) (rs : List Obj)
    (hne : rs ≠ []) (hall : ∀ r ∈ rs, claude.goodZoned parseZoned r) :
    ((claude.scanTimesZoned parseZoned rs).createdAt ∈ claude.zonedTimestamps parseZoned rs
      ∧ ∀ z ∈ claude.zonedTimestamps parseZoned rs,
          (claude.scanTimesZoned parseZoned rs).createdAt.instant ≤ z.instant)
    ∧ ((claude.scanTimesZoned parseZoned rs).updatedAt ∈ claude.zonedTimestamps parseZoned rs
      ∧ ∀ z ∈ claude.zonedTimestamps parseZoned rs,
          z.instant ≤ (claude.scanTimesZoned parseZoned rs).updatedAt.instant) := by
  have hint := scanRecords_min_max (instantParser parseZoned) rs hne
    (fun r hr => goodTimestamp_of_goodZoned parseZoned r (hall r hr))
  rw [parsedTimestamps_instants, (scanRecords_instants parseZoned rs).1,
    (scanRecords_instants parseZoned rs).2] at hint
  have hmem := foldl_zoned_mem parseZoned rs claude.ZonedScan.init hall
  have hnz := zonedTimestamps_ne_zero parseZoned rs hall
  have hnz2 : ∀ t ∈ (claude.zonedTimestamps parseZoned rs).map ZonedTime.instant,
      t ≠ Time.zero := by
    intro t ht
    obtain ⟨z, hz, hzt⟩ := List.mem_map.mp ht
    rw [← hzt]
    exact hnz z hz
  refine ⟨⟨?_, ?_⟩, ?_, ?_⟩
  · rcases hmem.1 with h | h
    · exfalso
      apply hnz2 _ hint.1.1
      unfold claude.scanTimesZoned
      rw [h]
      rfl
    · exact h
  · intro z hz
    exact hint.1.2 _ (List.mem_map_of_mem _ hz)
  · rcases hmem.2 with h | h
    · exfalso
      apply hnz2 _ hint.2.1
      unfold claude.scanTimesZoned
      rw [h]
      rfl
    · exact h
  · intro z hz
    exact hint.2.2 _ (List.mem_map_of_mem _ hz)

/-- C29, the code at the failing input: the timestamps `2026-02-07T12:00:00Z` and
`2026-02-07T14:00:00+02:00` both parse and denote the same instant, which is not
the zero instant.  With the records in this order the scan stores the first one
as `createdAt` and `updatedAt` (zone offset 0, written `2026-02-07T12:00:00Z`);
with the two records exchanged it stores the other one (zone offset 7200, written
`2026-02-07T14:00:00+02:00`). -/
theorem stored_zone_depends_on_order :
    claude.sameInstantRecords.reverse.Perm claude.sameInstantRecords
    ∧ claude.zonedTimestamps parseRFC3339Zoned claude.sameInstantRecords
        = [{ instant := 63906062400000000000, offset := 0 },
           { instant := 63906062400000000000, offset := 7200 }]
    ∧ (claude.scanTimesZoned parseRFC3339Zoned claude.sameInstantRecords).createdAt
        = { instant := 63906062400000000000, offset := 0 }
    ∧ (claude.scanTimesZoned parseRFC3339Zoned claude.sameInstantRecords.reverse).createdAt
        = { instant := 63906062400000000000, offset := 7200 }
    ∧ (claude.scanTimesZoned parseRFC3339Zoned claude.sameInstantRecords).updatedAt
        = { instant := 63906062400000000000, offset := 0 }
    ∧ (claude.scanTimesZoned parseRFC3339Zoned claude.sameInstantRecords.reverse).updatedAt
        = { instant := 63906062400000000000, offset := 7200 }
    ∧ formatRFC3339Zoned
          (claude.scanTimesZoned parseRFC3339Zoned claude.sameInstantRecords).createdAt
        = "2026-02-07T12:00:00Z"
    ∧ formatRFC3339Zoned
          (claude.scanTimesZoned parseRFC3339Zoned claude.sameInstantRecords.reverse).createdAt
        = "2026-02-07T14:00:00+02:00" := by
  refine ⟨List.reverse_perm _, ?_, ?_, ?_, ?_, ?_, ?_, ?_⟩ <;> decide

/-- C29, as the code has it: for a non-empty sequence of records whose timestamp strings
all parse to times other than the zero instant, the scan ends with `createdAt` one
of those timestamps whose instant is the least and `updatedAt` one whose instant
is the greatest; every permutation of the records ends with the same two
instants, and with the same two stored values when timestamps of the records that
denote the same instant are equal, zone offset included.  The instants are the
`createdAt` and `updatedAt` of the scan loop of `readSessionFile`. -/
theorem created_min_updated_max_instants (parseZoned : String → Option ZonedTime)
    (rs : List Obj) (hne : rs ≠ []) (hall : ∀ r ∈ rs, claude.goodZoned parseZoned r) :
    ((claude.scanTimesZoned parseZoned rs).createdAt ∈ claude.zonedTimestamps parseZoned rs
      ∧ ∀ z ∈ claude.zonedTimestamps parseZoned rs,
          (claude.scanTimesZoned parseZoned rs).createdAt.instant ≤ z.instant)
    ∧ ((claude.scanTimesZoned parseZoned rs).updatedAt ∈ claude.zonedTimestamps parseZoned rs
      ∧ ∀ z ∈ claude.zonedTimestamps parseZoned rs,
          z.instant ≤ (claude.scanTimesZoned parseZoned rs).updatedAt.instant)
    ∧ (∀ rs2 : List Obj, rs2.Perm rs →
        ((claude.scanTimesZoned parseZoned rs2).createdAt.instant
            = (claude.scanTimesZoned parseZoned rs).createdAt.instant
          ∧ (claude.scanTimesZoned parseZoned rs2).updatedAt.instant
            = (claude.scanTimesZoned parseZoned rs).updatedAt.instant)
        ∧ ((∀ a ∈ claude.zonedTimestamps parseZoned rs,
              ∀ b ∈ claude.zonedTimestamps parseZoned rs, a.instant = b.instant → a = b) →
            (claude.scanTimesZoned parseZoned rs2).createdAt
                = (claude.scanTimesZoned parseZoned rs).createdAt
            ∧ (claude.scanTimesZoned parseZoned rs2).updatedAt
                = (claude.scanTimesZoned parseZoned rs).updatedAt))
    ∧ ((claude.scanRecords (instantParser parseZoned) rs).createdAt
          = (claude.scanTimesZoned parseZoned rs).createdAt.instant
      ∧ (claude.scanRecords (instantParser parseZoned) rs).updatedAt
          = (claude.scanTimesZoned parseZoned rs).updatedAt.instant) := by
  have h := scanTimesZoned_min_max parseZoned rs hne hall
  refine ⟨h.1, h.2, ?_, scanRecords_instants parseZoned rs⟩
  intro rs2 hp
  have hne2 : rs2 ≠ [] := by
    intro h0
    rw [h0] at hp
    exact hne (List.Perm.eq_nil hp.symm)
  have hall2 : ∀ r ∈ rs2, claude.goodZoned parseZoned r :=
    fun r hr => hall r (hp.mem_iff.mp hr)
  have h2 := scanTimesZoned_min_max parseZoned rs2 hne2 hall2
  have hpt : (claude.zonedTimestamps parseZoned rs2).Perm (claude.zonedTimestamps parseZoned rs) :=
    List.Perm.filterMap _ hp
  have hc : (claude.scanTimesZoned parseZoned rs2).createdAt.instant
      = (claude.scanTimesZoned parseZoned rs).createdAt.instant :=
    le_antisymm (h2.1.2 _ (hpt.mem_iff.mpr h.1.1)) (h.1.2 _ (hpt.mem_iff.mp h2.1.1))
  have hu : (claude.scanTimesZoned parseZoned rs2).updatedAt.instant
      = (claude.scanTimesZoned parseZoned rs).updatedAt.instant :=
    le_antisymm (h.2.2 _ (hpt.mem_iff.mp h2.2.1)) (h2.2.2 _ (hpt.mem_iff.mpr h.2.1))
  refine ⟨⟨hc, hu⟩, ?_⟩
  intro hinj
  exact ⟨hinj _ (hpt.mem_iff.mp h2.1.1) _ h.1.1 hc, hinj _ (hpt.mem_iff.mp h2.2.1) _ h.2.1 hu⟩

/-- Witness of C29: of the timestamps 12:00:10, 12:00:05 and 12:00:20,
all in UTC, the scan keeps 12:00:05 as creation time and 12:00:20 as update
time. -/
theorem created_min_updated_max_instants_witness :
    (claude.scanTimesZoned parseRFC3339Zoned claude.threeTimestamps).createdAt
        = { instant := 63906062405000000000, offset := 0 }
    ∧ (claude.scanTimesZoned parseRFC3339Zoned claude.threeTimestamps).updatedAt
        = { instant := 63906062420000000000, offset := 0 }
    ∧ (claude.scanTimesZoned parseRFC3339Zoned claude.threeTimestamps).createdAt
        ∈ claude.zonedTimestamps parseRFC3339Zoned claude.threeTimestamps :=
  ⟨by decide, by decide,
    (created_min_updated_max_instants parseRFC3339Zoned claude.threeTimestamps
      (List.cons_ne_nil _ _)
      (by
        intro r hr
        simp only [claude.threeTimestamps, List.mem_cons, List.mem_singleton,
          List.not_mem_nil, or_false] at hr
        rcases hr with h | h | h
        · exact ⟨"2026-02-07T12:00:10Z", { instant := 63906062410000000000, offset := 0 },
            by rw [h]; rfl, by decide, by decide⟩
        · exact ⟨"2026-02-07T12:00:05Z", { instant := 63906062405000000000, offset := 0 },
            by rw [h]; rfl, by decide, by decide⟩
        · exact ⟨"2026-02-07T12:00:20Z", { instant := 63906062420000000000, offset := 0 },
            by rw [h]; rfl, by decide, by decide⟩)).1.1⟩

/-! ## The content and metadata of Reader B -/

theorem contentLoop_eq (items : List JSON) (blocks : List ContentBlock) :
    goose.contentLoop blocks items = blocks ++ items.filterMap goose.itemBlock := by
  induction items generalizing blocks with
  | nil => simp [goose.contentLoop]
  | cons item rest ih =>
    cases item with
    | obj m =>
      cases hm : goose.parseContentBlock m with
      | none => simp [goose.contentLoop, goose.itemBlock, hm, ih]
      | some b => simp [goose.contentLoop, goose.itemBlock, hm, ih]
    | str s => simp [goose.contentLoop, goose.itemBlock, ih]
    | null => simp [goose.contentLoop, goose.itemBlock, ih]
    | bool b => simp [goose.contentLoop, goose.itemBlock, ih]
    | num v => simp [goose.contentLoop, goose.itemBlock, ih]
    | arr xs => simp [goose.contentLoop, goose.itemBlock, ih]

/-- C21: `goose.parseContent` gives no block for a payload that is not JSON, the
single text block for a string, the zero or one block of `parseContentBlock` for
an object, for an array the text blocks of its string items and the normalized
blocks of its object items in array order, and no block for null, a boolean or a
number. -/
theorem parseContent_spec (unmarshal : String → Option JSON) (contentJSON : String) :
    (unmarshal contentJSON = none → goose.parseContent unmarshal contentJSON = [])
    ∧ (∀ s, unmarshal contentJSON = some (JSON.str s) →
        goose.parseContent unmarshal contentJSON
          = [{ ContentBlock.empty with Type_ := "text", Text := s }])
    ∧ (∀ m, unmarshal contentJSON = some (JSON.obj m) →
        goose.parseContent unmarshal contentJSON = (goose.parseContentBlock m).toList)
    ∧ (∀ items, unmarshal contentJSON = some (JSON.arr items) →
        goose.parseContent unmarshal contentJSON = items.filterMap goose.itemBlock)
    ∧ ((unmarshal contentJSON = some JSON.null
          ∨ (∃ b, unmarshal contentJSON = some (JSON.bool b))
          ∨ (∃ v, unmarshal contentJSON = some (JSON.num v))) →
        goose.parseContent unmarshal contentJSON = []) := by
  refine ⟨?_, ?_, ?_, ?_, ?_⟩
  · intro h
    simp [goose.parseContent, h]
  · intro s h
    simp [goose.parseContent, h]
  · intro m h
    cases hm : goose.parseContentBlock m <;> simp [goose.parseContent, h, hm]
  · intro items h
    simp [goose.parseContent, h, contentLoop_eq]
  · intro h
    rcases h with h | ⟨b, h⟩ | ⟨v, h⟩ <;> simp [goose.parseContent, h]

/-- Witness of C21: an array payload with a text object, a string, a number and
an object of unknown type without text gives the two text blocks. -/
theorem parseContent_spec_witness :
    goose.parseContent
        (goose.tableDecode [("payload", JSON.arr
          [JSON.obj [("type", JSON.str "text"), ("text", JSON.str "Hello")], JSON.str "World",
           JSON.num 7, JSON.obj [("type", JSON.str "unknown")]])]) "payload"
      = [{ ContentBlock.empty with Type_ := "text", Text := "Hello" },
         { ContentBlock.empty with Type_ := "text", Text := "World" }] :=
  ((parseContent_spec
      (goose.tableDecode [("payload", JSON.arr
        [JSON.obj [("type", JSON.str "text"), ("text", JSON.str "Hello")], JSON.str "World",
         JSON.num 7, JSON.obj [("type", JSON.str "unknown")]])]) "payload").2.2.2.1
    [JSON.obj [("type", JSON.str "text"), ("text", JSON.str "Hello")], JSON.str "World",
     JSON.num 7, JSON.obj [("type", JSON.str "unknown")]] rfl).trans rfl

theorem lookup_cons_ne {β : Type} (k a : String) (b : β) (l : List (String × β))
    (h : k ≠ a) : List.lookup k ((a, b) :: l) = List.lookup k l := by
  have hb : (k == a) = false := by simpa using h
  rw [List.lookup_cons, hb]

theorem lookup_cons_self {β : Type} (k : String) (b : β) (l : List (String × β)) :
    List.lookup k ((k, b) :: l) = some b := by
  have hb : (k == k) = true := by simp
  rw [List.lookup_cons, hb]

theorem lookup_eq_none_of_not_mem_keys {β : Type} (k : String) (l : List (String × β))
    (h : k ∉ l.map Prod.fst) : List.lookup k l = none := by
  induction l with
  | nil => rfl
  | cons kv l ih =>
    obtain ⟨a, b⟩ := kv
    have hne : k ≠ a := fun he => h (by simp [he])
    have hrest : k ∉ l.map Prod.fst := fun hm => h (by simp [hm])
    rw [lookup_cons_ne k a b l hne, ih hrest]

theorem lookup_filter_ne (k k0 : String) (l : List (String × String)) (h : k ≠ k0) :
    List.lookup k (l.filter (fun kv => kv.1 ≠ k0)) = List.lookup k l := by
  induction l with
  | nil => rfl
  | cons kv l ih =>
    obtain ⟨a, b⟩ := kv
    by_cases ha : a = k0
    · have hka : k ≠ a := by rw [ha]; exact h
      rw [List.filter_cons_of_neg (by simp [ha]), ih, lookup_cons_ne k a b l hka]
    · rw [List.filter_cons_of_pos (by simp [ha])]
      by_cases hka : k = a
      · subst hka
        rw [lookup_cons_self, lookup_cons_self]
      · rw [lookup_cons_ne k a b _ hka, lookup_cons_ne k a b _ hka, ih]

theorem mapEntriesFrom_keys (m : Obj) (seen : List String) :
    ((goose.mapEntriesFrom seen m).map Prod.fst).Nodup
    ∧ ∀ k ∈ (goose.mapEntriesFrom seen m).map Prod.fst, k ∉ seen := by
  induction m generalizing seen with
  | nil => simp [goose.mapEntriesFrom]
  | cons kv m ih =>
    obtain ⟨a, b⟩ := kv
    by_cases ha : a ∈ seen
    · simp only [goose.mapEntriesFrom, ha, if_true]
      exact ih seen
    · simp only [goose.mapEntriesFrom, ha, if_false, List.map_cons, List.nodup_cons]
      have ih2 := ih (a :: seen)
      refine ⟨⟨?_, ih2.1⟩, ?_⟩
      · intro hmem
        exact ih2.2 a hmem (List.mem_cons_self a seen)
      · intro k hk
        rcases List.mem_cons.mp hk with h | h
        · rw [h]; exact ha
        · exact fun hs => ih2.2 k h (List.mem_cons_of_mem a hs)

theorem lookup_mapEntriesFrom (m : Obj) (seen : List String) (k : String) :
    List.lookup k (goose.mapEntriesFrom seen m) = if k ∈ seen then none else List.lookup k m := by
  induction m generalizing seen with
  | nil => simp [goose.mapEntriesFrom]
  | cons kv m ih =>
    obtain ⟨a, b⟩ := kv
    by_cases ha : a ∈ seen
    · simp only [goose.mapEntriesFrom, ha, if_true]
      rw [ih seen]
      by_cases hk : k ∈ seen
      · simp [hk]
      · have hka : k ≠ a := fun he => hk (he ▸ ha)
        rw [if_neg hk, if_neg hk, lookup_cons_ne k a b m hka]
    · simp only [goose.mapEntriesFrom, ha, if_false]
      by_cases hka : k = a
      · subst hka
        rw [lookup_cons_self, if_neg ha, lookup_cons_self]
      · rw [lookup_cons_ne k a b _ hka, ih (a :: seen), lookup_cons_ne k a b m hka]
        by_cases hk : k ∈ seen
        · simp [hk]
        · simp [hk, hka]

theorem extraLoop_lookup (entries : List (String × JSON)) (acc : List (String × String))
    (k : String) (hnodup : (entries.map Prod.fst).Nodup) :
    List.lookup k (goose.extraLoop acc entries) =
      match List.lookup k entries with
      | some (JSON.str s) => some s
      | _ => List.lookup k acc := by
  induction entries generalizing acc with
  | nil => simp [goose.extraLoop]
  | cons kv rest ih =>
    obtain ⟨a, v⟩ := kv
    rw [List.map_cons, List.nodup_cons] at hnodup
    obtain ⟨hnot, hrest⟩ := hnodup
    by_cases hka : k = a
    · subst hka
      have hnone := lookup_eq_none_of_not_mem_keys k rest hnot
      rw [lookup_cons_self]
      cases v with
      | str s =>
        simp only [goose.extraLoop]
        rw [ih _ hrest, hnone]
        simp only [goose.mapSet]
        rw [lookup_cons_self]
      | null => simp only [goose.extraLoop]; rw [ih _ hrest, hnone]
      | bool b => simp only [goose.extraLoop]; rw [ih _ hrest, hnone]
      | num q => simp only [goose.extraLoop]; rw [ih _ hrest, hnone]
      | arr xs => simp only [goose.extraLoop]; rw [ih _ hrest, hnone]
      | obj m => simp only [goose.extraLoop]; rw [ih _ hrest, hnone]
    · have hset : ∀ s, List.lookup k (goose.mapSet acc a s) = List.lookup k acc := by
        intro s
        unfold goose.mapSet
        rw [lookup_cons_ne k a s _ hka]
        exact lookup_filter_ne k a acc hka
      rw [lookup_cons_ne k a v rest hka]
      cases v with
      | str s => simp only [goose.extraLoop]; rw [ih _ hrest, hset]
      | null => simp only [goose.extraLoop]; rw [ih _ hrest]
      | bool b => simp only [goose.extraLoop]; rw [ih _ hrest]
      | num q => simp only [goose.extraLoop]; rw [ih _ hrest]
      | arr xs => simp only [goose.extraLoop]; rw [ih _ hrest]
      | obj m => simp only [goose.extraLoop]; rw [ih _ hrest]

theorem rowMessage_extra (unmarshalAny : String → Option JSON)
    (unmarshalObj : String → Option Obj) (parseTime : String → Option Time)
    (row : goose.MessageRow) (m : Obj) (hvalid : row.metadataJSON.Valid = true)
    (hne : row.metadataJSON.Str ≠ "") (hm : unmarshalObj row.metadataJSON.Str = some m)
    (k : String) :
    List.lookup k (goose.rowMessage unmarshalAny unmarshalObj parseTime row).Metadata.Extra =
      match field m k with
      | some (JSON.str s) => some s
      | _ => none := by
  have hextra : (goose.rowMessage unmarshalAny unmarshalObj parseTime row).Metadata.Extra
      = goose.extraLoop [] (goose.mapEntriesFrom [] m) := by
    simp [goose.rowMessage, hvalid, hne, hm, goose.mapEntries]
  rw [hextra, extraLoop_lookup _ _ _ (mapEntriesFrom_keys m []).1, lookup_mapEntriesFrom]
  simp [field]

/-- C22: for a message row whose metadata blob decodes to the object `m`, the
Extra of the Message maps a key to the string `s` exactly when `m` holds that
string under the key; a key whose value in `m` is not a string is not in Extra. -/
theorem extra_from_string_entries (unmarshalAny : String → Option JSON)
    (unmarshalObj : String → Option Obj) (parseTime : String → Option Time)
    (row : goose.MessageRow) (m : Obj) (hvalid : row.metadataJSON.Valid = true)
    (hne : row.metadataJSON.Str ≠ "") (hm : unmarshalObj row.metadataJSON.Str = some m) :
    (∀ k s, List.lookup k (goose.rowMessage unmarshalAny unmarshalObj parseTime row).Metadata.Extra
          = some s ↔ field m k = some (JSON.str s))
    ∧ (∀ k, (∀ s, field m k ≠ some (JSON.str s)) →
        List.lookup k (goose.rowMessage unmarshalAny unmarshalObj parseTime row).Metadata.Extra
          = none) := by
  have h := rowMessage_extra unmarshalAny unmarshalObj parseTime row m hvalid hne hm
  constructor
  · intro k s
    rw [h k]
    cases hf : field m k with
    | none => simp
    | some v => cases v <;> simp
  · intro k hk
    rw [h k]
    cases hf : field m k with
    | none => rfl
    | some v =>
      cases v with
      | str s => exact absurd hf (hk s)
      | null => rfl
      | bool b => rfl
      | num q => rfl
      | arr xs => rfl
      | obj o => rfl

/-- Witness of C22: of a metadata object with a string, a number and a null
entry only the string entry reaches Extra. -/
theorem extra_from_string_entries_witness :
    (goose.rowMessage (goose.tableDecode []) (tableUnmarshal [("meta", goose.mixedMetadata)])
        parseRFC3339 goose.metadataRow).Metadata.Extra = [("source", "cli")]
    ∧ List.lookup "count"
        (goose.rowMessage (goose.tableDecode []) (tableUnmarshal [("meta", goose.mixedMetadata)])
          parseRFC3339 goose.metadataRow).Metadata.Extra = none :=
  ⟨by decide,
   (extra_from_string_entries (goose.tableDecode [])
      (tableUnmarshal [("meta", goose.mixedMetadata)]) parseRFC3339 goose.metadataRow
      goose.mixedMetadata rfl (by decide) rfl).2 "count" (by
        intro s hs
        have hc : field goose.mixedMetadata "count" = some (JSON.num 3) := rfl
        rw [hc] at hs
        cases hs)⟩

/-! ## The directory walk of Reader A -/

/-- C28, the code at the failing input: the session file `s1.jsonl` in the
project directory `my-subagents-notes` lies in no directory named `subagents`
and reads as a session with one message, yet its path contains that text and
the walk skips it; only the session of `notes/s2.jsonl` is returned. -/
theorem walk_skips_path_with_subagents_text :
    claude.inSubagentsDir "/home/u/.claude/projects/my-subagents-notes/s1.jsonl" = false
    ∧ Contains "/home/u/.claude/projects/my-subagents-notes/s1.jsonl" "subagents" = true
    ∧ (claude.readSessionFile claude.walkEnv
          "/home/u/.claude/projects/my-subagents-notes/s1.jsonl").isSome = true
    ∧ (claude.ReadSessions claude.walkEnv "/home/u" claude.walkEntries).map
          (fun sessions => sessions.map fun s => (s.SessionID, s.Messages.length))
        = some [("s2", 1)]
    ∧ (claude.readSessionFile claude.walkEnv
          "/home/u/.claude/projects/my-subagents-notes/s1.jsonl").map
          (fun s => (s.SessionID, s.Messages.length)) = some ("s1", 1) := by
  refine ⟨?_, ?_, ?_, ?_, ?_⟩ <;> decide

/-! ## The run and the envelope -/

theorem ApplySlice_foldl (orbit : Char → Char → Bool) (opts : filter.Options)
    (xs : List Session) (acc : Slice Session) :
    xs.foldl
        (fun filtered session =>
          if filter.shouldInclude orbit session opts then appendSlice filtered [session]
          else filtered) acc
      = if (xs.filter fun s => filter.shouldInclude orbit s opts).isEmpty then acc
        else some (acc.elems ++ xs.filter fun s => filter.shouldInclude orbit s opts) := by
  induction xs generalizing acc with
  | nil => simp
  | cons x xs ih =>
    rw [List.foldl_cons, ih]
    by_cases hx : filter.shouldInclude orbit x opts = true
    · simp only [hx, if_true, List.filter_cons]
      cases hf : (xs.filter fun s => filter.shouldInclude orbit s opts) with
      | nil => simp [appendSlice, Slice.elems]
      | cons y ys => simp [appendSlice, Slice.elems]
    · simp [hx, List.filter_cons]

theorem ApplySlice_eq (orbit : Char → Char → Bool) (xs : List Session) (opts : filter.Options) :
    filter.ApplySlice orbit xs opts
      = if (filter.Apply orbit xs opts).isEmpty then none
        else some (filter.Apply orbit xs opts) := by
  unfold filter.ApplySlice
  rw [ApplySlice_foldl, filter.Apply_eq_filter]
  simp [Slice.elems]

theorem runSessions_empty_sources (orbit : Char → Char → Bool)
    (parseTime : String → Option Time) (flags : cmd.Flags) :
    cmd.runSessions orbit parseTime (some []) (some []) flags = none
    ∨ cmd.runSessions orbit parseTime (some []) (some []) flags = some none := by
  unfold cmd.runSessions
  cases (if flags.since ≠ "" then parseTime flags.since else some Time.zero) with
  | none => left; rfl
  | some sinceT =>
    cases (if flags.until_ ≠ "" then parseTime flags.until_ else some Time.zero) with
    | none => left; rfl
    | some untilT =>
      right
      by_cases h1 : flags.agentType = "" ∨ flags.agentType = "claude"
        <;> by_cases h2 : flags.agentType = "" ∨ flags.agentType = "goose"
        <;> simp [h1, h2, appendSlice, Slice.elems, filter.ApplySlice]

/-- C23, the code on empty sources: when both readers return no session, every
run that succeeds writes the envelope whose `sessions` is `null`, and the run
without flags does succeed with that envelope. -/
theorem empty_sources_write_null (orbit : Char → Char → Bool)
    (parseTime : String → Option Time) (formatTime : Time → String) (now : Time)
    (flags : cmd.Flags) :
    (∀ envelope, cmd.run orbit parseTime formatTime now (some []) (some []) flags = some envelope →
        envelope = JSON.obj [("version", JSON.str "1.0.0"),
          ("generated_at", JSON.str (formatTime now)), ("sessions", JSON.null)])
    ∧ cmd.run orbit parseTime formatTime now (some []) (some []) cmd.noFlags
        = some (JSON.obj [("version", JSON.str "1.0.0"),
            ("generated_at", JSON.str (formatTime now)), ("sessions", JSON.null)])
    ∧ cmd.run asciiOrbit parseRFC3339 formatRFC3339 63906062400000000000 (some []) (some [])
          cmd.noFlags
        = some (JSON.obj [("version", JSON.str "1.0.0"),
            ("generated_at", JSON.str "2026-02-07T12:00:00Z"), ("sessions", JSON.null)]) := by
  refine ⟨?_, rfl, ?_⟩
  · intro envelope h
    unfold cmd.run at h
    rcases runSessions_empty_sources orbit parseTime flags with h0 | h0
    · rw [h0] at h; simp at h
    · rw [h0] at h
      simp only [Option.map_some', Option.some.injEq] at h
      rw [← h]
      rfl
  · have hf : formatRFC3339 63906062400000000000 = "2026-02-07T12:00:00Z" := by decide
    rw [← hf]
    rfl

theorem omitEmptyString_keys (key value : String) :
    (output.omitEmptyString key value).map Prod.fst = if value = "" then [] else [key] := by
  unfold output.omitEmptyString
  split_ifs <;> rfl

theorem omitEmptyInt_keys (key : String) (value : Int) :
    (output.omitEmptyInt key value).map Prod.fst = if value = 0 then [] else [key] := by
  unfold output.omitEmptyInt
  split_ifs <;> rfl

theorem omitEmptyStringMap_keys (key : String) (m : List (String × String)) :
    (output.omitEmptyStringMap key m).map Prod.fst = if m.isEmpty then [] else [key] := by
  unfold output.omitEmptyStringMap
  split_ifs <;> rfl

/-- C24, as the code has it: the keys of every encoded structure are those the
struct tags give.  The keys without `omitempty` are always written: `version`,
`generated_at`, `sessions`, `agent_type`, `session_id`, `created_at`,
`updated_at`, `metadata`, `messages`, `uuid`, `timestamp`, `role`, `content`,
`tokens`, `type` and the `agent_id` of a subagent; every other key is written
exactly when its value is not the zero value. -/
theorem encoded_keys (formatTime : Time → String) :
    (∀ o, output.objKeys (output.encodeOutput formatTime o)
        = ["version", "generated_at", "sessions"])
    ∧ (∀ s, output.objKeys (output.encodeSession formatTime s)
        = ["agent_type", "session_id", "created_at", "updated_at", "metadata", "messages"]
          ++ (if s.Subagents.isEmpty then [] else ["subagents"]))
    ∧ (∀ md : SessionMetadata, output.objKeys (output.encodeSessionMetadata md)
        = (if md.WorkingDir = "" then [] else ["working_dir"])
          ++ (if md.GitBranch = "" then [] else ["git_branch"])
          ++ (if md.Model = "" then [] else ["model"])
          ++ (if md.Provider = "" then [] else ["provider"])
          ++ (if md.Name = "" then [] else ["name"])
          ++ (if md.Extra.isEmpty then [] else ["extra"]))
    ∧ (∀ m, output.objKeys (output.encodeMessage formatTime m)
        = ["uuid"] ++ (if m.ParentUUID = "" then [] else ["parent_uuid"])
          ++ ["timestamp", "role", "content", "metadata"])
    ∧ (∀ md : MessageMetadata, output.objKeys (output.encodeMessageMetadata md)
        = (if md.IsSidechain then ["is_sidechain"] else [])
          ++ (if md.AgentID = "" then [] else ["agent_id"])
          ++ ["tokens"]
          ++ (if md.Model = "" then [] else ["model"])
          ++ (if md.RequestID = "" then [] else ["request_id"])
          ++ (if md.Extra.isEmpty then [] else ["extra"]))
    ∧ (∀ t, output.objKeys (output.encodeTokenUsage t)
        = (if t.InputTokens = 0 then [] else ["input_tokens"])
          ++ (if t.OutputTokens = 0 then [] else ["output_tokens"])
          ++ (if t.TotalTokens = 0 then [] else ["total_tokens"]))
    ∧ (∀ b, output.objKeys (output.encodeContentBlock b)
        = ["type"] ++ (if b.Text = "" then [] else ["text"])
          ++ (if b.ToolName = "" then [] else ["tool_name"])
          ++ (if b.ToolInput.isEmpty then [] else ["tool_input"])
          ++ (if b.ToolUseID = "" then [] else ["tool_use_id"])
          ++ (if b.ToolContent = "" then [] else ["tool_content"]))
    ∧ (∀ a, output.objKeys (output.encodeSubagent formatTime a)
        = ["agent_id"] ++ (if a.Slug = "" then [] else ["slug"]) ++ ["messages"])
    ∧ (∀ md : MessageMetadata, md.Tokens = none →
        output.objField (output.encodeMessageMetadata md) "tokens" = some JSON.null) := by
  refine ⟨fun o => rfl, ?_, ?_, ?_, ?_, ?_, ?_, ?_, ?_⟩
  · intro s
    simp only [output.encodeSession, output.objKeys, List.map_append, List.map_cons, List.map_nil]
    split_ifs <;> rfl
  · intro md
    simp only [output.encodeSessionMetadata, output.objKeys, List.map_append,
      omitEmptyString_keys, omitEmptyStringMap_keys]
  · intro m
    simp only [output.encodeMessage, output.objKeys, List.map_append, List.map_cons,
      List.map_nil, omitEmptyString_keys]
  · intro md
    simp only [output.encodeMessageMetadata, output.objKeys, List.map_append, List.map_cons,
      List.map_nil, omitEmptyString_keys, omitEmptyStringMap_keys]
    split_ifs <;> rfl
  · intro t
    simp only [output.encodeTokenUsage, output.objKeys, List.map_append, omitEmptyInt_keys]
  · intro b
    simp only [output.encodeContentBlock, output.objKeys, List.map_append, List.map_cons,
      List.map_nil, omitEmptyString_keys]
    split_ifs <;> rfl
  · intro a
    simp only [output.encodeSubagent, output.objKeys, List.map_append, List.map_cons,
      List.map_nil, omitEmptyString_keys]
  · intro md hmd
    unfold output.encodeMessageMetadata output.objField
    rw [hmd]
    by_cases h1 : md.IsSidechain = true <;> by_cases h2 : md.AgentID = ""
      <;> simp [h1, h2, output.omitEmptyString, List.lookup_cons]

/-- Witness of C24: a session without subagents is written without the key
`subagents`. -/
theorem encoded_keys_witness :
    output.objKeys (output.encodeSession formatRFC3339 (filter.sessionAt "claude" "s1" 2000))
      = ["agent_type", "session_id", "created_at", "updated_at", "metadata", "messages"] :=
  (encoded_keys formatRFC3339).2.1 (filter.sessionAt "claude" "s1" 2000)

/-- Counterexample to C24 as stated: a Message with an empty identifier and no
token usage is written with the key `uuid`, holding the empty string, and its
metadata with the key `tokens`, holding `null`. -/
theorem uuid_and_tokens_written :
    output.objKeys (output.encodeMessage formatRFC3339 output.bareMessage)
        = ["uuid", "timestamp", "role", "content", "metadata"]
    ∧ output.objField (output.encodeMessage formatRFC3339 output.bareMessage) "uuid"
        = some (JSON.str "")
    ∧ output.objKeys (output.encodeMessageMetadata output.bareMessage.Metadata) = ["tokens"]
    ∧ output.objField (output.encodeMessageMetadata output.bareMessage.Metadata) "tokens"
        = some JSON.null :=
  ⟨by decide, rfl, by decide, rfl⟩

/-- C25, the code at the failing input: with one Claude session in the source,
the agent kind `Claude` equals `claude` ignoring case and the filter keeps the
session for it, yet the run for `Claude` reads no source and hands the nil list
to the writer, while the run for `claude` hands over the session. -/
theorem capitalized_agent_reads_nothing :
    EqualFold asciiOrbit "claude" "Claude" = true
    ∧ filter.Apply asciiOrbit [filter.sessionAt "claude" "s1" 2000]
          { AgentType := "Claude", SessionID := "", Since := Time.zero, Until := Time.zero }
        = [filter.sessionAt "claude" "s1" 2000]
    ∧ cmd.runSessions asciiOrbit parseRFC3339 (some [filter.sessionAt "claude" "s1" 2000])
          (some []) { agentType := "Claude", sessionID := "", since := "", until_ := "" }
        = some none
    ∧ cmd.runSessions asciiOrbit parseRFC3339 (some [filter.sessionAt "claude" "s1" 2000])
          (some []) { agentType := "claude", sessionID := "", since := "", until_ := "" }
        = some (some [filter.sessionAt "claude" "s1" 2000]) :=
  ⟨by decide, rfl, rfl, rfl⟩

/-! ## Well-formed blocks -/

theorem claude_block_wellFormed (block : Obj) (b : ContentBlock)
    (h : claude.parseContentBlock block = some b) :
    b.Type_ = typeTag block ∧ wellFormedBlock b := by
  unfold claude.parseContentBlock at h
  simp only at h
  unfold typeTag wellFormedBlock
  split_ifs at h with h1 h2 h3
  · simp only [Option.some.injEq] at h
    subst h
    simp [h1, ContentBlock.empty]
  · simp only [Option.some.injEq] at h
    subst h
    simp [h2, ContentBlock.empty]
  · simp only [Option.some.injEq] at h
    subst h
    simp [h3, ContentBlock.empty]

theorem goose_block_wellFormed (block : Obj) (b : ContentBlock)
    (h : goose.parseContentBlock block = some b) :
    b.Type_ = typeTag block ∧ wellFormedBlock b := by
  unfold goose.parseContentBlock at h
  simp only at h
  unfold typeTag wellFormedBlock
  split_ifs at h with h1 h2 h3
  · simp only [Option.some.injEq] at h
    subst h
    simp [h1, ContentBlock.empty]
  · simp only [Option.some.injEq] at h
    subst h
    simp [h2, ContentBlock.empty]
  · simp only [Option.some.injEq] at h
    subst h
    simp [h3, ContentBlock.empty]
  · cases ht : asString (field block "text") with
    | none => rw [ht] at h; exact absurd h (by simp)
    | some text =>
      rw [ht] at h
      simp only [Option.some.injEq] at h
      subst h
      simp [h2, h3, ContentBlock.empty]

/-- C31: every block either normalizer returns has as Type the type tag of the
raw block and is well-formed for its kind: a block that is neither a tool use
nor a tool result has an empty ToolName, ToolUseID and ToolContent and no
ToolInput, a tool-use block has an empty Text and ToolContent, and a tool-result
block has an empty Text and ToolName and no ToolInput. -/
theorem returned_block_wellFormed (block : Obj) (b : ContentBlock)
    (h : claude.parseContentBlock block = some b ∨ goose.parseContentBlock block = some b) :
    b.Type_ = typeTag block
    ∧ (b.Type_ ≠ "tool_use" → b.Type_ ≠ "tool_result" →
        b.ToolName = "" ∧ b.ToolUseID = "" ∧ b.ToolContent = "" ∧ b.ToolInput = [])
    ∧ (b.Type_ = "tool_use" → b.Text = "" ∧ b.ToolContent = "")
    ∧ (b.Type_ = "tool_result" → b.Text = "" ∧ b.ToolName = "" ∧ b.ToolInput = []) := by
  rcases h with h | h
  · exact claude_block_wellFormed block b h
  · exact goose_block_wellFormed block b h

/-- Witness of C31: the block the Goose normalizer returns for the block of
type `custom` with a text has the tag `custom` and no tool field. -/
theorem returned_block_wellFormed_witness :
    goose.parseContentBlock claude.customTextBlock
        = some { ContentBlock.empty with Type_ := "custom", Text := "Custom content" }
    ∧ ({ ContentBlock.empty with Type_ := "custom", Text := "Custom content" } : ContentBlock).Type_
        = typeTag claude.customTextBlock
    ∧ ({ ContentBlock.empty with Type_ := "custom", Text := "Custom content" }
        : ContentBlock).ToolName = "" :=
  ⟨rfl,
   (returned_block_wellFormed claude.customTextBlock
      { ContentBlock.empty with Type_ := "custom", Text := "Custom content" } (Or.inr rfl)).1,
   ((returned_block_wellFormed claude.customTextBlock
      { ContentBlock.empty with Type_ := "custom", Text := "Custom content" } (Or.inr rfl)).2.1
      (by decide) (by decide)).1⟩

/-! ## Filtering the concatenated sources -/

/-- C32: filtering distributes over concatenation: `Apply (xs ++ ys) o` is
`Apply xs o` followed by `Apply ys o`, with the same sessions in the same
order. -/
theorem Apply_append (orbit : Char → Char → Bool) (xs ys : List Session)
    (o : filter.Options) :
    filter.Apply orbit (xs ++ ys) o = filter.Apply orbit xs o ++ filter.Apply orbit ys o := by
  rw [filter.Apply_eq_filter, filter.Apply_eq_filter, filter.Apply_eq_filter,
    List.filter_append]

end Braindump
